import Mathlib

/-!
# parmpars: a shallow embedding of `parmpars.hpp`

The header keeps its state in three places: the process-wide `Alerts` (the
`hadError` flag and what was written to `std::cerr`), the `Preprocessor`
table and the `ParamParser` table.  A `std::string` is a Lean `String`, one
`Char` per `char`.  The arguments come from `argv` and the names from string
literals, so no text holds a NUL character and a passage through `c_str()`
is the identity; it is not modelled.  `Alerts::error` ends in `exit(1)`: a
computation either returns a value or ends the process, and both carry the
alerts so far.  `exit(1)` runs the destructor of the global parser with
`hadError` set, which prints nothing.
-/

namespace ParmPars

/-! ## Build options and external matchers -/

/-- The two preprocessor switches of the header (`PARMPARS_EXIT_ON_WARNING`,
`PARMPARS_USE_REGEX`) and the two matchers it calls but does not define:
`std::regex_match(value, std::regex(re))` and testlib's
`pattern(re).matches(value)`; both take the pattern first here.  Without
`PARMPARS_USE_REGEX` the pattern validator exists only when `testlib.h` was
included before the header, as both programs of the repository do. -/
structure Build where
  exitOnWarning : Bool
  useRegex : Bool
  regexMatch : String → String → Bool
  patternMatches : String → String → Bool

/-- The build of the repository's two programs: neither switch is defined.
The matcher `m` stands for testlib's. -/
def Build.tests (m : String → String → Bool) : Build := ⟨false, false, m, m⟩

/-! ## Alerts -/

/-- `Alerts::Severity`. -/
inductive Severity where
  | Error
  | Warning
  | Note
deriving DecidableEq, Repr

/-- `Alerts::names`. -/
def names : Severity → String
  | .Error => "Error"
  | .Warning => "Warning"
  | .Note => "Note"

/-- The process-wide state of namespace `Alerts`: the flag `hadError` and the
lines written to `std::cerr`, oldest first. -/
structure Alerts where
  hadError : Bool
  cerr : List String
deriving DecidableEq, Repr

/-- The state at process start: `hadError = false`, nothing printed. -/
def Alerts.init : Alerts := ⟨false, []⟩

/-- How a call ends: it returns a value, or `exit(1)` was called. -/
inductive Run (α : Type) where
  | returned (value : α) (alerts : Alerts)
  | exited (alerts : Alerts)
deriving DecidableEq, Repr

/-- A computation over the global alert state. -/
def Proc (α : Type) : Type := Alerts → Run α

/-- Return without touching the alert state. -/
def Proc.pure {α : Type} (a : α) : Proc α := fun s => Run.returned a s

/-- Sequencing: nothing runs after `exit(1)`. -/
def Proc.bind {α β : Type} (x : Proc α) (f : α → Proc β) : Proc β := fun s =>
  match x s with
  | Run.returned a s1 => f a s1
  | Run.exited s1 => Run.exited s1

instance : Monad Proc where
  pure := Proc.pure
  bind := Proc.bind

/-- `Alerts::processAlert`. -/
def processAlert (b : Build) (severity : Severity) : Proc Unit := fun s =>
  let mustExit := (severity == Severity.Error) || (b.exitOnWarning && severity == Severity.Warning)
  if mustExit then Run.exited { s with hadError := true } else Run.returned () s

/-- `Alerts::showAlert`: one line on `std::cerr`. -/
def showAlert (severity : Severity) (text : String) : Proc Unit := fun s =>
  Run.returned () { s with cerr := s.cerr ++ [names severity ++ ": " ++ text] }

/-- `Alerts::raiseAlert`. -/
def raiseAlert (b : Build) (severity : Severity) (text : String) : Proc Unit := do
  showAlert severity text
  processAlert b severity

/-- `Alerts::warning`. -/
def warning (b : Build) (text : String) : Proc Unit :=
  raiseAlert b Severity.Warning text

/-- `Alerts::note`. -/
def note (b : Build) (text : String) : Proc Unit :=
  raiseAlert b Severity.Note text

/-- `Alerts::error`: `raiseAlert(Severity::Error, text)`.  For `Error` the flag
`mustExit` of `processAlert` is true in every build, so the line is printed,
`hadError` is set and `exit(1)` is called; the code after the call is never
run, which is why the result type is arbitrary. -/
def error {α : Type} (text : String) : Proc α := fun s =>
  Run.exited { hadError := true, cerr := s.cerr ++ [names Severity.Error ++ ": " ++ text] }

/-! ## `std::map` with `std::string` keys -/

/-- The order `std::less<std::string>` of the keys: lexicographic in the
character codes. -/
def strLess : List Char → List Char → Bool
  | _, [] => false
  | [], _ :: _ => true
  | a :: as, b :: bs =>
    if a.toNat < b.toNat then true
    else if b.toNat < a.toNat then false
    else strLess as bs

/-- A `std::map<std::string, V>`: the entries in increasing key order. -/
abbrev StdMap (V : Type) : Type := List (String × V)

namespace StdMap

/-- `m.find(key)`, with `none` for `end(m)`. -/
def find {V : Type} (m : StdMap V) (key : String) : Option V :=
  match m with
  | [] => none
  | (k, v) :: rest => if k = key then some v else find rest key

/-- `m[key] = v`: replaces the entry of `key` or inserts it at its place in
the key order. -/
def set {V : Type} (m : StdMap V) (key : String) (v : V) : StdMap V :=
  match m with
  | [] => [(key, v)]
  | (k, w) :: rest =>
    if strLess key.data k.data then (key, v) :: (k, w) :: rest
    else if k = key then (key, v) :: rest
    else (k, w) :: set rest key v

/-- The keys, in iteration order. -/
def keys {V : Type} (m : StdMap V) : List String := m.map Prod.fst

end StdMap

/-! ## Identifiers -/

namespace Variables

/-- `Variables::isValidStartChar`. -/
def isValidStartChar (c : Char) : Bool :=
  ('a' ≤ c && c ≤ 'z') || ('A' ≤ c && c ≤ 'Z') || (c == '_')

/-- `Variables::isValidMiddleChar`. -/
def isValidMiddleChar (c : Char) : Bool :=
  isValidStartChar c || ('0' ≤ c && c ≤ '9')

/-- `Variables::isValidName`. -/
def isValidName (name : String) : Bool :=
  match name.data with
  | [] => false
  | c :: rest => if !isValidStartChar c then false else rest.all isValidMiddleChar

end Variables

/-! ## The preprocessor -/

/-- Class `Preprocessor::Preprocessor`: its only member is `variables_`. -/
structure Preprocessor where
  variables_ : StdMap String
deriving DecidableEq, Repr

namespace Preprocessor

/-- The constructor: `variables_[""] = "@"`. -/
def new : Preprocessor := ⟨StdMap.set [] "" "@"⟩

/-- `Preprocessor::define`. -/
def define (pre : Preprocessor) (name value : String) : Proc Preprocessor :=
  if !Variables.isValidName name then
    error ("Macro \"" ++ name ++ "\" has invalid name")
  else
    pure ⟨StdMap.set pre.variables_ name value⟩

/-- The inner loop of `preprocess`:
`while (i < len && isValidMiddleChar(line[i])) ++i;`, giving the final `i`
(which is never below the initial one). -/
def skipNameFrom (line : List Char) (i : Nat) : { j : Nat // i ≤ j } :=
  if h : i < line.length then
    if Variables.isValidMiddleChar (line.get ⟨i, h⟩) then
      ⟨(skipNameFrom line (i + 1)).1, Nat.le_of_succ_le (skipNameFrom line (i + 1)).2⟩
    else ⟨i, Nat.le_refl i⟩
  else ⟨i, Nat.le_refl i⟩
termination_by line.length - i

/-- The index at which the inner loop of `preprocess` stops. -/
def skipName (line : List Char) (i : Nat) : Nat := (skipNameFrom line i).1

/-- `line.substr(p, n)` for `p ≤ line.size()`. -/
def substr (line : List Char) (p n : Nat) : String := ⟨(line.drop p).take n⟩

/-- The step `if (i < len && line[i] == '!') ++i;` of `preprocess`. -/
def skipBang (line : List Char) (i : Nat) : Nat :=
  if h : i < line.length then (if line.get ⟨i, h⟩ = '!' then i + 1 else i) else i

/-- The `for` loop of `preprocess`, entered with index `i` and the text `res`
built so far. -/
def preprocessLoop (pre : Preprocessor) (line : List Char) (i : Nat) (res : String) :
    Proc String :=
  if h : i < line.length then
    if line.get ⟨i, h⟩ ≠ '@' then
      preprocessLoop pre line (i + 1) (res.push (line.get ⟨i, h⟩))
    else
      let p := i + 1
      let j := skipName line p
      let varName := substr line p (j - p)
      let k := skipBang line j
      match pre.variables_.find varName with
      | none => error ("Macro \"" ++ varName ++ "\" not found")
      | some value => preprocessLoop pre line k (res ++ value)
  else pure res
termination_by line.length - i
decreasing_by
  · omega
  · have h1 : i + 1 ≤ skipName line (i + 1) := (skipNameFrom line (i + 1)).2
    have h2 : skipName line (i + 1) ≤ skipBang line (skipName line (i + 1)) := by
      unfold skipBang
      split
      · split <;> omega
      · omega
    omega

/-- `Preprocessor::preprocess`. -/
def preprocess (pre : Preprocessor) (line : String) : Proc String :=
  preprocessLoop pre line.data 0 ""

end Preprocessor

/-! ## Stream formatting and stream extraction -/

/-- The text `os << value` writes for a value of type `T` (default stream
flags: decimal, no `boolalpha`). -/
class StreamOut (T : Type) where
  format : T → String

instance : StreamOut Int := ⟨fun v => toString v⟩

instance : StreamOut String := ⟨fun v => v⟩

instance : StreamOut Char := ⟨fun v => String.singleton v⟩

instance : StreamOut Bool := ⟨fun v => if v then "1" else "0"⟩

/-- The value of a `char` as the signed 8-bit number the comparisons of the
header see. -/
def signedChar (c : Char) : Int :=
  if c.toNat < 128 then (c.toNat : Int) else (c.toNat : Int) - 256

/-- `std::isspace` in the "C" locale. -/
def isSpace (c : Char) : Bool :=
  c == ' ' || (9 ≤ c.toNat && c.toNat ≤ 13)

/-- The number a run of decimal digits denotes. -/
def digitsValue (ds : List Char) : Nat :=
  ds.foldl (fun acc c => 10 * acc + (c.toNat - 48)) 0

/-- `INT_MIN` of a 32-bit `int`. -/
def INT_MIN : Int := -2147483648

/-- `INT_MAX` of a 32-bit `int`. -/
def INT_MAX : Int := 2147483647

/-- `std::istringstream is(str); is >> value` for `int value`, as the standard
library does it: leading whitespace is skipped, an optional sign and the
longest run of decimal digits are read; no digit or a number outside `int`
sets `failbit` (first component `none`).  The second component is
`is.eof()`: reading ran into the end of the text. -/
def extractInt (str : List Char) : Option Int × Bool :=
  let body := str.dropWhile isSpace
  let negative := body.head? = some '-'
  let unsigned := if body.head? = some '-' ∨ body.head? = some '+' then body.tail else body
  let digits := unsigned.takeWhile Char.isDigit
  let rest := unsigned.dropWhile Char.isDigit
  let eof := rest.isEmpty
  if digits.isEmpty then (none, eof)
  else
    let v : Int := if negative then -(digitsValue digits : Int) else (digitsValue digits : Int)
    if v < INT_MIN ∨ INT_MAX < v then (none, eof) else (some v, eof)

/-! ## Type names and conversions -/

/-- `TypeInfo<T>::getTypeName`. -/
class TypeInfo (T : Type) where
  getTypeName : String

/-- `ReadFromString<T>::doIt`: `some value` when the C++ function returns
`true` with `value` assigned, `none` when it returns `false`. -/
class ReadFromString (T : Type) where
  doIt : String → Option T

instance : TypeInfo Bool := ⟨"bool"⟩

instance : TypeInfo Char := ⟨"char"⟩

instance : TypeInfo Int := ⟨"int"⟩

instance : TypeInfo String := ⟨"string"⟩

/-- `ReadFromString<T>` for arithmetic `T`, at `T = int`. -/
def readInt (str : String) : Option Int :=
  match str.data with
  | [] => none
  | c :: _ =>
    if signedChar c ≤ signedChar ' ' then none
    else
      match extractInt str.data with
      | (none, _) => none
      | (some value, eof) => if !eof then none else some value

/-- `ReadFromString<std::string>`. -/
def readString (str : String) : Option String := some str

/-- `ReadFromString<char>`. -/
def readChar (str : String) : Option Char :=
  match str.data with
  | [c] => some c
  | _ => none

/-- `ReadFromString<bool>`. -/
def readBool (str : String) : Option Bool :=
  let lowStr : String := ⟨str.data.map Char.toLower⟩
  if lowStr = "true" ∨ lowStr = "1" then some true
  else if lowStr = "false" ∨ lowStr = "0" then some false
  else none

instance : ReadFromString Int := ⟨readInt⟩

instance : ReadFromString String := ⟨readString⟩

instance : ReadFromString Char := ⟨readChar⟩

instance : ReadFromString Bool := ⟨readBool⟩

/-! ## Ranges and validators -/

/-- `Range<T>`. -/
structure Range (T : Type) where
  left : T
  right : T
deriving DecidableEq, Repr

/-- The integral types: what the header needs of them is the order. -/
class Integral (T : Type) where
  le : T → T → Bool

instance : Integral Int := ⟨fun a b => decide (a ≤ b)⟩

instance : Integral Char := ⟨fun a b => decide (signedChar a ≤ signedChar b)⟩

instance : Integral Bool := ⟨fun a b => !a || b⟩

/-- `isRangeValid` for integral `T`. -/
def isRangeValid {T : Type} [Integral T] (res : Range T) : Bool :=
  Integral.le res.left res.right

/-- The factory `range(left, right)`. -/
def range {T : Type} [Integral T] [StreamOut T] (left right : T) : Proc (Range T) :=
  let res : Range T := ⟨left, right⟩
  if !isRangeValid res then
    error ("Range [" ++ StreamOut.format left ++ "; " ++ StreamOut.format right ++ "] is invalid!")
  else pure res

/-- `inRange` through `InRange<T, T>` for integral `T`. -/
def inRange {T : Type} [Integral T] (range : Range T) (value : T) : Bool :=
  Integral.le range.left value && Integral.le value range.right

/-- `DataValidate<T, void, ValidateMeans...>::doIt` for the pack `M`. -/
class DataValidate (T : Type) (M : Type) where
  doIt : Build → String → T → M → Proc Unit

/-- The empty pack, `DataValidate<T, void>`: nothing is checked. -/
instance (T : Type) : DataValidate T Unit := ⟨fun _ _ _ _ => pure ()⟩

/-- The pack `Range<R>` with `R = T`. -/
instance (T : Type) [Integral T] [StreamOut T] : DataValidate T (Range T) :=
  ⟨fun _ varName value range =>
    if !inRange range value then
      error (varName ++ " = " ++ StreamOut.format value ++ " is not in the range "
        ++ "[" ++ StreamOut.format range.left ++ "; " ++ StreamOut.format range.right ++ "]")
    else pure ()⟩

/-- The pack of one pattern, for `std::string` values. -/
instance : DataValidate String String :=
  ⟨fun b varName value re =>
    let failed := if b.useRegex then !b.regexMatch re value else b.patternMatches re value
    if failed then
      error (varName ++ " = \"" ++ value ++ "\" doesn\'t match regex" ++ "\"" ++ re ++ "\"")
    else pure ()⟩

/-- The function `dataValidate`. -/
def dataValidate {T M : Type} [DataValidate T M] (b : Build) (varName : String) (value : T)
    (means : M) : Proc Unit :=
  DataValidate.doIt b varName value means

/-! ## The parameter parser -/

namespace ValidateUtils

/-- `ValidateUtils::isRandomSeed`. -/
def isRandomSeed (str : String) : Bool :=
  str.data.all fun c => ('0' ≤ c && c ≤ '9') || ('a' ≤ c && c ≤ 'z') || ('A' ≤ c && c ≤ 'Z')

end ValidateUtils

/-- `ParamParser::VariableValue`. -/
structure VariableValue where
  value : String
  lastType : String
  paramNumber : Nat
  referenced : Bool
deriving DecidableEq, Repr

/-- The members of `ParamParser`. -/
structure ParamParser where
  loaded_ : Bool
  variables_ : StdMap VariableValue
  preprocessor_ : Preprocessor
deriving DecidableEq, Repr

/-- `str.find(c)`: the first position of `c`, `none` for `npos`. -/
def strFind (str : List Char) (c : Char) : Option Nat :=
  match str with
  | [] => none
  | x :: rest => if x = c then some 0 else (strFind rest c).map (· + 1)

namespace ParamParser

/-- A parser as declared: not loaded, no variables, a fresh preprocessor. -/
def new : ParamParser := ⟨false, [], Preprocessor.new⟩

/-- `ParamParser::checkLoaded`. -/
def checkLoaded (pp : ParamParser) : Proc Unit :=
  if !pp.loaded_ then error "ParamParser is not loaded!" else pure ()

/-- The bookkeeping of `internalGet` on the entry found: the first read sets
`referenced`, a later one compares the type names and warns when they
differ. -/
def recordReference (b : Build) (varName typeName : String) (varValue : VariableValue) :
    Proc VariableValue :=
  if !varValue.referenced then
    pure { varValue with referenced := true }
  else do
    if varValue.lastType ≠ typeName then
      warning b ("Variable " ++ varName ++ " referenced as two different "
        ++ "types: " ++ varValue.lastType ++ " and " ++ typeName)
    pure varValue

/-- `ParamParser::internalGet`: the new value of `res` and the parser after
the call. -/
def internalGet {T M : Type} [TypeInfo T] [ReadFromString T] [DataValidate T M] (b : Build)
    (pp : ParamParser) (varName : String) (res : T) (means : M) : Proc (T × ParamParser) :=
  match pp.variables_.find varName with
  | some varValue => do
    let typeName := TypeInfo.getTypeName T
    let preprocessedValue ← pp.preprocessor_.preprocess varValue.value
    match (ReadFromString.doIt preprocessedValue : Option T) with
    | none =>
      error ("Could not convert " ++ varName ++ " = \"" ++ preprocessedValue
        ++ "\" to type " ++ typeName)
    | some res1 => do
      let varValue1 ← recordReference b varName typeName varValue
      let varValue2 := { varValue1 with lastType := typeName }
      let pp1 := { pp with variables_ := pp.variables_.set varName varValue2 }
      dataValidate b varName res1 means
      pure (res1, pp1)
  | none => do
    dataValidate b varName res means
    pure (res, pp)

/-- `void ParamParser::get(varName, res, means...)`. -/
def getRef {T M : Type} [TypeInfo T] [ReadFromString T] [DataValidate T M] (b : Build)
    (pp : ParamParser) (varName : String) (res : T) (means : M) : Proc (T × ParamParser) := do
  checkLoaded pp
  if pp.variables_.find varName = none then
    error (α := Unit) ("Variable " ++ varName ++ " not found")
  internalGet b pp varName res means

/-- `void ParamParser::getDefault(varName, res, defaultVal, means...)`. -/
def getDefaultRef {T M : Type} [TypeInfo T] [ReadFromString T] [DataValidate T M] (b : Build)
    (pp : ParamParser) (varName : String) (_res : T) (defaultVal : T) (means : M) :
    Proc (T × ParamParser) := do
  checkLoaded pp
  let res := defaultVal
  internalGet b pp varName res means

/-- `T ParamParser::get(varName, means...)`; the uninitialised local `T res`
is `default`. -/
def get {T M : Type} [Inhabited T] [TypeInfo T] [ReadFromString T] [DataValidate T M]
    (b : Build) (pp : ParamParser) (varName : String) (means : M) : Proc (T × ParamParser) :=
  getRef b pp varName default means

/-- `T ParamParser::getDefault(varName, defaultVal, means...)`; the
uninitialised local `T res` is `default`. -/
def getDefault {T M : Type} [Inhabited T] [TypeInfo T] [ReadFromString T] [DataValidate T M]
    (b : Build) (pp : ParamParser) (varName : String) (defaultVal : T) (means : M) :
    Proc (T × ParamParser) :=
  getDefaultRef b pp varName default defaultVal means

/-- `ParamParser::define`. -/
def define {T : Type} [StreamOut T] (pp : ParamParser) (name : String) (value : T) :
    Proc ParamParser := do
  let pre ← pp.preprocessor_.define name (StreamOut.format value)
  pure { pp with preprocessor_ := pre }

/-- The body of the `for` loop of `load` from index `idx` on; `args` are
`argv[idx]`, `argv[idx+1]`, ... up to `argv[argc-1]`. -/
def loadFrom (argc : Nat) (idx : Nat) (args : List String) (pp : ParamParser) :
    Proc ParamParser :=
  match args with
  | [] => pure pp
  | param :: rest =>
    if param.data.isEmpty then loadFrom argc (idx + 1) rest pp
    else if ValidateUtils.isRandomSeed param && idx == argc - 1 then
      loadFrom argc (idx + 1) rest pp
    else
      match strFind param.data '=' with
      | none =>
        error ("Error while parsing parameter #" ++ toString idx ++ " : "
          ++ "\"" ++ param ++ "\" is not a valid variable!")
      | some splitPos =>
        let varName : String := ⟨param.data.take splitPos⟩
        let varValue : String := ⟨param.data.drop (splitPos + 1)⟩
        if !Variables.isValidName varName then
          error ("Error while parsing parameter #" ++ toString idx ++ " : "
            ++ "\"" ++ varName ++ "\" is invalid variable name!")
        else
          match pp.variables_.find varName with
          | some first =>
            error ("Error while parsing parameter #" ++ toString idx ++ " : "
              ++ "variable " ++ varName ++ " declared twice "
              ++ "(first declared in parameter #"
              ++ toString first.paramNumber ++ ")")
          | none =>
            loadFrom argc (idx + 1) rest
              { pp with variables_ :=
                  pp.variables_.set varName ⟨varValue, "undefined", idx, false⟩ }

/-- `ParamParser::load(argc, argv)`, with `argc = argv.length`. -/
def load (pp : ParamParser) (argv : List String) : Proc ParamParser := do
  let pp1 ← loadFrom argv.length 1 (argv.drop 1) pp
  pure { pp1 with loaded_ := true }

/-- The `for` loop of the destructor over the entries in key order. -/
def auditLoop (b : Build) (vars : StdMap VariableValue) : Proc Unit :=
  match vars with
  | [] => pure ()
  | (name, value) :: rest => do
    if !value.referenced then
      warning b ("Variable " ++ name ++ " is unused!")
    auditLoop b rest

/-- The destructor `ParamParser::~ParamParser`. -/
def destroy (b : Build) (pp : ParamParser) : Proc Unit := fun s =>
  if !pp.loaded_ then Run.returned () s
  else if s.hadError then Run.returned () s
  else auditLoop b pp.variables_ s

end ParamParser

/-! ## Definitions used to state the properties -/

/-- `r` is how a fatal Error ends a call: one more line `Error: text` on
`std::cerr`, `hadError` set, `exit(1)`. -/
def Run.IsError {α : Type} (r : Run α) : Prop :=
  ∃ (text : String) (s : Alerts), r = error text s

/-- The text after one leading `'!'`, if there is one. -/
def dropBang : List Char → List Char
  | '!' :: r => r
  | t => t

/-- The reference definition of expansion, by the shape of the text: the
empty text; a character other than `'@'` followed by `t`; `'@'` followed by
the longest run `n` of letters, digits and underscores and then a rest, from
which one leading `'!'` is removed.  A name without a definition is the
failure, reported with that name. -/
def expandRef (table : StdMap String) : List Char → Except String String
  | [] => Except.ok ""
  | c :: t =>
    if c ≠ '@' then
      match expandRef table t with
      | Except.ok out => Except.ok (String.singleton c ++ out)
      | Except.error n => Except.error n
    else
      let n : String := ⟨t.takeWhile Variables.isValidMiddleChar⟩
      match table.find n with
      | none => Except.error n
      | some v =>
        match expandRef table (dropBang (t.dropWhile Variables.isValidMiddleChar)) with
        | Except.ok out => Except.ok (v ++ out)
        | Except.error m => Except.error m
termination_by text => text.length
decreasing_by
  · simp
  · simp only [List.length_cons]
    apply Nat.lt_succ_of_le
    apply Nat.le_trans _ (List.dropWhile_suffix Variables.isValidMiddleChar).length_le
    unfold dropBang
    split
    · rename_i h
      rw [h]
      simp
    · exact Nat.le_refl _

/-- What `preprocess` does for a result of the reference definition, with
`res` the text built before. -/
def expandOutcome (res : String) (r : Except String String) : Proc String :=
  match r with
  | Except.ok out => pure (res ++ out)
  | Except.error n => error ("Macro \"" ++ n ++ "\" not found")

/-- Some `'@'` of the text is followed by a longest run of identifier
characters that is not a key of the table. -/
def HasUndefinedReference (table : StdMap String) (text : List Char) : Prop :=
  ∃ t : List Char, ('@' :: t) <:+ text ∧
    table.find ⟨t.takeWhile Variables.isValidMiddleChar⟩ = none

/-- The value `parse_T(expand(raw))` a read of the raw text `raw` is to give,
`none` when the expansion or the conversion fails. -/
def parseExpanded (T : Type) [ReadFromString T] (pre : Preprocessor) (raw : String)
    (s : Alerts) : Option T :=
  match pre.preprocess raw s with
  | Run.returned text _ => ReadFromString.doIt text
  | Run.exited _ => none

/-- The preprocessor of `test_macros.cpp` after `define("var1", "hello")` and
`define("var2", 42)`. -/
def Preprocessor.sample : Preprocessor :=
  ⟨(Preprocessor.new.variables_.set "var1" "hello").set "var2" "42"⟩

/-- The same outcome with `f` applied to the value returned. -/
def Run.map {α β : Type} (f : α → β) : Run α → Run β
  | Run.returned a s => Run.returned (f a) s
  | Run.exited s => Run.exited s

/-- The build of the repository's programs with a matcher that accepts
nothing; used where no pattern is involved. -/
def Build.plain : Build := Build.tests fun _ _ => false

/-- The strict build: `PARMPARS_EXIT_ON_WARNING` is defined, a Warning ends
the program.  Otherwise as `Build.plain`; used where no pattern is
involved. -/
def Build.strict : Build := { Build.plain with exitOnWarning := true }

/-- A loaded parser whose only entry is `s1=@var1, world!`, with the macros of
`test_macros.cpp` defined after the load. -/
def ParamParser.sample : ParamParser :=
  ⟨true, [("s1", ⟨"@var1, world!", "undefined", 1, false⟩)], Preprocessor.sample⟩

/-- A loaded parser whose only entry is `present=50`. -/
def ParamParser.present50 : ParamParser :=
  ⟨true, [("present", ⟨"50", "undefined", 1, false⟩)], Preprocessor.new⟩

/-- A loaded parser without entries: what `load` leaves for a bare command
line. -/
def ParamParser.loadedEmpty : ParamParser := ⟨true, [], Preprocessor.new⟩

/-- The argument `name=value` for the pair `(name, value)`. -/
def declArg (d : String × String) : String := d.1 ++ "=" ++ d.2

/-- An argument that `load` accepts at any position: the empty one (`none`)
or a declaration `name=value`. -/
def renderArg : Option (String × String) → String
  | none => ""
  | some d => declArg d

/-- The names declared by a list of accepted arguments, in order. -/
def declNames (ds : List (Option (String × String))) : List String :=
  ds.filterMap fun d => d.map Prod.fst

/-- The table after the accepted arguments `ds`, the first of which is
`argv[idx]`, were entered into the table `m`. -/
def addDecls (idx : Nat) (ds : List (Option (String × String))) (m : StdMap VariableValue) :
    StdMap VariableValue :=
  match ds with
  | [] => m
  | none :: rest => addDecls (idx + 1) rest m
  | some d :: rest => addDecls (idx + 1) rest (m.set d.1 ⟨d.2, "undefined", idx, false⟩)

/-- The keys of the table are strictly increasing: the `std::map` invariant. -/
def StdMap.Ordered {V : Type} (m : StdMap V) : Prop :=
  m.Pairwise fun a b => strLess a.1.data b.1.data = true

/-- The `referenced` flag of every entry, by key. -/
def flags (m : StdMap VariableValue) : List (String × Bool) :=
  m.map fun e => (e.1, e.2.referenced)

/-- The line the destructor prints for an unused variable. -/
def unusedLine (name : String) : String :=
  "Warning: " ++ ("Variable " ++ name ++ " is unused!")

/-- The validator packs the header has a `DataValidate` for: the empty pack,
one integral range, one pattern for a `std::string` value. -/
inductive Pack : (T M : Type) → DataValidate T M → Prop where
  | empty (T : Type) : Pack T Unit inferInstance
  | range (T : Type) [Integral T] [StreamOut T] : Pack T (Range T) inferInstance
  | pattern : Pack String String inferInstance

/-- One successful typed read of `name`: a call of `get` or of `getDefault`
that returns, taking the parser from `pp` to `pp1` and the alerts from `s` to
`s1`. -/
inductive ReadStep (b : Build) :
    ParamParser → Alerts → String → ParamParser → Alerts → Prop where
  | get {T M : Type} [Inhabited T] [TypeInfo T] [ReadFromString T] [inst : DataValidate T M]
      (hp : Pack T M inst) (pp : ParamParser) (s : Alerts) (name : String) (means : M)
      (v : T) (pp1 : ParamParser) (s1 : Alerts)
      (h : pp.get b name means s = Run.returned (v, pp1) s1) : ReadStep b pp s name pp1 s1
  | getDefault {T M : Type} [Inhabited T] [TypeInfo T] [ReadFromString T]
      [inst : DataValidate T M] (hp : Pack T M inst) (pp : ParamParser) (s : Alerts)
      (name : String) (d : T) (means : M) (v : T) (pp1 : ParamParser) (s1 : Alerts)
      (h : pp.getDefault b name d means s = Run.returned (v, pp1) s1) :
      ReadStep b pp s name pp1 s1

/-- A sequence of successful typed reads, with the names read in order. -/
inductive Reads (b : Build) :
    ParamParser → Alerts → List String → ParamParser → Alerts → Prop where
  | nil (pp : ParamParser) (s : Alerts) : Reads b pp s [] pp s
  | cons {pp pp1 pp2 : ParamParser} {s s1 s2 : Alerts} {name : String} {names : List String}
      (h : ReadStep b pp s name pp1 s1) (rest : Reads b pp1 s1 names pp2 s2) :
      Reads b pp s (name :: names) pp2 s2

/-- The parser after `load` of the command line `i=1 l=2000111222
unused=45`. -/
def ParamParser.loaded3 : ParamParser :=
  ⟨true, [("i", ⟨"1", "undefined", 1, false⟩), ("l", ⟨"2000111222", "undefined", 2, false⟩),
    ("unused", ⟨"45", "undefined", 3, false⟩)], Preprocessor.new⟩

/-- The text `raw` is an optionally signed run of decimal digits that denotes
`v`, with nothing before, between or after. -/
def IsNumeral (raw : List Char) (v : Int) : Prop :=
  ∃ sign digits : List Char, raw = sign ++ digits ∧
    (sign = [] ∨ sign = ['-'] ∨ sign = ['+']) ∧ digits ≠ [] ∧
    (∀ d ∈ digits, d.isDigit = true) ∧
    v = if sign = ['-'] then -(digitsValue digits : Int) else (digitsValue digits : Int)

/-- The text with every letter `A`..`Z` replaced by its lower-case letter and
every other character kept. -/
def asciiLower (raw : String) : String :=
  ⟨raw.data.map fun c => if 'A' ≤ c ∧ c ≤ 'Z' then Char.ofNat (c.toNat + 32) else c⟩

/-- The integer an integral value stands for; the order of the type is the
order of these integers. -/
class IntegralValue (T : Type) [Integral T] where
  toInt : T → Int
  le_iff : ∀ a b : T, Integral.le a b = true ↔ toInt a ≤ toInt b

instance : IntegralValue Int := ⟨fun v => v, fun a b => by simp [Integral.le]⟩

instance : IntegralValue Char := ⟨signedChar, fun a b => by simp [Integral.le]⟩

instance : IntegralValue Bool :=
  ⟨fun v => if v then 1 else 0, fun a b => by cases a <;> cases b <;> decide⟩

/-- The preprocessor states that can be reached: the constructed one, and what
a `define` that returned leaves. -/
inductive Preprocessor.Reachable : Preprocessor → Prop where
  | new : Preprocessor.Reachable Preprocessor.new
  | define (pre pre1 : Preprocessor) (name value : String) (s s1 : Alerts)
      (h : Preprocessor.Reachable pre)
      (hd : pre.define name value s = Run.returned pre1 s1) : Preprocessor.Reachable pre1

/-- The parser after `load` of the command line `schk=gepardo.debian`. -/
def ParamParser.loadedSchk : ParamParser :=
  ⟨true, [("schk", ⟨"gepardo.debian", "undefined", 1, false⟩)], Preprocessor.new⟩

/-- One typed read that returned, with the name read and the name of its
target type. -/
inductive TypedRead (b : Build) :
    ParamParser → Alerts → String × String → ParamParser → Alerts → Prop where
  | get {T M : Type} [Inhabited T] [TypeInfo T] [ReadFromString T] [inst : DataValidate T M]
      (hp : Pack T M inst) (pp : ParamParser) (s : Alerts) (name : String) (means : M)
      (v : T) (pp1 : ParamParser) (s1 : Alerts)
      (h : pp.get b name means s = Run.returned (v, pp1) s1) :
      TypedRead b pp s (name, TypeInfo.getTypeName T) pp1 s1
  | getDefault {T M : Type} [Inhabited T] [TypeInfo T] [ReadFromString T]
      [inst : DataValidate T M] (hp : Pack T M inst) (pp : ParamParser) (s : Alerts)
      (name : String) (d : T) (means : M) (v : T) (pp1 : ParamParser) (s1 : Alerts)
      (h : pp.getDefault b name d means s = Run.returned (v, pp1) s1) :
      TypedRead b pp s (name, TypeInfo.getTypeName T) pp1 s1

/-- A sequence of typed reads that returned; `events` lists the name and the
type name of each, the earliest first. -/
inductive TypedReads (b : Build) :
    ParamParser → Alerts → List (String × String) → ParamParser → Alerts → Prop where
  | nil (pp : ParamParser) (s : Alerts) : TypedReads b pp s [] pp s
  | cons {pp pp1 pp2 : ParamParser} {s s1 s2 : Alerts} {event : String × String}
      {events : List (String × String)}
      (h : TypedRead b pp s event pp1 s1) (rest : TypedReads b pp1 s1 events pp2 s2) :
      TypedReads b pp s (event :: events) pp2 s2

/-- The type name of the most recent read of `name` among the events, `none`
when `name` was not read. -/
def lastTypeOf (events : List (String × String)) (name : String) : Option String :=
  match events with
  | [] => none
  | event :: rest =>
    match lastTypeOf rest name with
    | some t => some t
    | none => if event.1 = name then some event.2 else none

/-- The lines a read of `name` as `typeName` adds to `std::cerr` when the most
recent read of `name` was as `last`: the type-drift Warning if the two type
names differ, nothing otherwise. -/
def driftLines (name typeName : String) (last : Option String) : List String :=
  match last with
  | none => []
  | some t =>
    if t ≠ typeName then
      ["Warning: " ++ ("Variable " ++ name ++ " referenced as two different "
        ++ "types: " ++ t ++ " and " ++ typeName)]
    else []

/-- The parser after `load` of the command line `x=5`. -/
def ParamParser.loadedX : ParamParser :=
  ⟨true, [("x", ⟨"5", "undefined", 1, false⟩)], Preprocessor.new⟩

/-- The parser `loadedX` after a read of `x` with the type of name
`typeName`. -/
def ParamParser.readX (typeName : String) : ParamParser :=
  ⟨true, [("x", ⟨"5", typeName, 1, true⟩)], Preprocessor.new⟩

/-- The spec's `isValidIdentifier`, from its words: the text is non-empty,
its first character is an ASCII letter or an underscore, each remaining
character is an ASCII letter, a digit or an underscore. -/
def isValidIdentifier (s : String) : Bool :=
  !s.data.isEmpty
    && s.data.head?.all (fun c => c.isAlpha || c == '_')
    && s.data.tail.all (fun c => c.isAlpha || c.isDigit || c == '_')

/-- Regular expressions, as far as the pattern of the spec needs them: a
bracket expression of character ranges, concatenation, and the star. -/
inductive Regex where
  | cls (ranges : List (Char × Char))
  | seq (a b : Regex)
  | star (a : Regex)
deriving DecidableEq, Repr

/-- The character `c` is in the bracket expression: inside one of its
ranges. -/
def inRanges (ranges : List (Char × Char)) (c : Char) : Bool :=
  ranges.any fun r => decide (r.1 ≤ c) && decide (c ≤ r.2)

/-- The whole text matches the regular expression. -/
inductive Regex.Matches : Regex → List Char → Prop where
  | cls (ranges : List (Char × Char)) (c : Char) (h : inRanges ranges c = true) :
      Regex.Matches (Regex.cls ranges) [c]
  | seq {a b : Regex} {u v : List Char} (ha : Regex.Matches a u) (hb : Regex.Matches b v) :
      Regex.Matches (Regex.seq a b) (u ++ v)
  | starNil (a : Regex) : Regex.Matches (Regex.star a) []
  | starCons {a : Regex} {u v : List Char} (ha : Regex.Matches a u)
      (hv : Regex.Matches (Regex.star a) v) : Regex.Matches (Regex.star a) (u ++ v)

/-- The pattern `[A-Za-z_][A-Za-z0-9_]*` of the spec. -/
def identifierPattern : Regex :=
  Regex.seq (Regex.cls [('A', 'Z'), ('a', 'z'), ('_', '_')])
    (Regex.star (Regex.cls [('A', 'Z'), ('a', 'z'), ('0', '9'), ('_', '_')]))

/-! ## Lemmas: the alert monad -/

theorem pure_run {α : Type} (a : α) (s : Alerts) :
    (pure a : Proc α) s = Run.returned a s := rfl

theorem bind_run {α β : Type} (x : Proc α) (f : α → Proc β) (s : Alerts) :
    (x >>= f) s = match x s with
      | Run.returned a s1 => f a s1
      | Run.exited s1 => Run.exited s1 := rfl

theorem error_isError {α : Type} (text : String) (s : Alerts) :
    (error text s : Run α).IsError := ⟨text, s, rfl⟩

theorem returned_ne_error {α : Type} (a : α) (s : Alerts) (text : String) (s1 : Alerts) :
    Run.returned a s ≠ (error text s1 : Run α) := by
  simp [error]

theorem not_isError_returned {α : Type} (a : α) (s : Alerts) :
    ¬ (Run.returned a s).IsError := by
  rintro ⟨text, s1, h⟩
  exact returned_ne_error a s text s1 h

theorem warning_run (b : Build) (hb : b.exitOnWarning = false) (text : String) (s : Alerts) :
    warning b text s = Run.returned () { s with cerr := s.cerr ++ ["Warning: " ++ text] } := by
  simp [warning, raiseAlert, bind_run, showAlert, processAlert, hb, names]

theorem checkLoaded_loaded (pp : ParamParser) (h : pp.loaded_ = true) (s : Alerts) :
    pp.checkLoaded s = Run.returned () s := by
  simp [ParamParser.checkLoaded, h, pure_run]

/-! ## Lemmas: the loop of `preprocess` and the reference definition -/

theorem take_length_takeWhile {α : Type} (p : α → Bool) (l : List α) :
    l.take (l.takeWhile p).length = l.takeWhile p := by
  induction l with
  | nil => rfl
  | cons a t ih =>
    by_cases h : p a = true
    · simp [List.takeWhile_cons, h, ih]
    · simp [List.takeWhile_cons, h]

theorem drop_length_takeWhile {α : Type} (p : α → Bool) (l : List α) :
    l.drop (l.takeWhile p).length = l.dropWhile p := by
  induction l with
  | nil => rfl
  | cons a t ih =>
    by_cases h : p a = true
    · simp [List.takeWhile_cons, List.dropWhile_cons, h, ih]
    · simp [List.takeWhile_cons, List.dropWhile_cons, h]

namespace Preprocessor

open Variables

theorem skipName_unfold (l : List Char) (i : Nat) :
    skipName l i =
      if h : i < l.length then
        if isValidMiddleChar (l.get ⟨i, h⟩) then skipName l (i + 1) else i
      else i := by
  unfold skipName
  rw [skipNameFrom]
  split
  · split <;> rfl
  · rfl

theorem skipName_eq (l : List Char) (n i : Nat) (hn : l.length - i = n) :
    skipName l i = i + ((l.drop i).takeWhile isValidMiddleChar).length := by
  induction n generalizing i with
  | zero =>
    rw [skipName_unfold]
    have : ¬ i < l.length := by omega
    simp [this, List.drop_eq_nil_of_le (Nat.le_of_not_lt this)]
  | succ n ih =>
    rw [skipName_unfold]
    have hi : i < l.length := by omega
    rw [dif_pos hi, List.drop_eq_getElem_cons hi]
    by_cases hc : isValidMiddleChar (l.get ⟨i, hi⟩) = true
    · rw [if_pos hc, ih (i + 1) (by omega)]
      have hc2 : isValidMiddleChar l[i] = true := hc
      rw [List.takeWhile_cons_of_pos hc2, List.length_cons]
      omega
    · rw [if_neg hc]
      have hc2 : ¬ isValidMiddleChar l[i] = true := hc
      rw [List.takeWhile_cons_of_neg hc2]
      rfl

theorem drop_skipName (l : List Char) (i : Nat) :
    l.drop (skipName l i) = (l.drop i).dropWhile isValidMiddleChar := by
  rw [skipName_eq l _ i rfl, ← List.drop_drop, drop_length_takeWhile]

theorem substr_skipName (l : List Char) (p : Nat) :
    substr l p (skipName l p - p) = ⟨(l.drop p).takeWhile isValidMiddleChar⟩ := by
  rw [skipName_eq l _ p rfl]
  unfold substr
  rw [Nat.add_sub_cancel_left, take_length_takeWhile]

theorem le_skipBang (l : List Char) (j : Nat) : j ≤ skipBang l j := by
  unfold skipBang
  split
  · split <;> omega
  · omega

theorem drop_skipBang (l : List Char) (j : Nat) :
    l.drop (skipBang l j) = dropBang (l.drop j) := by
  unfold skipBang
  by_cases hj : j < l.length
  · rw [dif_pos hj]
    by_cases hc : l.get ⟨j, hj⟩ = '!'
    · rw [if_pos hc, List.drop_eq_getElem_cons hj]
      have hc2 : l[j] = '!' := hc
      rw [hc2]
      rfl
    · rw [if_neg hc, List.drop_eq_getElem_cons hj]
      have hc2 : ¬ l[j] = '!' := hc
      unfold dropBang
      split
      · rename_i heq
        exact absurd (List.cons.inj heq).1 hc2
      · rfl
  · rw [dif_neg hj, List.drop_eq_nil_of_le (Nat.le_of_not_lt hj)]
    rfl

/-- The loop of `preprocess` from index `i` does what the reference
definition says for the text from `i` on. -/
theorem preprocessLoop_eq (pre : Preprocessor) (l : List Char) (n i : Nat) (res : String)
    (hn : l.length - i = n) :
    preprocessLoop pre l i res = expandOutcome res (expandRef pre.variables_ (l.drop i)) := by
  induction n using Nat.strong_induction_on generalizing i res with
  | _ n ih =>
    rw [preprocessLoop]
    by_cases hi : i < l.length
    · rw [dif_pos hi, List.drop_eq_getElem_cons hi, expandRef]
      have hget : l.get ⟨i, hi⟩ = l[i] := rfl
      rw [hget]
      by_cases hc : l[i] ≠ '@'
      · rw [if_pos hc, if_pos hc, ih _ _ (i + 1) _ rfl]
        · cases expandRef pre.variables_ (List.drop (i + 1) l) with
          | error n => rfl
          | ok out =>
            simp only [expandOutcome]
            congr 1
            apply String.ext
            simp [String.push, String.singleton]
        · omega
      · rw [if_neg hc, if_neg hc]
        simp only []
        rw [substr_skipName]
        cases hfind : pre.variables_.find ⟨(l.drop (i+1)).takeWhile isValidMiddleChar⟩ with
        | none => rfl
        | some v =>
          simp only []
          have h1 : i + 1 ≤ skipName l (i + 1) := (skipNameFrom l (i + 1)).2
          have h2 := le_skipBang l (skipName l (i + 1))
          rw [ih _ _ (skipBang l (skipName l (i + 1))) _ rfl, drop_skipBang, drop_skipName]
          · cases expandRef pre.variables_
                (dropBang (List.dropWhile isValidMiddleChar (List.drop (i + 1) l))) with
            | error n => rfl
            | ok out =>
              simp only [expandOutcome]
              rw [String.append_assoc]
          · omega
    · rw [dif_neg hi, List.drop_eq_nil_of_le (Nat.le_of_not_lt hi), expandRef]
      simp [expandOutcome]

theorem preprocess_run (pre : Preprocessor) (line : String) (s : Alerts) :
    pre.preprocess line s =
      match expandRef pre.variables_ line.data with
      | Except.ok out => Run.returned out s
      | Except.error n => error ("Macro \"" ++ n ++ "\" not found") s := by
  unfold preprocess
  rw [preprocessLoop_eq pre line.data _ 0 "" rfl, List.drop_zero]
  cases expandRef pre.variables_ line.data with
  | error n => rfl
  | ok out => simp [expandOutcome, pure_run]

end Preprocessor

open Variables

theorem sample_table :
    Preprocessor.sample.variables_ = [("", "@"), ("var1", "hello"), ("var2", "42")] := by
  decide

theorem expandRef_no_at (table : StdMap String) (t : List Char) (h : '@' ∉ t) :
    expandRef table t = Except.ok ⟨t⟩ := by
  induction t with
  | nil => rw [expandRef]
  | cons c t ih =>
    have hc : c ≠ '@' := fun e => h (by simp [e])
    have ht : '@' ∉ t := fun e => h (by simp [e])
    rw [expandRef, if_pos hc, ih ht]
    rfl

theorem suffix_of_append_run (p : Char → Bool) (hp : p '@' = false) (a b t : List Char)
    (ha : ∀ c ∈ a, p c = true) (h : ('@' :: t) <:+ (a ++ b)) : ('@' :: t) <:+ b := by
  induction a with
  | nil => simpa using h
  | cons x a ih =>
    rw [List.cons_append, List.suffix_cons_iff] at h
    rcases h with h | h
    · have hx : x = '@' := by
        have := congrArg List.head? h
        simp at this
        exact this.symm
      have := ha x (by simp)
      rw [hx, hp] at this
      exact absurd this (by simp)
    · exact ih (fun c hc => ha c (by simp [hc])) h

theorem suffix_dropBang (t r : List Char) (h : ('@' :: t) <:+ r) : ('@' :: t) <:+ dropBang r := by
  unfold dropBang
  split
  · rw [List.suffix_cons_iff] at h
    rcases h with h | h
    · exact absurd (List.cons.inj h).1 (by decide)
    · exact h
  · exact h

theorem dropBang_suffix (r : List Char) : dropBang r <:+ r := by
  unfold dropBang
  split
  · exact List.suffix_cons _ _
  · exact List.suffix_refl _

theorem expandRef_error_iff (table : StdMap String) (text : List Char) (n : Nat)
    (hn : text.length = n) :
    (∃ m, expandRef table text = Except.error m) ↔ HasUndefinedReference table text := by
  induction n using Nat.strong_induction_on generalizing text with
  | _ n ih =>
    cases text with
    | nil =>
      rw [expandRef]
      simp [HasUndefinedReference]
    | cons c t =>
      rw [expandRef]
      by_cases hc : c ≠ '@'
      · rw [if_pos hc]
        have ih1 := ih t.length (by rw [← hn]; simp) t rfl
        constructor
        · intro ⟨m, hm⟩
          have : ∃ m, expandRef table t = Except.error m := by
            cases hx : expandRef table t with
            | error k => exact ⟨k, rfl⟩
            | ok out => rw [hx] at hm; cases hm
          obtain ⟨u, hu, hf⟩ := ih1.1 this
          exact ⟨u, hu.trans (List.suffix_cons _ _), hf⟩
        · intro ⟨u, hu, hf⟩
          rw [List.suffix_cons_iff] at hu
          rcases hu with hu | hu
          · exact absurd (List.cons.inj hu).1.symm hc
          · obtain ⟨m, hm⟩ := ih1.2 ⟨u, hu, hf⟩
            exact ⟨m, by rw [hm]⟩
      · rw [if_neg hc]
        have hc2 : c = '@' := by simpa using hc
        subst hc2
        simp only []
        cases hfind : table.find ⟨t.takeWhile isValidMiddleChar⟩ with
        | none =>
          simp only []
          exact ⟨fun _ => ⟨t, List.suffix_refl _, hfind⟩, fun _ => ⟨_, rfl⟩⟩
        | some v =>
          simp only []
          have hlen : (dropBang (t.dropWhile isValidMiddleChar)).length < n := by
            have h1 := (dropBang_suffix (t.dropWhile isValidMiddleChar)).length_le
            have h2 := (List.dropWhile_suffix (l := t) isValidMiddleChar).length_le
            rw [← hn]
            simp only [List.length_cons]
            omega
          have ih1 := ih _ hlen (dropBang (t.dropWhile isValidMiddleChar)) rfl
          constructor
          · intro ⟨m, hm⟩
            have : ∃ m, expandRef table (dropBang (t.dropWhile isValidMiddleChar))
                = Except.error m := by
              cases hx : expandRef table (dropBang (t.dropWhile isValidMiddleChar)) with
              | error k => exact ⟨k, rfl⟩
              | ok out => rw [hx] at hm; cases hm
            obtain ⟨u, hu, hf⟩ := ih1.1 this
            exact ⟨u, ((hu.trans (dropBang_suffix _)).trans
              (List.dropWhile_suffix isValidMiddleChar)).trans (List.suffix_cons _ _), hf⟩
          · intro ⟨u, hu, hf⟩
            rw [List.suffix_cons_iff] at hu
            rcases hu with hu | hu
            · have : u = t := (List.cons.inj hu).2
              rw [this, hfind] at hf
              cases hf
            · have h3 : ('@' :: u) <:+ t.dropWhile isValidMiddleChar := by
                apply suffix_of_append_run isValidMiddleChar (by decide)
                  (t.takeWhile isValidMiddleChar) _ u
                · intro x hx
                  exact (List.mem_takeWhile_imp hx)
                · rw [List.takeWhile_append_dropWhile]
                  exact hu
              obtain ⟨m, hm⟩ := ih1.2 ⟨u, suffix_dropBang u _ h3, hf⟩
              exact ⟨m, by rw [hm]⟩

theorem takeWhile_run (p : Char → Bool) (n t : List Char) (hn : ∀ c ∈ n, p c = true)
    (ht : ∀ c, t.head? = some c → p c = false) : (n ++ t).takeWhile p = n := by
  induction n with
  | nil =>
    cases t with
    | nil => rfl
    | cons x t => simp [List.takeWhile_cons, ht x rfl]
  | cons x n ih =>
    simp [List.takeWhile_cons, hn x (by simp), ih (fun c hc => hn c (by simp [hc]))]

theorem dropWhile_run (p : Char → Bool) (n t : List Char) (hn : ∀ c ∈ n, p c = true)
    (ht : ∀ c, t.head? = some c → p c = false) : (n ++ t).dropWhile p = t := by
  induction n with
  | nil =>
    cases t with
    | nil => rfl
    | cons x t => simp [List.dropWhile_cons, ht x rfl]
  | cons x n ih =>
    simp [List.dropWhile_cons, hn x (by simp), ih (fun c hc => hn c (by simp [hc]))]

theorem parseExpanded_eq (T : Type) [ReadFromString T] (pre : Preprocessor) (raw : String)
    (s : Alerts) :
    parseExpanded T pre raw s =
      match expandRef pre.variables_ raw.data with
      | Except.ok out => ReadFromString.doIt out
      | Except.error _ => none := by
  unfold parseExpanded
  rw [Preprocessor.preprocess_run]
  cases expandRef pre.variables_ raw.data <;> rfl

theorem get_of_loaded {T M : Type} [Inhabited T] [TypeInfo T] [ReadFromString T]
    [DataValidate T M] (b : Build) (pp : ParamParser) (hl : pp.loaded_ = true) (name : String)
    (means : M) (s : Alerts) (vv : VariableValue) (hf : pp.variables_.find name = some vv) :
    pp.get b name means s = pp.internalGet b name (default : T) means s := by
  simp [ParamParser.get, ParamParser.getRef, bind_run, checkLoaded_loaded pp hl, hf, pure_run]

theorem define_run {V : Type} [StreamOut V] (pp : ParamParser) (name : String) (value : V)
    (s : Alerts) :
    pp.define name value s =
      if isValidName name then
        Run.returned { pp with preprocessor_ :=
          ⟨pp.preprocessor_.variables_.set name (StreamOut.format value)⟩ } s
      else error ("Macro \"" ++ name ++ "\" has invalid name") s := by
  unfold ParamParser.define Preprocessor.define
  by_cases h : isValidName name = true
  · simp [h, bind_run, pure_run]
  · simp [h, bind_run]
    rfl

/-! ## The typed reads -/

theorem getDefault_absent_run {T M : Type} [Inhabited T] [TypeInfo T] [ReadFromString T]
    [DataValidate T M] (b : Build) (pp : ParamParser) (hl : pp.loaded_ = true) (name : String)
    (hf : pp.variables_.find name = none) (d : T) (means : M) (s : Alerts) :
    pp.getDefault b name d means s = (dataValidate b name d means s).map fun _ => (d, pp) := by
  simp only [ParamParser.getDefault, ParamParser.getDefaultRef, bind_run,
    checkLoaded_loaded pp hl, ParamParser.internalGet, hf]
  cases dataValidate b name d means s <;> rfl

/-- C2, as the code has it: on a loaded parser and for an absent name,
`getDefault<T>(name, d, validators)` runs the validators against the default
`d`; it returns `d` and leaves the parser as it was when they accept `d` (in
particular when there is none), and raises the validator's Error
otherwise: for an integral `range(a,b)` exactly when `d` is outside. -/
theorem getDefault_absent_validates_default {T : Type} [Inhabited T] [TypeInfo T]
    [ReadFromString T] (b : Build) (pp : ParamParser) (hl : pp.loaded_ = true) (name : String)
    (hf : pp.variables_.find name = none) (d : T) (s : Alerts) :
    (∀ (M : Type) [DataValidate T M] (means : M),
      pp.getDefault b name d means s
        = (dataValidate b name d means s).map fun _ => (d, pp)) ∧
    pp.getDefault b name d () s = Run.returned (d, pp) s ∧
    (∀ [Integral T] [StreamOut T] (r : Range T),
      (inRange r d = true → pp.getDefault b name d r s = Run.returned (d, pp) s) ∧
      (inRange r d = false → pp.getDefault b name d r s
        = error (name ++ " = " ++ StreamOut.format d ++ " is not in the range "
            ++ "[" ++ StreamOut.format r.left ++ "; " ++ StreamOut.format r.right ++ "]") s)) := by
  refine ⟨?_, ?_, ?_⟩
  · intro M _ means
    exact getDefault_absent_run b pp hl name hf d means s
  · rw [getDefault_absent_run b pp hl name hf d () s]
    rfl
  · intro _ _ r
    refine ⟨?_, ?_⟩
    · intro hr
      rw [getDefault_absent_run b pp hl name hf d r s]
      simp [dataValidate, DataValidate.doIt, hr, pure_run, Run.map]
    · intro hr
      rw [getDefault_absent_run b pp hl name hf d r s]
      simp [dataValidate, DataValidate.doIt, hr, Run.map]
      rfl

/-- C2, the claim as stated fails: after `load` of a bare command line,
`getDefault<int>("missing", 500, range(1,100))` does not return 500; the
range validator is run against the default and raises its Error. -/
theorem getDefault_default_validated_counterexample :
    ParamParser.load ParamParser.new ["prog"] Alerts.init
      = Run.returned ParamParser.loadedEmpty Alerts.init ∧
    ParamParser.loadedEmpty.variables_.find "missing" = none ∧
    ParamParser.loadedEmpty.getDefault Build.plain "missing" (500 : Int)
        (⟨1, 100⟩ : Range Int) Alerts.init
      = error "missing = 500 is not in the range [1; 100]" Alerts.init := by
  decide

/-- C2, at the call of the spec: with default 10 and `range(1,100)` the
absent name gives 10. -/
theorem getDefault_absent_validates_default_witness :
    ParamParser.loadedEmpty.loaded_ = true ∧
    ParamParser.loadedEmpty.variables_.find "missing" = none ∧
    ParamParser.loadedEmpty.getDefault Build.plain "missing" (10 : Int)
        (⟨1, 100⟩ : Range Int) Alerts.init
      = Run.returned (10, ParamParser.loadedEmpty) Alerts.init :=
  ⟨rfl, rfl,
    ((getDefault_absent_validates_default Build.plain ParamParser.loadedEmpty rfl "missing" rfl
      (10 : Int) Alerts.init).2.2 ⟨1, 100⟩).1 (by decide)⟩

/-- C3: for a name present in the table, `getDefault<T>(name, d, validators)`
and `get<T>(name, validators)` end the same way whatever `d` is: the same
value or the same exit, the same lines on `std::cerr` and the same parser
afterwards. -/
theorem getDefault_eq_get_of_present {T M : Type} [Inhabited T] [TypeInfo T]
    [ReadFromString T] [DataValidate T M] (b : Build) (pp : ParamParser) (name : String)
    (vv : VariableValue) (hf : pp.variables_.find name = some vv) (d : T) (means : M)
    (s : Alerts) :
    pp.getDefault b name d means s = pp.get b name means s := by
  simp only [ParamParser.getDefault, ParamParser.get, ParamParser.getDefaultRef,
    ParamParser.getRef, bind_run]
  cases pp.checkLoaded s with
  | exited s1 => rfl
  | returned u s1 =>
    simp [ParamParser.internalGet, hf, bind_run, pure_run]

theorem present50_get :
    ParamParser.present50.get Build.plain "present" (⟨1, 100⟩ : Range Int) Alerts.init
      = Run.returned ((50 : Int),
          ({ ParamParser.present50 with
              variables_ := [("present", ⟨"50", "int", 1, true⟩)] } : ParamParser))
          Alerts.init := by
  rw [get_of_loaded Build.plain ParamParser.present50 rfl "present" _ Alerts.init
    ⟨"50", "undefined", 1, false⟩ (by decide)]
  have hf : ParamParser.present50.variables_.find "present"
      = some ⟨"50", "undefined", 1, false⟩ := by decide
  simp only [ParamParser.internalGet, hf, bind_run, Preprocessor.preprocess_run]
  have hx : expandRef ParamParser.present50.preprocessor_.variables_ "50".data
      = Except.ok "50" := expandRef_no_at _ _ (by decide)
  rw [hx]
  have hr : (ReadFromString.doIt "50" : Option Int) = some 50 := by decide
  simp only [hr]
  decide

/-- C3, at `present=50`: `getDefault<int>("present", 10, range(1,100))` gives
what `get<int>("present", range(1,100))` gives, the value 50. -/
theorem getDefault_eq_get_of_present_witness :
    ParamParser.present50.variables_.find "present" = some ⟨"50", "undefined", 1, false⟩ ∧
    ParamParser.present50.getDefault Build.plain "present" (10 : Int) (⟨1, 100⟩ : Range Int)
        Alerts.init
      = Run.returned ((50 : Int),
          ({ ParamParser.present50 with
              variables_ := [("present", ⟨"50", "int", 1, true⟩)] } : ParamParser))
          Alerts.init :=
  ⟨by decide,
    (getDefault_eq_get_of_present Build.plain ParamParser.present50 "present"
      ⟨"50", "undefined", 1, false⟩ (by decide) (10 : Int) (⟨1, 100⟩ : Range Int)
      Alerts.init).trans present50_get⟩

/-! ## Expansion -/

/-- C8: `preprocess` (the spec's `expand`) satisfies the equations of the
left-to-right reference definition, for every table and text: the empty
text gives the empty text; a character `c` other than `'@'` is copied and
the rest `t` expanded; `'@'` followed by the longest run `n` of letters,
digits and underscores (so `t` does not start with one) with `n` defined as
`v` gives `v`, verbatim, followed by the expansion of `t` without one
leading `'!'`.  Hence it equals `expandRef`, and the three spec examples
hold with `var1=hello`, `var2=42`; a replacement `@var2` is inserted as it
is. -/
theorem preprocess_eq_reference :
    (∀ (pre : Preprocessor) (s : Alerts), pre.preprocess "" s = Run.returned "" s) ∧
    (∀ (pre : Preprocessor) (c : Char) (t : List Char) (s : Alerts), c ≠ '@' →
      pre.preprocess ⟨c :: t⟩ s
        = (pre.preprocess ⟨t⟩ s).map (fun out => String.singleton c ++ out)) ∧
    (∀ (pre : Preprocessor) (n t : List Char) (v : String) (s : Alerts),
      (∀ c ∈ n, isValidMiddleChar c = true) →
      (∀ c, t.head? = some c → isValidMiddleChar c = false) →
      pre.variables_.find ⟨n⟩ = some v →
      pre.preprocess ⟨'@' :: (n ++ t)⟩ s
        = (pre.preprocess ⟨dropBang t⟩ s).map (fun out => v ++ out)) ∧
    (∀ (pre : Preprocessor) (line : String) (s : Alerts),
      pre.preprocess line s =
        match expandRef pre.variables_ line.data with
        | Except.ok out => Run.returned out s
        | Except.error n => error ("Macro \"" ++ n ++ "\" not found") s) ∧
    Preprocessor.sample.preprocess "@var1, world!" Alerts.init
      = Run.returned "hello, world!" Alerts.init ∧
    Preprocessor.sample.preprocess "@var1@var2" Alerts.init
      = Run.returned "hello42" Alerts.init ∧
    Preprocessor.sample.preprocess "@var1!1" Alerts.init
      = Run.returned "hello1" Alerts.init ∧
    (⟨[("", "@"), ("var1", "@var2"), ("var2", "42")]⟩ : Preprocessor).preprocess "@var1"
        Alerts.init
      = Run.returned "@var2" Alerts.init := by
  refine ⟨?_, ?_, ?_, Preprocessor.preprocess_run, ?_, ?_, ?_, ?_⟩
  · intro pre s
    rw [Preprocessor.preprocess_run]
    simp [expandRef]
  · intro pre c t s hc
    rw [Preprocessor.preprocess_run, Preprocessor.preprocess_run]
    simp only []
    rw [expandRef, if_pos hc]
    cases expandRef pre.variables_ t <;> rfl
  · intro pre n t v s hn ht hf
    rw [Preprocessor.preprocess_run, Preprocessor.preprocess_run]
    simp only []
    rw [expandRef, if_neg (by simp)]
    simp only []
    rw [takeWhile_run _ n t hn ht, dropWhile_run _ n t hn ht, hf]
    simp only []
    cases expandRef pre.variables_ (dropBang t) <;> rfl
  · rw [Preprocessor.preprocess_run, sample_table]
    simp [expandRef, StdMap.find, isValidMiddleChar, isValidStartChar, dropBang]
    decide
  · rw [Preprocessor.preprocess_run, sample_table]
    simp [expandRef, StdMap.find, isValidMiddleChar, isValidStartChar, dropBang]
  · rw [Preprocessor.preprocess_run, sample_table]
    simp [expandRef, StdMap.find, isValidMiddleChar, isValidStartChar, dropBang]
    decide
  · rw [Preprocessor.preprocess_run]
    simp [expandRef, StdMap.find, isValidMiddleChar, isValidStartChar, dropBang]

/-- C8, the third equation at `@var1, world!`: the name `var1` is replaced by
`hello` and the rest `, world!` is expanded on its own. -/
theorem preprocess_eq_reference_witness :
    Preprocessor.sample.variables_.find ⟨"var1".data⟩ = some "hello" ∧
    Preprocessor.sample.preprocess ⟨'@' :: ("var1".data ++ ", world!".data)⟩ Alerts.init
      = (Preprocessor.sample.preprocess ⟨dropBang ", world!".data⟩ Alerts.init).map
          (fun out => "hello" ++ out) :=
  ⟨by decide,
    preprocess_eq_reference.2.2.1 Preprocessor.sample "var1".data ", world!".data "hello"
      Alerts.init (by decide) (by decide) (by decide)⟩

/-- C9, the claim as stated fails: with the table of a new preprocessor the
two-character text `@@` expands to `@@`, each `'@'` being a reference to the
empty name, and not to the single character `@`. -/
theorem preprocess_double_at_counterexample :
    Preprocessor.new.preprocess "@@" Alerts.init = Run.returned "@@" Alerts.init ∧
    Preprocessor.new.preprocess "@@" Alerts.init ≠ Run.returned "@" Alerts.init := by
  have h : Preprocessor.new.preprocess "@@" Alerts.init = Run.returned "@@" Alerts.init := by
    rw [Preprocessor.preprocess_run]
    have ht : Preprocessor.new.variables_ = [("", "@")] := by decide
    rw [ht]
    simp [expandRef, StdMap.find, isValidMiddleChar, isValidStartChar, dropBang]
  refine ⟨h, ?_⟩
  rw [h]
  decide

/-- C9, as the code has it: while the empty name is defined as `@`, an `'@'`
that no letter, digit or underscore follows expands to itself, so the text
`@` gives `@` and the text `@@` gives `@@`: nothing is collapsed. -/
theorem preprocess_bare_at (pre : Preprocessor) (h : pre.variables_.find "" = some "@")
    (s : Alerts) :
    pre.preprocess "@" s = Run.returned "@" s ∧
    pre.preprocess "@@" s = Run.returned "@@" s := by
  have h1 : pre.variables_.find ⟨[]⟩ = some "@" := h
  refine ⟨?_, ?_⟩
  · rw [Preprocessor.preprocess_run]
    simp [expandRef, h1, isValidMiddleChar, isValidStartChar, dropBang]
  · rw [Preprocessor.preprocess_run]
    simp [expandRef, h1, isValidMiddleChar, isValidStartChar, dropBang]

/-- C9, at a new preprocessor. -/
theorem preprocess_bare_at_witness :
    Preprocessor.new.variables_.find "" = some "@" ∧
    Preprocessor.new.preprocess "@" Alerts.init = Run.returned "@" Alerts.init ∧
    Preprocessor.new.preprocess "@@" Alerts.init = Run.returned "@@" Alerts.init :=
  ⟨by decide, preprocess_bare_at Preprocessor.new (by decide) Alerts.init⟩

/-- C10: `preprocess` raises the "not found" Error exactly when some `'@'` of
the original text is followed by a longest run of letters, digits and
underscores that is not a key of the table, and returns otherwise; a text
without `'@'` is returned unchanged.  With only `var1` defined, `@var12` is
the Error for `var12`, and a replacement text `@zzz` is inserted without
raising. -/
theorem preprocess_error_iff :
    (∀ (pre : Preprocessor) (line : String) (s : Alerts),
      ((∃ n, pre.preprocess line s = error ("Macro \"" ++ n ++ "\" not found") s)
        ↔ HasUndefinedReference pre.variables_ line.data) ∧
      (¬ HasUndefinedReference pre.variables_ line.data ↔
        ∃ out, pre.preprocess line s = Run.returned out s) ∧
      ('@' ∉ line.data → pre.preprocess line s = Run.returned line s)) ∧
    (⟨[("", "@"), ("var1", "hello")]⟩ : Preprocessor).preprocess "@var12" Alerts.init
      = error "Macro \"var12\" not found" Alerts.init ∧
    (⟨[("", "@"), ("var1", "@zzz")]⟩ : Preprocessor).preprocess "@var1" Alerts.init
      = Run.returned "@zzz" Alerts.init := by
  refine ⟨?_, ?_, ?_⟩
  · intro pre line s
    have hiff := expandRef_error_iff pre.variables_ line.data _ rfl
    refine ⟨?_, ?_, ?_⟩
    · rw [← hiff, Preprocessor.preprocess_run]
      cases expandRef pre.variables_ line.data with
      | error m => exact ⟨fun _ => ⟨m, rfl⟩, fun _ => ⟨m, rfl⟩⟩
      | ok out =>
        constructor
        · intro ⟨n, hn⟩
          exact absurd hn (returned_ne_error _ _ _ _)
        · intro ⟨m, hm⟩
          cases hm
    · rw [← hiff, Preprocessor.preprocess_run]
      cases expandRef pre.variables_ line.data with
      | error m =>
        constructor
        · intro hno
          exact absurd ⟨m, rfl⟩ hno
        · intro ⟨out, hout⟩
          exact absurd hout.symm (returned_ne_error _ _ _ _)
      | ok out =>
        constructor
        · intro _
          exact ⟨out, rfl⟩
        · intro _ ⟨m, hm⟩
          cases hm
    · intro hno
      rw [Preprocessor.preprocess_run, expandRef_no_at _ _ hno]
  · rw [Preprocessor.preprocess_run]
    simp [expandRef, StdMap.find, isValidMiddleChar, isValidStartChar, dropBang]
  · rw [Preprocessor.preprocess_run]
    simp [expandRef, StdMap.find, isValidMiddleChar, isValidStartChar, dropBang]

/-- C10, at the text `hello, world!`, which has no `'@'`. -/
theorem preprocess_error_iff_witness :
    '@' ∉ "hello, world!".data ∧
    Preprocessor.sample.preprocess "hello, world!" Alerts.init
      = Run.returned "hello, world!" Alerts.init :=
  ⟨by decide,
    (preprocess_error_iff.1 Preprocessor.sample "hello, world!" Alerts.init).2.2 (by decide)⟩

/-! ## Lemmas: the table -/

namespace StdMap

theorem find_set_self {V : Type} (m : StdMap V) (k : String) (v : V) :
    (m.set k v).find k = some v := by
  induction m with
  | nil => simp [set, find]
  | cons e rest ih =>
    obtain ⟨k0, w⟩ := e
    unfold set
    split
    · simp [find]
    · split
      · simp [find]
      · rename_i h1 h2
        simp [find, h2, ih]

theorem find_set_ne {V : Type} (m : StdMap V) (k k1 : String) (v : V) (h : k ≠ k1) :
    (m.set k v).find k1 = m.find k1 := by
  induction m with
  | nil => simp [set, find, h]
  | cons e rest ih =>
    obtain ⟨k0, w⟩ := e
    unfold set
    split
    · simp [find, h]
    · split
      · rename_i h1 h2
        subst h2
        simp [find, h]
      · rename_i h1 h2
        simp [find, ih]

theorem find_eq_none_iff {V : Type} (m : StdMap V) (k : String) :
    m.find k = none ↔ k ∉ m.keys := by
  induction m with
  | nil => simp [find, keys]
  | cons e rest ih =>
    obtain ⟨k0, w⟩ := e
    by_cases h : k0 = k
    · simp [find, keys, h]
    · have h2 : ¬ k = k0 := fun e => h e.symm
      simp [find, keys, h, h2]
      simpa [keys] using ih

theorem keys_set_perm {V : Type} (m : StdMap V) (k : String) (v : V) (h : m.find k = none) :
    (m.set k v).keys.Perm (k :: m.keys) := by
  induction m with
  | nil => simp [set, keys]
  | cons e rest ih =>
    obtain ⟨k0, w⟩ := e
    have hk : ¬ k0 = k := by
      intro e
      simp [find, e] at h
    have hrest : find rest k = none := by
      simpa [find, hk] using h
    unfold set
    split
    · exact List.Perm.refl _
    · have := ih hrest
      simp only [keys, List.map_cons] at this ⊢
      exact (List.Perm.cons k0 this).trans (List.Perm.swap k k0 _)

end StdMap

/-! ## Lemmas: arguments of the form `name=value` -/

theorem isValidMiddleChar_of_start (c : Char) (h : isValidStartChar c = true) :
    isValidMiddleChar c = true := by
  simp [isValidMiddleChar, h]

theorem isValidName_data (name : String) (h : isValidName name = true) :
    name.data ≠ [] ∧ ∀ c ∈ name.data, isValidMiddleChar c = true := by
  unfold isValidName at h
  cases hd : name.data with
  | nil => rw [hd] at h; simp at h
  | cons c rest =>
    rw [hd] at h
    simp only [] at h
    by_cases hc : isValidStartChar c = true
    · simp [hc] at h
      refine ⟨by simp, ?_⟩
      intro x hx
      rcases List.mem_cons.1 hx with hx | hx
      · rw [hx]; exact isValidMiddleChar_of_start c hc
      · exact h x hx
    · simp [hc] at h

theorem strFind_append (n v : List Char) (c : Char) (h : c ∉ n) :
    strFind (n ++ c :: v) c = some n.length := by
  induction n with
  | nil => simp [strFind]
  | cons x n ih =>
    have hx : ¬ x = c := fun e => h (by simp [e])
    have hn : c ∉ n := fun e => h (by simp [e])
    simp [strFind, hx, ih hn]

theorem drop_succ_length_append (n v : List Char) (c : Char) :
    (n ++ c :: v).drop (n.length + 1) = v := by
  induction n with
  | nil => rfl
  | cons x n ih => simp

theorem declArg_data (d : String × String) :
    (declArg d).data = d.1.data ++ '=' :: d.2.data := by
  simp [declArg, String.data_append]

theorem eq_not_in_name (name : String) (h : isValidName name = true) : '=' ∉ name.data := by
  intro hmem
  have := (isValidName_data name h).2 '=' hmem
  exact absurd this (by decide)

theorem isRandomSeed_declArg (d : String × String) :
    ValidateUtils.isRandomSeed (declArg d) = false := by
  unfold ValidateUtils.isRandomSeed
  rw [declArg_data]
  simp

/-- One accepted declaration at index `idx`: the loop enters it into the
table and goes on. -/
theorem loadFrom_decl (argc idx : Nat) (d : String × String) (rest : List String)
    (pp : ParamParser) (hv : isValidName d.1 = true) (hf : pp.variables_.find d.1 = none) :
    ParamParser.loadFrom argc idx (declArg d :: rest) pp =
      ParamParser.loadFrom argc (idx + 1) rest
        { pp with variables_ := pp.variables_.set d.1 ⟨d.2, "undefined", idx, false⟩ } := by
  have hne := eq_not_in_name d.1 hv
  rw [ParamParser.loadFrom]
  have h1 : (declArg d).data.isEmpty = false := by
    rw [declArg_data]; simp
  have h2 : strFind (declArg d).data '=' = some d.1.data.length := by
    rw [declArg_data]; exact strFind_append _ _ _ hne
  have h3 : (⟨(declArg d).data.take d.1.data.length⟩ : String) = d.1 := by
    rw [declArg_data]; simp
  have h4 : (⟨(declArg d).data.drop (d.1.data.length + 1)⟩ : String) = d.2 := by
    rw [declArg_data, drop_succ_length_append]
  simp only [h1, isRandomSeed_declArg, h2, h3, h4, hv, hf]
  simp

theorem loadFrom_empty (argc idx : Nat) (rest : List String) (pp : ParamParser) :
    ParamParser.loadFrom argc idx ("" :: rest) pp
      = ParamParser.loadFrom argc (idx + 1) rest pp := by
  rw [ParamParser.loadFrom]
  simp

theorem mem_declNames (ds : List (Option (String × String))) (n : String) :
    n ∈ declNames ds ↔ ∃ v, some (n, v) ∈ ds := by
  unfold declNames
  rw [List.mem_filterMap]
  constructor
  · rintro ⟨d, hd, h⟩
    cases d with
    | none => cases h
    | some d =>
      obtain ⟨a, v⟩ := d
      simp only [Option.map_some', Option.some.injEq] at h
      subst h
      exact ⟨v, hd⟩
  · rintro ⟨v, h⟩
    exact ⟨some (n, v), h, rfl⟩

/-- The loop of `load` over accepted arguments: each declaration is entered
with its index, empty arguments only advance the index. -/
theorem loadFrom_accepted (argc : Nat) (ds : List (Option (String × String))) :
    ∀ (idx : Nat) (rest : List String) (pp : ParamParser),
    (∀ n ∈ declNames ds, isValidName n = true) → (declNames ds).Nodup →
    (∀ n ∈ declNames ds, pp.variables_.find n = none) →
    ParamParser.loadFrom argc idx (ds.map renderArg ++ rest) pp =
      ParamParser.loadFrom argc (idx + ds.length) rest
        { pp with variables_ := addDecls idx ds pp.variables_ } := by
  induction ds with
  | nil =>
    intro idx rest pp _ _ _
    rfl
  | cons d ds ih =>
    intro idx rest pp hv hn hf
    cases d with
    | none =>
      have hnames : declNames (none :: ds) = declNames ds := by simp [declNames]
      rw [hnames] at hv hn hf
      simp only [List.map_cons, renderArg, List.cons_append]
      rw [loadFrom_empty, ih (idx + 1) rest pp hv hn hf]
      have harith : idx + 1 + ds.length = idx + (ds.length + 1) := by omega
      simp only [addDecls, List.length_cons, harith]
    | some d =>
      have hnames : declNames (some d :: ds) = d.1 :: declNames ds := by simp [declNames]
      rw [hnames] at hv hn hf
      simp only [List.map_cons, renderArg, List.cons_append]
      rw [loadFrom_decl argc idx d _ pp (hv d.1 (by simp)) (hf d.1 (by simp))]
      rw [ih (idx + 1) rest _ (fun n h => hv n (by simp [h])) (List.nodup_cons.1 hn).2]
      · have harith : idx + 1 + ds.length = idx + (ds.length + 1) := by omega
        simp only [addDecls, List.length_cons, harith]
      · intro n h
        simp only []
        rw [StdMap.find_set_ne]
        · exact hf n (by simp [h])
        · intro e
          rw [← e] at h
          exact (List.nodup_cons.1 hn).1 h

theorem find_addDecls_other (ds : List (Option (String × String))) :
    ∀ (idx : Nat) (m : StdMap VariableValue) (n : String), n ∉ declNames ds →
      (addDecls idx ds m).find n = m.find n := by
  induction ds with
  | nil => intro idx m n _; rfl
  | cons d ds ih =>
    intro idx m n hn
    cases d with
    | none =>
      have hnames : declNames (none :: ds) = declNames ds := by simp [declNames]
      rw [hnames] at hn
      simp only [addDecls]
      exact ih (idx + 1) m n hn
    | some d =>
      have hnames : declNames (some d :: ds) = d.1 :: declNames ds := by simp [declNames]
      rw [hnames] at hn
      simp only [addDecls]
      rw [ih (idx + 1) _ n (fun h => hn (by simp [h]))]
      exact StdMap.find_set_ne m d.1 n _ (fun e => hn (by simp [e]))

theorem find_addDecls (ds : List (Option (String × String))) :
    ∀ (idx : Nat) (m : StdMap VariableValue) (q : Nat) (n v : String),
      (declNames ds).Nodup → ds[q]? = some (some (n, v)) →
      (addDecls idx ds m).find n = some ⟨v, "undefined", idx + q, false⟩ := by
  induction ds with
  | nil => intro idx m q n v _ h; simp at h
  | cons d ds ih =>
    intro idx m q n v hnd hq
    cases d with
    | none =>
      have hnames : declNames (none :: ds) = declNames ds := by simp [declNames]
      rw [hnames] at hnd
      cases q with
      | zero => simp at hq
      | succ q =>
        simp only [addDecls]
        rw [ih (idx + 1) m q n v hnd (by simpa using hq)]
        have harith : idx + 1 + q = idx + (q + 1) := by omega
        rw [harith]
    | some d =>
      have hnames : declNames (some d :: ds) = d.1 :: declNames ds := by simp [declNames]
      rw [hnames] at hnd
      cases q with
      | zero =>
        simp at hq
        subst hq
        simp only [addDecls]
        rw [find_addDecls_other ds (idx + 1) _ n (List.nodup_cons.1 hnd).1]
        exact StdMap.find_set_self m n _
      | succ q =>
        simp only [addDecls]
        rw [ih (idx + 1) _ q n v (List.nodup_cons.1 hnd).2 (by simpa using hq)]
        have harith : idx + 1 + q = idx + (q + 1) := by omega
        rw [harith]

theorem keys_addDecls_perm (ds : List (Option (String × String))) :
    ∀ (idx : Nat) (m : StdMap VariableValue), (declNames ds).Nodup →
      (∀ n ∈ declNames ds, m.find n = none) →
      (addDecls idx ds m).keys.Perm (declNames ds ++ m.keys) := by
  induction ds with
  | nil => intro idx m _ _; exact List.Perm.refl _
  | cons d ds ih =>
    intro idx m hnd hf
    cases d with
    | none =>
      have hnames : declNames (none :: ds) = declNames ds := by simp [declNames]
      rw [hnames] at hnd hf ⊢
      simp only [addDecls]
      exact ih (idx + 1) m hnd hf
    | some d =>
      have hnames : declNames (some d :: ds) = d.1 :: declNames ds := by simp [declNames]
      rw [hnames] at hnd hf ⊢
      simp only [addDecls]
      have h1 := ih (idx + 1) (m.set d.1 ⟨d.2, "undefined", idx, false⟩)
        (List.nodup_cons.1 hnd).2 (by
          intro n hn
          rw [StdMap.find_set_ne]
          · exact hf n (by simp [hn])
          · intro e
            rw [← e] at hn
            exact (List.nodup_cons.1 hnd).1 hn)
      have h2 := StdMap.keys_set_perm m d.1 ⟨d.2, "undefined", idx, false⟩ (hf d.1 (by simp))
      refine h1.trans ?_
      refine (List.Perm.append_left _ h2).trans ?_
      simp only [List.cons_append]
      exact List.perm_middle

theorem load_run (pp : ParamParser) (prog : String) (args : List String) (s : Alerts) :
    pp.load (prog :: args) s =
      (ParamParser.loadFrom (args.length + 1) 1 args pp s).map
        fun pp1 => { pp1 with loaded_ := true } := by
  simp only [ParamParser.load, bind_run, List.length_cons, List.drop_succ_cons, List.drop_zero]
  cases ParamParser.loadFrom (args.length + 1) 1 args pp s <;> rfl

theorem declNames_map_some (decls : List (String × String)) :
    declNames (decls.map some) = decls.map Prod.fst := by
  induction decls with
  | nil => rfl
  | cons d decls ih =>
    simp only [declNames, List.map_cons, List.filterMap_cons, Option.map_some'] at ih ⊢
    rw [ih]

theorem map_declArg (decls : List (String × String)) :
    decls.map declArg = (decls.map some).map renderArg := by
  rw [List.map_map]
  rfl

/-! ## Loading -/

/-- C4: for arguments `name=value` with valid, pairwise distinct names, `load`
on a new parser returns, with `loaded_` set and a table whose keys are those
names and no other; each name has the entry made of the text after its first
`'='`, the type name `undefined`, its 1-based position and `referenced =
false`. -/
theorem load_declarations (prog : String) (decls : List (String × String)) (s : Alerts)
    (hv : ∀ d ∈ decls, isValidName d.1 = true) (hn : (decls.map Prod.fst).Nodup) :
    ∃ pp : ParamParser,
      ParamParser.new.load (prog :: decls.map declArg) s = Run.returned pp s ∧
      pp.loaded_ = true ∧
      pp.variables_.keys.Perm (decls.map Prod.fst) ∧
      (∀ name, pp.variables_.find name ≠ none ↔ name ∈ decls.map Prod.fst) ∧
      (∀ (i : Nat) (d : String × String), decls[i]? = some d →
        (declArg d).data = d.1.data ++ '=' :: d.2.data ∧ '=' ∉ d.1.data ∧
        pp.variables_.find d.1 = some ⟨d.2, "undefined", i + 1, false⟩) := by
  have hv2 : ∀ n ∈ declNames (decls.map some), isValidName n = true := by
    rw [declNames_map_some]
    intro n hmem
    obtain ⟨d, hd, rfl⟩ := List.mem_map.1 hmem
    exact hv d hd
  have hn2 : (declNames (decls.map some)).Nodup := by rw [declNames_map_some]; exact hn
  have hrun := loadFrom_accepted (decls.length + 1) (decls.map some) 1 [] ParamParser.new hv2 hn2
    (fun _ _ => rfl)
  rw [List.append_nil, ← map_declArg] at hrun
  refine ⟨{ ParamParser.new with
      loaded_ := true, variables_ := addDecls 1 (decls.map some) [] }, ?_, rfl, ?_, ?_, ?_⟩
  · rw [load_run, List.length_map, hrun, ParamParser.loadFrom]
    rfl
  · have := keys_addDecls_perm (decls.map some) 1 [] hn2 (fun _ _ => rfl)
    rw [declNames_map_some] at this
    simpa [StdMap.keys] using this
  · intro name
    have hp := keys_addDecls_perm (decls.map some) 1 [] hn2 (fun _ _ => rfl)
    rw [declNames_map_some] at hp
    show ¬ (addDecls 1 (decls.map some) []).find name = none ↔ _
    rw [StdMap.find_eq_none_iff, not_not, hp.mem_iff]
    simp [StdMap.keys]
  · intro i d hd
    refine ⟨declArg_data d, eq_not_in_name d.1 (hv d (List.getElem?_mem hd)), ?_⟩
    show (addDecls 1 (decls.map some) []).find d.1 = _
    rw [find_addDecls (decls.map some) 1 [] i d.1 d.2 hn2 (by simp [hd])]
    have harith : 1 + i = i + 1 := by omega
    rw [harith]

/-- C4, at the command line of the spec: `i=1 l=2000111222 unused=45`. -/
theorem load_declarations_witness :
    (∀ d ∈ [("i", "1"), ("l", "2000111222"), ("unused", "45")], isValidName d.1 = true) ∧
    ([("i", "1"), ("l", "2000111222"), ("unused", "45")].map Prod.fst).Nodup ∧
    ∃ pp : ParamParser,
      ParamParser.new.load
        ("prog" :: [("i", "1"), ("l", "2000111222"), ("unused", "45")].map declArg) Alerts.init
        = Run.returned pp Alerts.init ∧
      pp.loaded_ = true ∧
      pp.variables_.keys.Perm ["i", "l", "unused"] ∧
      pp.variables_.find "l" = some ⟨"2000111222", "undefined", 2, false⟩ := by
  have h := load_declarations "prog" [("i", "1"), ("l", "2000111222"), ("unused", "45")]
    Alerts.init (by decide) (by decide)
  obtain ⟨pp, h1, h2, h3, _, h5⟩ := h
  exact ⟨by decide, by decide, pp, h1, h2, h3, (h5 1 ("l", "2000111222") rfl).2.2⟩

/-- C5: when the arguments before position `j = before.length + 1` are
accepted ones (empty, or declarations with valid, pairwise distinct names),
the argument at `j` is `name=value` and `name` was declared at position
`i + 1` among them, `load` raises the Error that cites `j` and `i + 1`. -/
theorem load_declared_twice (prog : String) (before : List (Option (String × String)))
    (i : Nat) (name v0 value : String) (after : List String) (s : Alerts)
    (hv : ∀ n ∈ declNames before, isValidName n = true) (hn : (declNames before).Nodup)
    (hi : before[i]? = some (some (name, v0))) :
    ParamParser.new.load
        (prog :: (before.map renderArg ++ declArg (name, value) :: after)) s
      = error ("Error while parsing parameter #" ++ toString (before.length + 1) ++ " : "
          ++ "variable " ++ name ++ " declared twice "
          ++ "(first declared in parameter #" ++ toString (i + 1) ++ ")") s := by
  rw [load_run, loadFrom_accepted _ before 1 _ ParamParser.new hv hn (fun _ _ => rfl)]
  have hname : isValidName name = true :=
    hv name ((mem_declNames before name).2 ⟨v0, List.getElem?_mem hi⟩)
  have hne := eq_not_in_name name hname
  have hfind := find_addDecls before 1 [] i name v0 hn hi
  rw [ParamParser.loadFrom]
  have h1 : (declArg (name, value)).data.isEmpty = false := by
    rw [declArg_data]; simp
  have h2 : strFind (declArg (name, value)).data '=' = some name.data.length := by
    rw [declArg_data]; exact strFind_append _ _ _ hne
  have h3 : (⟨(declArg (name, value)).data.take name.data.length⟩ : String) = name := by
    rw [declArg_data]; simp
  have hfind2 : StdMap.find (addDecls 1 before ParamParser.new.variables_) name
      = some ⟨v0, "undefined", 1 + i, false⟩ := hfind
  simp only [h1, isRandomSeed_declArg, h2, h3, hname, hfind2]
  have ha : 1 + before.length = before.length + 1 := by omega
  have hb : 1 + i = i + 1 := by omega
  simp [Run.map, ha, hb]
  rfl

/-- C5, at the command line `x=5 x=6`: the Error cites 2 and 1. -/
theorem load_declared_twice_witness :
    [some ("x", "5")][0]? = some (some ("x", "5")) ∧
    ParamParser.new.load ["prog", "x=5", "x=6"] Alerts.init
      = error "Error while parsing parameter #2 : variable x declared twice (first declared in parameter #1)"
          Alerts.init :=
  ⟨rfl, load_declared_twice "prog" [some ("x", "5")] 0 "x" "5" "6" [] Alerts.init
    (by decide) (by decide) rfl⟩

theorem strLess_irrefl (a : List Char) : strLess a a = false := by
  induction a with
  | nil => rfl
  | cons x a ih => simp [strLess, ih]

theorem strLess_trans (a : List Char) : ∀ (b c : List Char),
    strLess a b = true → strLess b c = true → strLess a c = true := by
  induction a with
  | nil =>
    intro b c hab hbc
    cases c with
    | nil => cases b <;> simp [strLess] at hbc
    | cons z c => simp [strLess]
  | cons x a ih =>
    intro b c hab hbc
    cases b with
    | nil => simp [strLess] at hab
    | cons y b =>
      cases c with
      | nil => simp [strLess] at hbc
      | cons z c =>
        simp only [strLess] at hab hbc ⊢
        by_cases h1 : x.toNat < y.toNat
        · by_cases h2 : y.toNat < z.toNat
          · have : x.toNat < z.toNat := by omega
            simp [this]
          · by_cases h3 : z.toNat < y.toNat
            · simp [h2, h3] at hbc
            · have : x.toNat < z.toNat := by omega
              simp [this]
        · by_cases h1b : y.toNat < x.toNat
          · simp [h1, h1b] at hab
          · simp only [h1, h1b, if_false] at hab
            by_cases h2 : y.toNat < z.toNat
            · have : x.toNat < z.toNat := by omega
              simp [this]
            · by_cases h3 : z.toNat < y.toNat
              · simp [h2, h3] at hbc
              · simp only [h2, h3, if_false] at hbc
                have h4 : ¬ x.toNat < z.toNat := by omega
                have h5 : ¬ z.toNat < x.toNat := by omega
                simp only [h4, h5, if_false]
                exact ih b c hab hbc

theorem strLess_total (a : List Char) : ∀ (b : List Char),
    strLess a b = false → a ≠ b → strLess b a = true := by
  induction a with
  | nil =>
    intro b hab hne
    cases b with
    | nil => exact absurd rfl hne
    | cons y b => simp [strLess] at hab
  | cons x a ih =>
    intro b hab hne
    cases b with
    | nil => simp [strLess]
    | cons y b =>
      simp only [strLess] at hab ⊢
      by_cases h1 : x.toNat < y.toNat
      · simp [h1] at hab
      · by_cases h2 : y.toNat < x.toNat
        · simp [h2]
        · simp only [h1, h2, if_false] at hab ⊢
          have hxy : x = y := by
            apply Char.ext
            apply UInt32.ext
            show x.toNat = y.toNat
            omega
          subst hxy
          exact ih b hab (fun e => hne (by rw [e]))

namespace StdMap

theorem mem_set {V : Type} (m : StdMap V) (k : String) (v : V) (e : String × V)
    (h : e ∈ m.set k v) : e = (k, v) ∨ e ∈ m := by
  induction m with
  | nil => simpa [set] using h
  | cons e0 rest ih =>
    obtain ⟨k0, w⟩ := e0
    unfold set at h
    split at h
    · simpa using h
    · split at h
      · rcases List.mem_cons.1 h with h | h
        · exact Or.inl h
        · exact Or.inr (List.mem_cons_of_mem _ h)
      · rcases List.mem_cons.1 h with h | h
        · exact Or.inr (by simp [h])
        · rcases ih h with h | h
          · exact Or.inl h
          · exact Or.inr (List.mem_cons_of_mem _ h)

theorem ordered_set {V : Type} (m : StdMap V) (k : String) (v : V) (h : m.Ordered) :
    (m.set k v).Ordered := by
  induction m with
  | nil => simp [set, Ordered]
  | cons e0 rest ih =>
    obtain ⟨k0, w⟩ := e0
    unfold Ordered at h
    rw [List.pairwise_cons] at h
    unfold set
    split
    · rename_i hlt
      unfold Ordered
      rw [List.pairwise_cons]
      refine ⟨?_, List.pairwise_cons.2 h⟩
      intro e he
      rcases List.mem_cons.1 he with he | he
      · rw [he]; exact hlt
      · exact strLess_trans _ _ _ hlt (h.1 e he)
    · split
      · rename_i hlt heq
        subst heq
        unfold Ordered
        rw [List.pairwise_cons]
        exact h
      · rename_i hlt hne
        unfold Ordered
        rw [List.pairwise_cons]
        refine ⟨?_, ih h.2⟩
        intro e he
        rcases mem_set rest k v e he with he | he
        · rw [he]
          apply strLess_total _ _ (by simpa using hlt)
          intro e2
          exact hne (String.ext e2.symm)
        · exact h.1 e he

theorem find_none_of_lt {V : Type} (m : StdMap V) (k : String)
    (h : ∀ e ∈ m, strLess k.data e.1.data = true) : m.find k = none := by
  induction m with
  | nil => rfl
  | cons e0 rest ih =>
    obtain ⟨k0, w⟩ := e0
    have h0 := h (k0, w) (by simp)
    have hne : ¬ k0 = k := by
      intro e
      rw [e, strLess_irrefl] at h0
      cases h0
    simp only [find, hne, if_false]
    exact ih (fun e he => h e (List.mem_cons_of_mem _ he))

/-- In an ordered table, assigning to a key that is present replaces its
entry where it stands. -/
theorem set_present {V : Type} (m : StdMap V) (k : String) (v w : V) (h : m.Ordered)
    (hf : m.find k = some w) :
    m.set k v = m.map fun e => if e.1 = k then (k, v) else e := by
  induction m with
  | nil => simp [find] at hf
  | cons e0 rest ih =>
    obtain ⟨k0, w0⟩ := e0
    unfold Ordered at h
    rw [List.pairwise_cons] at h
    unfold set
    by_cases hk : k0 = k
    · subst hk
      rw [if_neg (by rw [strLess_irrefl]; simp), if_pos rfl]
      simp only [List.map_cons, if_true]
      congr 1
      have hid : rest.map (fun e => if e.1 = k0 then (k0, v) else e) = rest.map id := by
        apply List.map_congr_left
        intro e he
        have := h.1 e he
        have hne : ¬ e.1 = k0 := by
          intro e2
          rw [e2, strLess_irrefl] at this
          cases this
        simp [hne]
      rw [hid, List.map_id]
    · have hrest : find rest k = some w := by simpa [find, hk] using hf
      have hnlt : ¬ strLess k.data k0.data = true := by
        intro hlt
        have : find rest k = none := by
          apply find_none_of_lt
          intro e he
          exact strLess_trans _ _ _ hlt (h.1 e he)
        rw [this] at hrest
        cases hrest
      rw [if_neg hnlt, if_neg hk]
      simp only [List.map_cons, hk, if_false]
      rw [ih h.2 hrest]

theorem nodup_keys_of_ordered {V : Type} (m : StdMap V) (h : m.Ordered) : m.keys.Nodup := by
  induction m with
  | nil => simp [keys]
  | cons e0 rest ih =>
    obtain ⟨k0, w0⟩ := e0
    unfold Ordered at h
    rw [List.pairwise_cons] at h
    simp only [keys, List.map_cons, List.nodup_cons]
    refine ⟨?_, ih h.2⟩
    intro hmem
    obtain ⟨e, he, hk⟩ := List.mem_map.1 hmem
    have := h.1 e he
    rw [hk, strLess_irrefl] at this
    cases this

end StdMap

/-! ## Lemmas: what a read that returns has done -/

theorem warning_cases (b : Build) (text : String) (s : Alerts) :
    warning b text s =
      if b.exitOnWarning = true then
        Run.exited { hadError := true, cerr := s.cerr ++ ["Warning: " ++ text] }
      else Run.returned () { s with cerr := s.cerr ++ ["Warning: " ++ text] } := by
  cases hb : b.exitOnWarning <;>
    simp [warning, raiseAlert, bind_run, showAlert, processAlert, hb, names]

theorem ite_error_returned (c : Prop) [Decidable c] (text : String) (s : Alerts) (u : Unit)
    (s1 : Alerts) (h : (if c then error text else pure ()) s = Run.returned u s1) : s1 = s := by
  split at h
  · exact absurd h.symm (returned_ne_error _ _ _ _)
  · rw [pure_run] at h
    injection h with _ h2
    exact h2.symm

theorem dataValidate_returned {T M : Type} {inst : DataValidate T M} (hp : Pack T M inst)
    (b : Build) (name : String) (v : T) (means : M) (s : Alerts) (u : Unit) (s1 : Alerts)
    (h : dataValidate b name v means s = Run.returned u s1) : s1 = s := by
  cases hp with
  | empty =>
    simp only [dataValidate, DataValidate.doIt, pure_run] at h
    injection h with _ h2
    exact h2.symm
  | range =>
    simp only [dataValidate, DataValidate.doIt] at h
    exact ite_error_returned _ _ s u s1 h
  | pattern =>
    simp only [dataValidate, DataValidate.doIt] at h
    exact ite_error_returned _ _ s u s1 h

theorem recordReference_returned (b : Build) (name tn : String) (vv vv1 : VariableValue)
    (s s1 : Alerts) (h : ParamParser.recordReference b name tn vv s = Run.returned vv1 s1) :
    ({ vv1 with lastType := tn } : VariableValue)
        = { vv with referenced := true, lastType := tn } ∧
      s1.hadError = s.hadError := by
  unfold ParamParser.recordReference at h
  cases hrf : vv.referenced with
  | false =>
    simp only [hrf, Bool.not_false, if_true, pure_run] at h
    injection h with h1 h2
    subst h1 h2
    exact ⟨rfl, rfl⟩
  | true =>
    simp only [hrf, Bool.not_true, Bool.false_eq_true, if_false, bind_run] at h
    by_cases ht : vv.lastType = tn
    · simp only [ht, ne_eq, not_true_eq_false, if_false, pure_run] at h
      injection h with h1 h2
      subst h1 h2
      refine ⟨?_, rfl⟩
      cases vv
      simp_all
    · simp only [ne_eq, ht, not_false_eq_true, if_true, bind_run, warning_cases] at h
      cases hb : b.exitOnWarning with
      | true => simp [hb] at h
      | false =>
        simp only [hb, Bool.false_eq_true, if_false, pure_run] at h
        injection h with h1 h2
        subst h1 h2
        refine ⟨?_, rfl⟩
        cases vv
        simp_all

theorem internalGet_returned {T M : Type} [TypeInfo T] [ReadFromString T]
    {inst : DataValidate T M} (hp : Pack T M inst) (b : Build) (pp : ParamParser)
    (name : String) (res : T) (means : M) (s : Alerts) (v : T) (pp1 : ParamParser)
    (s1 : Alerts) (vv : VariableValue) (hf : pp.variables_.find name = some vv)
    (h : pp.internalGet b name res means s = Run.returned (v, pp1) s1) :
    pp1 = { pp with
      variables_ := pp.variables_.set name
        { vv with referenced := true, lastType := TypeInfo.getTypeName T } } ∧
      s1.hadError = s.hadError := by
  simp only [ParamParser.internalGet, hf, bind_run, Preprocessor.preprocess_run] at h
  cases hx : expandRef pp.preprocessor_.variables_ vv.value.data with
  | error n =>
    rw [hx] at h
    exact absurd h.symm (returned_ne_error _ _ _ _)
  | ok out =>
    rw [hx] at h
    simp only [] at h
    cases hr : (ReadFromString.doIt out : Option T) with
    | none =>
      rw [hr] at h
      exact absurd h.symm (returned_ne_error _ _ _ _)
    | some v1 =>
      rw [hr] at h
      simp only [bind_run] at h
      cases hrec : ParamParser.recordReference b name (TypeInfo.getTypeName T) vv s with
      | exited s2 => rw [hrec] at h; cases h
      | returned vv1 s2 =>
        rw [hrec] at h
        simp only [] at h
        obtain ⟨hvv, hs2⟩ := recordReference_returned b name _ vv vv1 s s2 hrec
        cases hd : dataValidate b name v1 means s2 with
        | exited s3 => rw [hd] at h; cases h
        | returned u s3 =>
          rw [hd] at h
          simp only [pure_run] at h
          have := dataValidate_returned hp b name v1 means s2 u s3 hd
          injection h with h1 h2
          injection h1 with h3 h4
          subst h2 this
          refine ⟨?_, hs2⟩
          rw [← h4, hvv]

theorem readStep_effect (b : Build) (pp : ParamParser) (s : Alerts) (name : String)
    (pp1 : ParamParser) (s1 : Alerts) (h : ReadStep b pp s name pp1 s1) :
    s1.hadError = s.hadError ∧ pp.loaded_ = true ∧
    ((pp.variables_.find name = none ∧ pp1 = pp) ∨
      ∃ vv tn, pp.variables_.find name = some vv ∧
        pp1 = { pp with
          variables_ := pp.variables_.set name { vv with referenced := true, lastType := tn } }) := by
  cases h with
  | get hp _ _ _ means v _ _ h =>
    simp only [ParamParser.get, ParamParser.getRef, bind_run] at h
    by_cases hl : pp.loaded_ = true
    case neg =>
      have hl2 : pp.loaded_ = false := by simpa using hl
      simp only [ParamParser.checkLoaded, hl2, Bool.not_false, if_true] at h
      exact absurd h.symm (returned_ne_error _ _ _ _)
    case pos =>
      rw [checkLoaded_loaded pp hl] at h
      simp only [] at h
      cases hf : pp.variables_.find name with
      | none =>
        simp only [hf, if_true] at h
        exact absurd h.symm (returned_ne_error _ _ _ _)
      | some vv =>
        simp only [hf, reduceCtorEq, if_false, pure_run] at h
        obtain ⟨h1, h2⟩ := internalGet_returned hp b pp name _ means s v pp1 s1 vv hf h
        exact ⟨h2, hl, Or.inr ⟨vv, _, rfl, h1⟩⟩
  | getDefault hp _ _ _ d means v _ _ h =>
    simp only [ParamParser.getDefault, ParamParser.getDefaultRef, bind_run] at h
    by_cases hl : pp.loaded_ = true
    case neg =>
      have hl2 : pp.loaded_ = false := by simpa using hl
      simp only [ParamParser.checkLoaded, hl2, Bool.not_false, if_true] at h
      exact absurd h.symm (returned_ne_error _ _ _ _)
    case pos =>
      rw [checkLoaded_loaded pp hl] at h
      simp only [] at h
      cases hf : pp.variables_.find name with
      | none =>
        simp only [ParamParser.internalGet, hf, bind_run] at h
        cases hd : dataValidate b name d means s with
        | exited s3 => rw [hd] at h; cases h
        | returned u s3 =>
          rw [hd] at h
          simp only [pure_run] at h
          have := dataValidate_returned hp b name d means s u s3 hd
          injection h with h1 h2
          injection h1 with h3 h4
          subst h2 this
          exact ⟨rfl, hl, Or.inl ⟨rfl, h4.symm⟩⟩
      | some vv =>
        obtain ⟨h1, h2⟩ := internalGet_returned hp b pp name _ means s v pp1 s1 vv hf h
        exact ⟨h2, hl, Or.inr ⟨vv, _, rfl, h1⟩⟩

theorem loadFrom_returned (argc : Nat) (args : List String) :
    ∀ (idx : Nat) (pp : ParamParser) (s : Alerts) (pp1 : ParamParser) (s1 : Alerts),
      ParamParser.loadFrom argc idx args pp s = Run.returned pp1 s1 →
      s1 = s ∧ pp1.loaded_ = pp.loaded_ ∧
      (pp.variables_.Ordered → pp1.variables_.Ordered) ∧
      ((∀ e ∈ pp.variables_, e.2.referenced = false) →
        ∀ e ∈ pp1.variables_, e.2.referenced = false) := by
  induction args with
  | nil =>
    intro idx pp s pp1 s1 h
    rw [ParamParser.loadFrom, pure_run] at h
    injection h with h1 h2
    subst h1 h2
    exact ⟨rfl, rfl, id, id⟩
  | cons param rest ih =>
    intro idx pp s pp1 s1 h
    rw [ParamParser.loadFrom] at h
    split at h
    · exact ih _ _ _ _ _ h
    · split at h
      · exact ih _ _ _ _ _ h
      · cases hsp : strFind param.data '=' with
        | none =>
          rw [hsp] at h
          exact absurd h.symm (returned_ne_error _ _ _ _)
        | some splitPos =>
          rw [hsp] at h
          simp only [] at h
          split at h
          · exact absurd h.symm (returned_ne_error _ _ _ _)
          · cases hfd : pp.variables_.find (String.mk (param.data.take splitPos)) with
            | some first =>
              rw [hfd] at h
              exact absurd h.symm (returned_ne_error _ _ _ _)
            | none =>
              rw [hfd] at h
              simp only [] at h
              obtain ⟨h1, h2, h3, h4⟩ := ih _ _ _ _ _ h
              refine ⟨h1, h2, ?_, ?_⟩
              · intro ho
                exact h3 (StdMap.ordered_set _ _ _ ho)
              · intro hu
                apply h4
                intro e he
                rcases StdMap.mem_set _ _ _ e he with he | he
                · rw [he]
                · exact hu e he

theorem load_returned (argv : List String) (s : Alerts) (pp1 : ParamParser) (s1 : Alerts)
    (h : ParamParser.new.load argv s = Run.returned pp1 s1) :
    s1 = s ∧ pp1.loaded_ = true ∧ pp1.variables_.Ordered ∧
      ∀ e ∈ pp1.variables_, e.2.referenced = false := by
  simp only [ParamParser.load, bind_run] at h
  cases hl : ParamParser.loadFrom argv.length 1 (List.drop 1 argv) ParamParser.new s with
  | exited s2 => rw [hl] at h; cases h
  | returned pp2 s2 =>
    rw [hl] at h
    simp only [pure_run] at h
    injection h with h1 h2
    subst h1 h2
    obtain ⟨h3, _, h5, h6⟩ := loadFrom_returned _ _ _ _ _ _ _ hl
    exact ⟨h3, rfl, h5 List.Pairwise.nil, h6 (fun e he => by cases he)⟩

theorem auditLoop_run (b : Build) (hb : b.exitOnWarning = false) (vars : StdMap VariableValue) :
    ∀ s : Alerts, ParamParser.auditLoop b vars s =
      Run.returned () { s with cerr := s.cerr ++
        ((flags vars).filter fun e => !e.2).map fun e => unusedLine e.1 } := by
  induction vars with
  | nil =>
    intro s
    simp [ParamParser.auditLoop, pure_run, flags]
  | cons e rest ih =>
    intro s
    obtain ⟨name, value⟩ := e
    rw [ParamParser.auditLoop]
    cases hr : value.referenced with
    | true =>
      simp [bind_run, pure_run, ih, flags, hr]
    | false =>
      simp [bind_run, warning_run b hb, ih, flags, hr, unusedLine]

theorem flags_set_present (m : StdMap VariableValue) (name tn : String) (vv : VariableValue)
    (ho : m.Ordered) (hf : m.find name = some vv) :
    flags (m.set name { vv with referenced := true, lastType := tn })
      = (flags m).map fun e => if e.1 = name then (e.1, true) else e := by
  rw [StdMap.set_present m name _ vv ho hf]
  simp only [flags, List.map_map]
  apply List.map_congr_left
  intro e _
  by_cases h : e.1 = name
  · simp [h]
  · simp [h]

theorem keys_flags (m : StdMap VariableValue) : (flags m).map Prod.fst = m.keys := by
  simp [flags, StdMap.keys, List.map_map]

theorem reads_effect (b : Build) (pp : ParamParser) (s : Alerts) (names : List String)
    (pp2 : ParamParser) (s2 : Alerts) (h : Reads b pp s names pp2 s2) :
    pp.variables_.Ordered → pp.loaded_ = true →
      s2.hadError = s.hadError ∧ pp2.loaded_ = true ∧
      flags pp2.variables_ = (flags pp.variables_).map fun e => (e.1, e.2 || decide (e.1 ∈ names)) := by
  induction h with
  | nil pp s =>
    intro _ hl
    refine ⟨rfl, hl, ?_⟩
    simp
  | @cons pp pp1 pp2 s s1 s2 name names hstep _ ih =>
    intro ho hl
    obtain ⟨h1, _, h3⟩ := readStep_effect b pp s name pp1 s1 hstep
    rcases h3 with ⟨hnone, hpp⟩ | ⟨vv, tn, hsome, hpp⟩
    · subst hpp
      obtain ⟨i1, i2, i3⟩ := ih ho hl
      refine ⟨i1.trans h1, i2, ?_⟩
      rw [i3]
      apply List.map_congr_left
      intro e he
      have hk : e.1 ∈ pp1.variables_.keys := by
        rw [← keys_flags]
        exact List.mem_map_of_mem _ he
      have hne : ¬ e.1 = name := by
        intro e2
        rw [e2] at hk
        exact (StdMap.find_eq_none_iff _ _).1 hnone hk
      simp [hne]
    · have ho1 : pp1.variables_.Ordered := by
        rw [hpp]
        exact StdMap.ordered_set _ _ _ ho
      have hl1 : pp1.loaded_ = true := by rw [hpp]; exact hl
      obtain ⟨i1, i2, i3⟩ := ih ho1 hl1
      refine ⟨i1.trans h1, i2, ?_⟩
      rw [i3, hpp]
      simp only []
      rw [flags_set_present _ name tn vv ho hsome, List.map_map]
      apply List.map_congr_left
      intro e _
      by_cases hne : e.1 = name
      · simp [hne]
      · simp [hne]

theorem unusedLine_injective : Function.Injective unusedLine := by
  intro a c h
  unfold unusedLine at h
  have h1 := congrArg String.data h
  simp only [String.data_append, List.append_assoc] at h1
  have h2 := List.append_cancel_left h1
  have h3 := List.append_cancel_left h2
  have h4 := List.append_cancel_right h3
  exact String.ext h4

theorem flags_unreferenced (m : StdMap VariableValue)
    (h : ∀ e ∈ m, e.2.referenced = false) : flags m = m.keys.map fun k => (k, false) := by
  simp only [flags, StdMap.keys, List.map_map]
  apply List.map_congr_left
  intro e he
  simp [h e he]

/-- A read without validator of a value that has no `'@'` and was not read
before. -/
theorem get_first_read {T : Type} [Inhabited T] [TypeInfo T] [ReadFromString T] (b : Build)
    (pp : ParamParser) (name : String) (s : Alerts) (vv : VariableValue) (v : T)
    (hl : pp.loaded_ = true) (hf : pp.variables_.find name = some vv)
    (hat : '@' ∉ vv.value.data) (hv : ReadFromString.doIt vv.value = some v)
    (hr : vv.referenced = false) :
    pp.get b name () s = Run.returned (v, { pp with
      variables_ := pp.variables_.set name
        { vv with referenced := true, lastType := TypeInfo.getTypeName T } }) s := by
  rw [get_of_loaded b pp hl name () s vv hf]
  simp only [ParamParser.internalGet, hf, bind_run, Preprocessor.preprocess_run,
    expandRef_no_at _ _ hat]
  have hv2 : (ReadFromString.doIt (String.mk vv.value.data) : Option T) = some v := hv
  simp [hv2, ParamParser.recordReference, hr, pure_run, bind_run, dataValidate,
    DataValidate.doIt]

/-! ## Lemmas: the conversion to `int` -/

theorem digitsValue_append (l : List Char) (d : Char) :
    digitsValue (l ++ [d]) = 10 * digitsValue l + (d.toNat - 48) := by
  simp [digitsValue, List.foldl_append]

theorem digitChar_isDigit (k : Nat) (hk : k < 10) :
    (Nat.digitChar k).isDigit = true ∧ (Nat.digitChar k).toNat - 48 = k := by
  interval_cases k <;> decide

theorem toDigitsCore_spec (fuel : Nat) : ∀ (n : Nat) (ds : List Char), n < fuel →
    ∃ l : List Char, Nat.toDigitsCore 10 fuel n ds = l ++ ds ∧ l ≠ [] ∧
      (∀ c ∈ l, c.isDigit = true) ∧ digitsValue l = n := by
  induction fuel with
  | zero => intro n ds h; omega
  | succ fuel ih =>
    intro n ds h
    have hd := digitChar_isDigit (n % 10) (Nat.mod_lt _ (by decide))
    rw [Nat.toDigitsCore]
    by_cases h0 : n / 10 = 0
    · simp only [h0, if_true]
      refine ⟨[Nat.digitChar (n % 10)], rfl, by simp, ?_, ?_⟩
      · intro c hc
        rw [List.mem_singleton.1 hc]
        exact hd.1
      · have : digitsValue [Nat.digitChar (n % 10)] = (Nat.digitChar (n % 10)).toNat - 48 := by
          simp [digitsValue]
        rw [this, hd.2]
        omega
    · simp only [h0, if_false]
      obtain ⟨l, h1, h2, h3, h4⟩ := ih (n / 10) (Nat.digitChar (n % 10) :: ds) (by omega)
      refine ⟨l ++ [Nat.digitChar (n % 10)], ?_, by simp, ?_, ?_⟩
      · rw [h1]; simp
      · intro c hc
        rcases List.mem_append.1 hc with hc | hc
        · exact h3 c hc
        · rw [List.mem_singleton.1 hc]; exact hd.1
      · rw [digitsValue_append, h4, hd.2]
        omega

theorem repr_spec (n : Nat) :
    (Nat.repr n).data ≠ [] ∧ (∀ c ∈ (Nat.repr n).data, c.isDigit = true) ∧
      digitsValue (Nat.repr n).data = n := by
  obtain ⟨l, h1, h2, h3, h4⟩ := toDigitsCore_spec (n + 1) n [] (by omega)
  have : (Nat.repr n).data = l := by
    simp [Nat.repr, Nat.toDigits, h1, List.asString]
  rw [this]
  exact ⟨h2, h3, h4⟩

theorem isDigit_facts (c : Char) (h : c.isDigit = true) :
    c ≠ '-' ∧ c ≠ '+' ∧ isSpace c = false ∧ ¬ signedChar c ≤ signedChar ' ' := by
  have h1 : 48 ≤ c.toNat ∧ c.toNat ≤ 57 := by
    simp only [Char.isDigit, Bool.and_eq_true, decide_eq_true_eq] at h
    exact ⟨h.1, h.2⟩
  refine ⟨?_, ?_, ?_, ?_⟩
  · rintro rfl
    revert h; decide
  · rintro rfl
    revert h; decide
  · simp only [isSpace, Bool.or_eq_false_iff, Bool.and_eq_false_iff]
    refine ⟨?_, Or.inr (by simp; omega)⟩
    simp only [beq_eq_false_iff_ne, ne_eq]
    rintro rfl
    revert h; decide
  · have : signedChar ' ' = 32 := by decide
    rw [this]
    unfold signedChar
    split <;> omega

theorem not_space_of_gt (c : Char) (h : ¬ signedChar c ≤ signedChar ' ') : isSpace c = false := by
  have h32 : signedChar ' ' = 32 := by decide
  rw [h32] at h
  unfold signedChar at h
  simp only [isSpace, Bool.or_eq_false_iff, Bool.and_eq_false_iff, beq_eq_false_iff_ne, ne_eq]
  constructor
  · rintro rfl
    revert h; decide
  · split at h
    · simp only [decide_eq_false_iff_not, not_le]
      omega
    · simp only [decide_eq_false_iff_not, not_le]
      omega

theorem all_digits_iff (l : List Char) :
    l.dropWhile Char.isDigit = [] ↔ ∀ d ∈ l, d.isDigit = true := by
  simp [List.dropWhile_eq_nil_iff]

theorem takeWhile_all (l : List Char) (h : ∀ d ∈ l, d.isDigit = true) :
    l.takeWhile Char.isDigit = l := by
  rw [List.takeWhile_eq_self_iff]
  exact h

/-- The extraction from a text whose digits start at once or after one sign. -/
theorem extractInt_unsigned (body : List Char) (hs : ∀ c, body.head? = some c → isSpace c = false)
    (h1 : body.head? ≠ some '-') (h2 : body.head? ≠ some '+') :
    extractInt body =
      if (body.takeWhile Char.isDigit).isEmpty then (none, (body.dropWhile Char.isDigit).isEmpty)
      else if ((digitsValue (body.takeWhile Char.isDigit) : Nat) : Int) < INT_MIN
          ∨ INT_MAX < ((digitsValue (body.takeWhile Char.isDigit) : Nat) : Int) then
        (none, (body.dropWhile Char.isDigit).isEmpty)
      else (some (digitsValue (body.takeWhile Char.isDigit) : Int),
        (body.dropWhile Char.isDigit).isEmpty) := by
  have hb : body.dropWhile isSpace = body := by
    cases body with
    | nil => rfl
    | cons c rest => simp [List.dropWhile_cons, hs c rfl]
  unfold extractInt
  simp only [hb, h1, h2, or_self, if_false, decide_False, Bool.false_eq_true]

theorem extractInt_minus (rest : List Char) :
    extractInt ('-' :: rest) =
      if (rest.takeWhile Char.isDigit).isEmpty then (none, (rest.dropWhile Char.isDigit).isEmpty)
      else if -((digitsValue (rest.takeWhile Char.isDigit) : Nat) : Int) < INT_MIN
          ∨ INT_MAX < -((digitsValue (rest.takeWhile Char.isDigit) : Nat) : Int) then
        (none, (rest.dropWhile Char.isDigit).isEmpty)
      else (some (-(digitsValue (rest.takeWhile Char.isDigit) : Int)),
        (rest.dropWhile Char.isDigit).isEmpty) := by
  have hb : ('-' :: rest).dropWhile isSpace = '-' :: rest := by
    simp [List.dropWhile_cons, isSpace]
  unfold extractInt
  simp only [hb, List.head?_cons, true_or, if_true, List.tail_cons, decide_True]

theorem extractInt_plus (rest : List Char) :
    extractInt ('+' :: rest) =
      if (rest.takeWhile Char.isDigit).isEmpty then (none, (rest.dropWhile Char.isDigit).isEmpty)
      else if ((digitsValue (rest.takeWhile Char.isDigit) : Nat) : Int) < INT_MIN
          ∨ INT_MAX < ((digitsValue (rest.takeWhile Char.isDigit) : Nat) : Int) then
        (none, (rest.dropWhile Char.isDigit).isEmpty)
      else (some (digitsValue (rest.takeWhile Char.isDigit) : Int),
        (rest.dropWhile Char.isDigit).isEmpty) := by
  have hb : ('+' :: rest).dropWhile isSpace = '+' :: rest := by
    simp [List.dropWhile_cons, isSpace]
  have hne : (some '+' : Option Char) ≠ some '-' := by decide
  unfold extractInt
  simp only [hb, List.head?_cons, hne, or_true, if_true, List.tail_cons, decide_False,
    Bool.false_eq_true, if_false]

theorem readInt_run (raw : String) :
    readInt raw =
      match raw.data with
      | [] => none
      | c :: rest =>
        if signedChar c ≤ signedChar ' ' then none
        else
          let body := if c = '-' ∨ c = '+' then rest else c :: rest
          let digits := body.takeWhile Char.isDigit
          let v : Int := if c = '-' then -(digitsValue digits : Int) else (digitsValue digits : Int)
          if digits = [] ∨ v < INT_MIN ∨ INT_MAX < v ∨ body.dropWhile Char.isDigit ≠ [] then none
          else some v := by
  unfold readInt
  cases hd : raw.data with
  | nil => rfl
  | cons c rest =>
    simp only []
    by_cases hsp : signedChar c ≤ signedChar ' '
    · simp only [hsp, if_true]
    · simp only [hsp, if_false]
      by_cases hm : c = '-'
      · subst hm
        rw [extractInt_minus]
        simp only [true_or, if_true]
        by_cases h1 : rest.takeWhile Char.isDigit = []
        · simp [h1]
        · by_cases h2 : -((digitsValue (rest.takeWhile Char.isDigit) : Nat) : Int) < INT_MIN
              ∨ INT_MAX < -((digitsValue (rest.takeWhile Char.isDigit) : Nat) : Int)
          · rcases h2 with h2 | h2 <;> simp [h1, h2]
          · have h3 := not_or.1 h2
            by_cases h4 : rest.dropWhile Char.isDigit = []
            · simp [h1, h3.1, h3.2, h4]
            · simp [h1, h3.1, h3.2, h4]
      · by_cases hp : c = '+'
        · subst hp
          rw [extractInt_plus]
          have hne : ¬ ('+' = '-') := by decide
          simp only [or_true, if_true, hne, if_false]
          by_cases h1 : rest.takeWhile Char.isDigit = []
          · simp [h1]
          · by_cases h2 : ((digitsValue (rest.takeWhile Char.isDigit) : Nat) : Int) < INT_MIN
                ∨ INT_MAX < ((digitsValue (rest.takeWhile Char.isDigit) : Nat) : Int)
            · rcases h2 with h2 | h2 <;> simp [h1, h2]
            · have h3 := not_or.1 h2
              by_cases h4 : rest.dropWhile Char.isDigit = []
              · simp [h1, h3.1, h3.2, h4]
              · simp [h1, h3.1, h3.2, h4]
        · rw [extractInt_unsigned (c :: rest)
            (by intro x hx; simp at hx; rw [← hx]; exact not_space_of_gt c hsp)
            (by simp [hm]) (by simp [hp])]
          simp only [hm, hp, or_self, if_false]
          by_cases h1 : (c :: rest).takeWhile Char.isDigit = []
          · simp [h1]
          · by_cases h2 : ((digitsValue ((c :: rest).takeWhile Char.isDigit) : Nat) : Int) < INT_MIN
                ∨ INT_MAX < ((digitsValue ((c :: rest).takeWhile Char.isDigit) : Nat) : Int)
            · rcases h2 with h2 | h2 <;> simp [h1, h2]
            · have h3 := not_or.1 h2
              by_cases h4 : (c :: rest).dropWhile Char.isDigit = []
              · simp [h1, h3.1, h3.2, h4]
              · simp [h1, h3.1, h3.2, h4]

theorem readInt_flat_all_digits (c : Char) (body : List Char) (hb : body ≠ [])
    (hd : ∀ d ∈ body, d.isDigit = true) (v : Int)
    (hv : v = if c = '-' then -(digitsValue body : Int) else (digitsValue body : Int)) :
    (if body.takeWhile Char.isDigit = [] ∨
        (if c = '-' then -(digitsValue (body.takeWhile Char.isDigit) : Int)
          else (digitsValue (body.takeWhile Char.isDigit) : Int)) < INT_MIN ∨
        INT_MAX < (if c = '-' then -(digitsValue (body.takeWhile Char.isDigit) : Int)
          else (digitsValue (body.takeWhile Char.isDigit) : Int)) ∨
        body.dropWhile Char.isDigit ≠ [] then none
     else some (if c = '-' then -(digitsValue (body.takeWhile Char.isDigit) : Int)
          else (digitsValue (body.takeWhile Char.isDigit) : Int)))
      = if INT_MIN ≤ v ∧ v ≤ INT_MAX then some v else none := by
  simp only [takeWhile_all body hd, (all_digits_iff body).2 hd, hb, ne_eq, not_true_eq_false,
    or_false, false_or, ← hv]
  by_cases h1 : v < INT_MIN
  · have : ¬ (INT_MIN ≤ v ∧ v ≤ INT_MAX) := fun h => absurd h.1 (not_le.2 h1)
    simp [h1, this]
  · by_cases h2 : INT_MAX < v
    · have : ¬ (INT_MIN ≤ v ∧ v ≤ INT_MAX) := fun h => absurd h.2 (not_le.2 h2)
      simp [h2, this]
    · have : INT_MIN ≤ v ∧ v ≤ INT_MAX := ⟨not_lt.1 h1, not_lt.1 h2⟩
      simp [h1, h2, this]

theorem readInt_flat_some (c : Char) (body : List Char) (v : Int)
    (h : (if body.takeWhile Char.isDigit = [] ∨
        (if c = '-' then -(digitsValue (body.takeWhile Char.isDigit) : Int)
          else (digitsValue (body.takeWhile Char.isDigit) : Int)) < INT_MIN ∨
        INT_MAX < (if c = '-' then -(digitsValue (body.takeWhile Char.isDigit) : Int)
          else (digitsValue (body.takeWhile Char.isDigit) : Int)) ∨
        body.dropWhile Char.isDigit ≠ [] then none
     else some (if c = '-' then -(digitsValue (body.takeWhile Char.isDigit) : Int)
          else (digitsValue (body.takeWhile Char.isDigit) : Int))) = some v) :
    body ≠ [] ∧ (∀ d ∈ body, d.isDigit = true) ∧
      v = (if c = '-' then -(digitsValue body : Int) else (digitsValue body : Int)) ∧
      INT_MIN ≤ v ∧ v ≤ INT_MAX := by
  by_cases hcond : body.takeWhile Char.isDigit = [] ∨
        (if c = '-' then -(digitsValue (body.takeWhile Char.isDigit) : Int)
          else (digitsValue (body.takeWhile Char.isDigit) : Int)) < INT_MIN ∨
        INT_MAX < (if c = '-' then -(digitsValue (body.takeWhile Char.isDigit) : Int)
          else (digitsValue (body.takeWhile Char.isDigit) : Int)) ∨
        body.dropWhile Char.isDigit ≠ []
  · rw [if_pos hcond] at h
    cases h
  · rw [if_neg hcond] at h
    simp only [not_or, not_lt, ne_eq, not_not] at hcond
    obtain ⟨hne, hlo, hhi, hall⟩ := hcond
    injection h with h
    have hd := (all_digits_iff _).1 hall
    rw [takeWhile_all _ hd] at h hne hlo hhi
    subst h
    exact ⟨hne, hd, rfl, hlo, hhi⟩

theorem readInt_iff (raw : String) (v : Int) :
    readInt raw = some v ↔ IsNumeral raw.data v ∧ INT_MIN ≤ v ∧ v ≤ INT_MAX := by
  rw [readInt_run]
  cases hraw : raw.data with
  | nil =>
    simp only [reduceCtorEq, false_iff, not_and]
    rintro ⟨sign, digits, h1, _, h3, _⟩
    have := List.append_eq_nil.1 h1.symm
    exact absurd this.2 h3
  | cons c rest =>
    simp only []
    constructor
    · intro h
      by_cases hsp : signedChar c ≤ signedChar ' '
      · simp [hsp] at h
      · rw [if_neg hsp] at h
        obtain ⟨hne, hd, hv, hlo, hhi⟩ := readInt_flat_some c _ v h
        refine ⟨?_, hlo, hhi⟩
        by_cases hm : c = '-'
        · subst hm
          simp only [true_or, if_true] at hne hd hv
          exact ⟨['-'], rest, rfl, Or.inr (Or.inl rfl), hne, hd, by simp [hv]⟩
        · by_cases hp : c = '+'
          · subst hp
            simp only [or_true, if_true, hm, if_false] at hne hd hv
            exact ⟨['+'], rest, rfl, Or.inr (Or.inr rfl), hne, hd, by simp [hv]⟩
          · simp only [hm, hp, or_self, if_false] at hne hd hv
            exact ⟨[], c :: rest, rfl, Or.inl rfl, hne, hd, by simp [hv]⟩
    · rintro ⟨⟨sign, digits, h1, h2, h3, h4, h5⟩, hlo, hhi⟩
      rcases h2 with h2 | h2 | h2
      · subst h2
        simp only [List.nil_append] at h1
        subst h1
        have hc := isDigit_facts c (h4 c (by simp))
        rw [if_neg hc.2.2.2]
        have hsel : (if c = '-' ∨ c = '+' then rest else c :: rest) = c :: rest := by
          simp [hc.1, hc.2.1]
        simp only [hsel]
        simp only [List.nil_eq, reduceCtorEq, if_false] at h5
        rw [readInt_flat_all_digits c (c :: rest) (by simp) h4 v (by simp [hc.1, h5])]
        simp [hlo, hhi]
      · subst h2
        simp only [List.singleton_append, List.cons.injEq] at h1
        obtain ⟨rfl, rfl⟩ := h1
        rw [if_neg (by decide)]
        simp only [if_true] at h5
        have hflat := readInt_flat_all_digits '-' rest h3 h4 v (by simp [h5])
        simp only [true_or, if_true] at hflat ⊢
        rw [hflat]
        simp [hlo, hhi]
      · subst h2
        simp only [List.singleton_append, List.cons.injEq] at h1
        obtain ⟨rfl, rfl⟩ := h1
        rw [if_neg (by decide)]
        have hne : ¬ (['+'] = ['-']) := by decide
        simp only [hne, if_false] at h5
        have hne2 : ¬ ('+' = '-') := by decide
        have hflat := readInt_flat_all_digits '+' rest h3 h4 v (by simp [hne2, h5])
        simp only [or_true, if_true, hne2, if_false] at hflat ⊢
        rw [hflat]
        simp [hlo, hhi]

theorem expandRef_reference (table : StdMap String) (name : String) (v : String)
    (hv : ∀ c ∈ name.data, isValidMiddleChar c = true) (hf : table.find name = some v) :
    expandRef table ('@' :: name.data) = Except.ok v := by
  rw [expandRef, if_neg (by simp)]
  simp only []
  have h1 := takeWhile_run isValidMiddleChar name.data [] hv (by simp)
  have h2 := dropWhile_run isValidMiddleChar name.data [] hv (by simp)
  rw [List.append_nil] at h1 h2
  rw [h1, h2]
  have h3 : (String.mk name.data) = name := rfl
  rw [h3, hf]
  simp only [dropBang]
  rw [expandRef]
  simp

theorem preprocess_reference (pre : Preprocessor) (name : String) (v : String) (s : Alerts)
    (hv : isValidName name = true) (hf : pre.variables_.find name = some v) :
    pre.preprocess ("@" ++ name) s = Run.returned v s := by
  rw [Preprocessor.preprocess_run]
  have hd : ("@" ++ name).data = '@' :: name.data := by simp [String.data_append]
  rw [hd, expandRef_reference _ name v (isValidName_data name hv).2 hf]

/-! ## Defining macros -/

/-- C11: `define(name, value)` raises Error exactly when `name` is not a valid
identifier.  When it returns, it has changed nothing but the entry of `name`
in the macro table: `@name` now expands to the stream-formatted text of
`value`, every other macro name has the definition it had, and a later
`define` of the same name returns and puts its own value in place of the
earlier one. -/
theorem define_registers {T : Type} [StreamOut T] (pp : ParamParser) (name : String)
    (value : T) (s : Alerts) :
    ((pp.define name value s).IsError ↔ isValidName name = false) ∧
    (isValidName name = true →
      ∃ pp1 : ParamParser, pp.define name value s = Run.returned pp1 s ∧
        pp1.loaded_ = pp.loaded_ ∧ pp1.variables_ = pp.variables_ ∧
        (∀ s1, pp1.preprocessor_.preprocess ("@" ++ name) s1
          = Run.returned (StreamOut.format value) s1) ∧
        (∀ other, other ≠ name →
          pp1.preprocessor_.variables_.find other = pp.preprocessor_.variables_.find other) ∧
        (∀ (U : Type) [StreamOut U] (later : U),
          ∃ pp2 : ParamParser, pp1.define name later s = Run.returned pp2 s ∧
            (∀ s1, pp2.preprocessor_.preprocess ("@" ++ name) s1
              = Run.returned (StreamOut.format later) s1) ∧
            (∀ other, other ≠ name →
              pp2.preprocessor_.variables_.find other
                = pp.preprocessor_.variables_.find other))) := by
  refine ⟨?_, ?_⟩
  · rw [define_run]
    by_cases hv : isValidName name = true
    · rw [if_pos hv]
      simp only [hv, Bool.true_eq_false, iff_false]
      exact not_isError_returned _ _
    · rw [if_neg hv]
      simp only [Bool.not_eq_true] at hv
      simp only [hv, iff_true]
      exact error_isError _ _
  · intro hv
    refine ⟨{ pp with preprocessor_ :=
        ⟨pp.preprocessor_.variables_.set name (StreamOut.format value)⟩ },
      by rw [define_run, if_pos hv], rfl, rfl, ?_, ?_, ?_⟩
    · intro s1
      exact preprocess_reference _ name _ s1 hv (StdMap.find_set_self _ _ _)
    · intro other hne
      exact StdMap.find_set_ne _ _ _ _ (fun e => hne e.symm)
    · intro U _ later
      refine ⟨{ pp with preprocessor_ :=
          ⟨(pp.preprocessor_.variables_.set name (StreamOut.format value)).set name
            (StreamOut.format later)⟩ },
        by rw [define_run, if_pos hv], ?_, ?_⟩
      · intro s1
        exact preprocess_reference _ name _ s1 hv (StdMap.find_set_self _ _ _)
      · intro other hne
        simp only []
        rw [StdMap.find_set_ne _ _ _ _ (fun e => hne e.symm),
          StdMap.find_set_ne _ _ _ _ (fun e => hne e.symm)]

/-- C11, at `define("var2", 42)` on a new parser: `@var2` expands to `42`. -/
theorem define_registers_witness :
    isValidName "var2" = true ∧
    ∃ pp1 : ParamParser, ParamParser.new.define "var2" (42 : Int) Alerts.init
        = Run.returned pp1 Alerts.init ∧
      pp1.preprocessor_.preprocess ("@" ++ "var2") Alerts.init
        = Run.returned "42" Alerts.init := by
  obtain ⟨pp1, h1, _, _, h4, _⟩ :=
    (define_registers ParamParser.new "var2" (42 : Int) Alerts.init).2 (by decide)
  exact ⟨by decide, pp1, h1, h4 Alerts.init⟩

/-! ## Reading before `load` -/

/-- C16: on a parser with `loaded_` unset, `get` and `getDefault`, in both of
their forms, raise the Error `ParamParser is not loaded!` for every name,
every default and every validator pack; nothing else is done. -/
theorem accessors_require_load {T M : Type} [Inhabited T] [TypeInfo T] [ReadFromString T]
    [DataValidate T M] (b : Build) (pp : ParamParser) (hl : pp.loaded_ = false)
    (name : String) (d : T) (means : M) (s : Alerts) :
    pp.get (T := T) b name means s = error "ParamParser is not loaded!" s ∧
    pp.getDefault b name d means s = error "ParamParser is not loaded!" s ∧
    (∀ res : T, pp.getRef b name res means s = error "ParamParser is not loaded!" s) ∧
    (∀ res : T, pp.getDefaultRef b name res d means s = error "ParamParser is not loaded!" s) := by
  have hc : pp.checkLoaded s = error "ParamParser is not loaded!" s := by
    simp [ParamParser.checkLoaded, hl]
  refine ⟨?_, ?_, ?_, ?_⟩
  · simp only [ParamParser.get, ParamParser.getRef, bind_run, hc]
    rfl
  · simp only [ParamParser.getDefault, ParamParser.getDefaultRef, bind_run, hc]
    rfl
  · intro res
    simp only [ParamParser.getRef, bind_run, hc]
    rfl
  · intro res
    simp only [ParamParser.getDefaultRef, bind_run, hc]
    rfl

/-- C16, at a parser as declared: a plain `get<int>` and a `getDefault<int>`
with default 10 and `range(1,100)`. -/
theorem accessors_require_load_witness :
    ParamParser.new.loaded_ = false ∧
    ParamParser.new.get (T := Int) Build.plain "i" () Alerts.init
      = error "ParamParser is not loaded!" Alerts.init ∧
    ParamParser.new.getDefault Build.plain "i" (10 : Int) (⟨1, 100⟩ : Range Int) Alerts.init
      = error "ParamParser is not loaded!" Alerts.init :=
  ⟨rfl, (accessors_require_load Build.plain ParamParser.new rfl "i" (10 : Int) ()
      Alerts.init).1,
    (accessors_require_load Build.plain ParamParser.new rfl "i" (10 : Int)
      (⟨1, 100⟩ : Range Int) Alerts.init).2.1⟩

theorem readBool_run (raw : String) :
    readBool raw =
      if asciiLower raw = "true" ∨ asciiLower raw = "1" then some true
      else if asciiLower raw = "false" ∨ asciiLower raw = "0" then some false
      else none := by
  have h : (String.mk (raw.data.map Char.toLower)) = asciiLower raw := by
    unfold asciiLower
    congr 1
  unfold readBool
  simp only [h]

/-! ## The conversions -/

/-- C12: the conversion to `int` fails on the empty text and on a text whose
first character is at most `' '`; it gives `v` exactly when the whole text is
an optionally signed run of decimal digits that denotes `v` and `v` is an
`int`: nothing may come before, between or after the digits.  The texts
`42 `, ` 42`, `42abc`, `4 2` and the empty text fail, `42` gives 42. -/
theorem readInt_whole_numeral :
    (∀ raw : String, raw.data = [] → readInt raw = none) ∧
    (∀ (raw : String) (c : Char) (rest : List Char), raw.data = c :: rest →
      signedChar c ≤ signedChar ' ' → readInt raw = none) ∧
    (∀ (raw : String) (v : Int),
      readInt raw = some v ↔ IsNumeral raw.data v ∧ INT_MIN ≤ v ∧ v ≤ INT_MAX) ∧
    (∀ raw : String, (ReadFromString.doIt raw : Option Int) = readInt raw) ∧
    readInt "42 " = none ∧ readInt " 42" = none ∧ readInt "42abc" = none ∧
    readInt "4 2" = none ∧ readInt "" = none ∧ readInt "42" = some 42 := by
  refine ⟨?_, ?_, readInt_iff, fun _ => rfl, by decide, by decide, by decide, by decide,
    by decide, by decide⟩
  · intro raw h
    simp [readInt, h]
  · intro raw c rest h hc
    simp [readInt, h, hc]

/-- C12, at the text `-17`. -/
theorem readInt_whole_numeral_witness :
    IsNumeral "-17".data (-17) ∧ readInt "-17" = some (-17) :=
  have h : IsNumeral "-17".data (-17) :=
    ⟨['-'], ['1', '7'], rfl, Or.inr (Or.inl rfl), by decide, by decide, by decide⟩
  ⟨h, (readInt_whole_numeral.2.2.1 "-17" (-17)).2 ⟨h, by decide, by decide⟩⟩

/-- C13: for every `int` `v`, every `bool`, every `char` (a whitespace
character too) and every `std::string` (the empty one too), the conversion
of the stream-formatted text of the value gives the value back; `bool` is
formatted as `1` and `0`. -/
theorem parse_format_roundtrip :
    (∀ v : Int, INT_MIN ≤ v → v ≤ INT_MAX →
      (ReadFromString.doIt (StreamOut.format v) : Option Int) = some v) ∧
    (∀ b : Bool, (ReadFromString.doIt (StreamOut.format b) : Option Bool) = some b) ∧
    (∀ c : Char, (ReadFromString.doIt (StreamOut.format c) : Option Char) = some c) ∧
    (∀ s : String, (ReadFromString.doIt (StreamOut.format s) : Option String) = some s) ∧
    StreamOut.format true = "1" ∧ StreamOut.format false = "0" := by
  refine ⟨?_, ?_, ?_, ?_, rfl, rfl⟩
  · intro v hlo hhi
    show readInt (toString v) = some v
    rw [readInt_iff]
    refine ⟨?_, hlo, hhi⟩
    cases v with
    | ofNat m =>
      obtain ⟨h1, h2, h3⟩ := repr_spec m
      exact ⟨[], (Nat.repr m).data, rfl, Or.inl rfl, h1, h2, by simp [h3]⟩
    | negSucc m =>
      obtain ⟨h1, h2, h3⟩ := repr_spec (m + 1)
      refine ⟨['-'], (Nat.repr (m + 1)).data, ?_, Or.inr (Or.inl rfl), h1, h2, ?_⟩
      · show ("-" ++ Nat.repr (m + 1)).data = _
        simp [String.data_append]
      · simp only [if_true, h3]
        rfl
  · intro b
    cases b <;> decide
  · intro c
    rfl
  · intro s
    rfl

/-- C13, at `INT_MIN`. -/
theorem parse_format_roundtrip_witness :
    INT_MIN ≤ (-2147483648 : Int) ∧ (-2147483648 : Int) ≤ INT_MAX ∧
    StreamOut.format (-2147483648 : Int) = "-2147483648" ∧
    (ReadFromString.doIt (StreamOut.format (-2147483648 : Int)) : Option Int)
      = some (-2147483648) :=
  ⟨by decide, by decide, by decide,
    parse_format_roundtrip.1 (-2147483648) (by decide) (by decide)⟩

/-- C14: the conversion to `bool` gives `true` exactly when the lower-cased
text is `true` or `1`, `false` exactly when it is `false` or `0`, and fails
on every other text, the empty one and those with a blank around the word
included. -/
theorem readBool_cases :
    (∀ raw : String,
      (readBool raw = some true ↔ asciiLower raw = "true" ∨ asciiLower raw = "1") ∧
      (readBool raw = some false ↔ asciiLower raw = "false" ∨ asciiLower raw = "0") ∧
      (readBool raw = none ↔ asciiLower raw ≠ "true" ∧ asciiLower raw ≠ "1" ∧
        asciiLower raw ≠ "false" ∧ asciiLower raw ≠ "0") ∧
      (ReadFromString.doIt raw : Option Bool) = readBool raw) ∧
    readBool "TRUE" = some true ∧ readBool "tRuE" = some true ∧ readBool "0" = some false ∧
    readBool "yes" = none ∧ readBool "" = none ∧ readBool " true" = none ∧
    readBool "1 " = none := by
  refine ⟨?_, by decide, by decide, by decide, by decide, by decide, by decide, by decide⟩
  intro raw
  rw [readBool_run]
  by_cases h1 : asciiLower raw = "true" ∨ asciiLower raw = "1"
  · have h2 : ¬ (asciiLower raw = "false" ∨ asciiLower raw = "0") := by
      rcases h1 with h1 | h1 <;> rw [h1] <;> decide
    refine ⟨?_, ?_, ?_, rfl⟩
    · simp [h1]
    · simp [h1, h2]
    · rw [if_pos h1]
      simp only [reduceCtorEq, false_iff, not_and]
      intro h3 h4
      rcases h1 with h1 | h1
      · exact absurd h1 h3
      · exact absurd h1 h4
  · by_cases h2 : asciiLower raw = "false" ∨ asciiLower raw = "0"
    · refine ⟨?_, ?_, ?_, rfl⟩
      · simp [h1, h2]
      · simp [h1, h2]
      · rw [if_neg h1, if_pos h2]
        simp only [reduceCtorEq, false_iff, not_and]
        intro _ _ h5 h6
        rcases h2 with h2 | h2
        · exact absurd h2 h5
        · exact absurd h2 h6
    · refine ⟨?_, ?_, ?_, rfl⟩
      · simp [h1, h2]
      · simp [h1, h2]
      · rw [if_neg h1, if_neg h2]
        simp only [true_iff]
        have h3 := not_or.1 h1
        have h4 := not_or.1 h2
        exact ⟨h3.1, h3.2, h4.1, h4.2⟩

/-- C14, at the text `False`. -/
theorem readBool_cases_witness :
    asciiLower "False" = "false" ∧ readBool "False" = some false :=
  ⟨by decide, ((readBool_cases.1 "False").2.1).2 (Or.inl (by decide))⟩

/-- C15: for an integral type, `range(a, b)` raises Error exactly when
`a > b`; when `a ≤ b` it returns the range with `left = a` and `right = b`,
and `inRange` of that range holds for `v` exactly when `a ≤ v` and `v ≤ b`. -/
theorem range_closed_interval {T : Type} [Integral T] [IntegralValue T] [StreamOut T]
    (a b : T) (s : Alerts) :
    ((range a b s).IsError ↔ IntegralValue.toInt b < IntegralValue.toInt a) ∧
    (IntegralValue.toInt a ≤ IntegralValue.toInt b →
      range a b s = Run.returned ⟨a, b⟩ s ∧
      ∀ v : T, inRange (⟨a, b⟩ : Range T) v = true ↔
        IntegralValue.toInt a ≤ IntegralValue.toInt v ∧
          IntegralValue.toInt v ≤ IntegralValue.toInt b) := by
  have hle := IntegralValue.le_iff a b
  refine ⟨?_, ?_⟩
  · unfold range isRangeValid
    by_cases h : Integral.le a b = true
    · simp only [h, Bool.not_true, Bool.false_eq_true, if_false, pure_run]
      constructor
      · intro he
        exact absurd he (not_isError_returned _ _)
      · intro hlt
        exact absurd (hle.1 h) (not_le.2 hlt)
    · have h2 : Integral.le a b = false := by simpa using h
      simp only [h2, Bool.not_false, if_true]
      constructor
      · intro _
        exact not_le.1 (fun hab => h (hle.2 hab))
      · intro _
        exact error_isError _ _
  · intro hab
    have h := hle.2 hab
    refine ⟨?_, ?_⟩
    · unfold range isRangeValid
      simp only [h, Bool.not_true, Bool.false_eq_true, if_false, pure_run]
    · intro v
      unfold inRange
      rw [Bool.and_eq_true, IntegralValue.le_iff, IntegralValue.le_iff]

/-- C15, at `range(1, 100)` of `test.cpp`: both bounds are inside, 0 and 101
are not, and `range(100, 1)` is the Error. -/
theorem range_closed_interval_witness :
    IntegralValue.toInt (1 : Int) ≤ IntegralValue.toInt (100 : Int) ∧
    range (1 : Int) 100 Alerts.init = Run.returned ⟨1, 100⟩ Alerts.init ∧
    inRange (⟨1, 100⟩ : Range Int) 1 = true ∧ inRange (⟨1, 100⟩ : Range Int) 100 = true ∧
    inRange (⟨1, 100⟩ : Range Int) 0 = false ∧ inRange (⟨1, 100⟩ : Range Int) 101 = false ∧
    range (100 : Int) 1 Alerts.init = error "Range [100; 1] is invalid!" Alerts.init :=
  ⟨by decide,
    ((range_closed_interval (1 : Int) 100 Alerts.init).2 (by decide)).1,
    by decide, by decide, by decide, by decide, by decide⟩

theorem preprocessor_define_run (pre : Preprocessor) (name value : String) (s : Alerts) :
    pre.define name value s =
      if isValidName name then Run.returned ⟨pre.variables_.set name value⟩ s
      else error ("Macro \"" ++ name ++ "\" has invalid name") s := by
  unfold Preprocessor.define
  by_cases h : isValidName name = true
  · simp [h, pure_run]
  · simp [h]

theorem reachable_empty_name (pre : Preprocessor) (h : pre.Reachable) :
    pre.variables_.find "" = some "@" := by
  induction h with
  | new => decide
  | define pre pre1 name value s s1 _ hd ih =>
    rw [preprocessor_define_run] at hd
    by_cases hv : isValidName name = true
    · rw [if_pos hv] at hd
      injection hd with h1 _
      subst h1
      rw [StdMap.find_set_ne]
      · exact ih
      · intro e
        rw [e] at hv
        revert hv
        decide
    · rw [if_neg hv] at hd
      exact absurd hd.symm (returned_ne_error _ _ _ _)

/-! ## The bare at-sign -/

/-- C20: in every preprocessor state reached from construction by `define`
calls that returned, the empty name is defined as `@` (a `define` of the
empty name is the Error), so an `'@'` that no letter, digit or underscore
follows expands to one `@` and takes one `'!'` that follows it with it:
`@@@` gives `@@@` and `@!var1` gives `@var1`. -/
theorem bare_at_expands_to_at (pre : Preprocessor) (h : pre.Reachable) (s : Alerts) :
    pre.variables_.find "" = some "@" ∧
    (∀ value : String, (pre.define "" value s).IsError) ∧
    (∀ t : List Char, (∀ c, t.head? = some c → isValidMiddleChar c = false) →
      pre.preprocess ⟨'@' :: t⟩ s
        = (pre.preprocess ⟨dropBang t⟩ s).map fun out => "@" ++ out) ∧
    pre.preprocess "@@@" s = Run.returned "@@@" s ∧
    pre.preprocess "@!var1" s = Run.returned "@var1" s := by
  have he := reachable_empty_name pre h
  have he2 : pre.variables_.find ⟨[]⟩ = some "@" := he
  refine ⟨he, ?_, ?_, ?_, ?_⟩
  · intro value
    rw [preprocessor_define_run, if_neg (by decide)]
    exact error_isError _ _
  · intro t ht
    rw [Preprocessor.preprocess_run, Preprocessor.preprocess_run]
    simp only []
    rw [expandRef, if_neg (by simp)]
    simp only []
    have h1 := takeWhile_run isValidMiddleChar [] t (by simp) ht
    have h2 := dropWhile_run isValidMiddleChar [] t (by simp) ht
    rw [List.nil_append] at h1 h2
    rw [h1, h2, he2]
    simp only []
    cases expandRef pre.variables_ (dropBang t) <;> rfl
  · rw [Preprocessor.preprocess_run]
    simp [expandRef, he2, isValidMiddleChar, isValidStartChar, dropBang]
  · rw [Preprocessor.preprocess_run]
    simp [expandRef, he2, isValidMiddleChar, isValidStartChar, dropBang]
    decide

/-- C20, at the preprocessor of `test_macros.cpp`, where `var1` is defined. -/
theorem bare_at_expands_to_at_witness :
    Preprocessor.sample.Reachable ∧
    Preprocessor.sample.variables_.find "var1" = some "hello" ∧
    Preprocessor.sample.preprocess "@@@" Alerts.init = Run.returned "@@@" Alerts.init ∧
    Preprocessor.sample.preprocess "@!var1" Alerts.init
      = Run.returned "@var1" Alerts.init := by
  have hr : Preprocessor.sample.Reachable :=
    Preprocessor.Reachable.define
      ⟨Preprocessor.new.variables_.set "var1" "hello"⟩ Preprocessor.sample "var2" "42"
      Alerts.init Alerts.init
      (Preprocessor.Reachable.define Preprocessor.new _ "var1" "hello" Alerts.init
        Alerts.init Preprocessor.Reachable.new (by decide))
      (by decide)
  have h := bare_at_expands_to_at Preprocessor.sample hr Alerts.init
  exact ⟨hr, by decide, h.2.2.2.1, h.2.2.2.2⟩

/-! ## Lemmas: a read of a present name, step by step -/

theorem get_present_run {T M : Type} [Inhabited T] [TypeInfo T] [ReadFromString T]
    [DataValidate T M] (b : Build) (pp : ParamParser) (hl : pp.loaded_ = true)
    (name : String) (vv : VariableValue) (hf : pp.variables_.find name = some vv)
    (s : Alerts) (v : T) (hp : parseExpanded T pp.preprocessor_ vv.value s = some v)
    (means : M) :
    pp.get b name means s =
      match ParamParser.recordReference b name (TypeInfo.getTypeName T) vv s with
      | Run.exited s1 => Run.exited s1
      | Run.returned vv1 s1 =>
        match dataValidate b name v means s1 with
        | Run.exited s2 => Run.exited s2
        | Run.returned _ s2 =>
          Run.returned (v, { pp with
            variables_ := pp.variables_.set name
              { vv1 with lastType := TypeInfo.getTypeName T } }) s2 := by
  rw [get_of_loaded b pp hl name means s vv hf]
  rw [parseExpanded_eq] at hp
  simp only [ParamParser.internalGet, hf, bind_run, Preprocessor.preprocess_run]
  cases hx : expandRef pp.preprocessor_.variables_ vv.value.data with
  | error n => rw [hx] at hp; cases hp
  | ok out =>
    rw [hx] at hp
    simp only [] at hp
    simp only [hp, bind_run, pure_run]
    cases ParamParser.recordReference b name (TypeInfo.getTypeName T) vv s with
    | exited s1 => rfl
    | returned vv1 s1 =>
      simp only []
      cases dataValidate b name v means s1 with
      | exited s2 => rfl
      | returned u s2 => rfl

theorem recordReference_run (b : Build) (hb : b.exitOnWarning = false) (name tn : String)
    (vv : VariableValue) (s : Alerts) :
    ParamParser.recordReference b name tn vv s =
      Run.returned { vv with referenced := true }
        { s with cerr := s.cerr ++
          if vv.referenced = true ∧ vv.lastType ≠ tn then
            ["Warning: " ++ ("Variable " ++ name ++ " referenced as two different "
              ++ "types: " ++ vv.lastType ++ " and " ++ tn)]
          else [] } := by
  unfold ParamParser.recordReference
  cases hr : vv.referenced with
  | false => simp [pure_run]
  | true =>
    by_cases ht : vv.lastType = tn
    · simp [ht, pure_run, bind_run]
      cases vv
      simp_all
    · simp [ht, pure_run, bind_run, warning_run b hb]
      cases vv
      simp_all

theorem recordReference_first (b : Build) (name tn : String) (vv : VariableValue)
    (hr : vv.referenced = false) (s : Alerts) :
    ParamParser.recordReference b name tn vv s
      = Run.returned { vv with referenced := true } s := by
  unfold ParamParser.recordReference
  simp [hr, pure_run]

theorem dataValidate_pattern_run (b : Build) (name text re : String) (s : Alerts) :
    dataValidate b name text re s =
      if (if b.useRegex then !b.regexMatch re text else b.patternMatches re text) = true then
        error (name ++ " = \"" ++ text ++ "\" doesn\'t match regex" ++ "\"" ++ re ++ "\"") s
      else Run.returned () s := by
  simp only [dataValidate, DataValidate.doIt]
  by_cases hc : (if b.useRegex then !b.regexMatch re text else b.patternMatches re text) = true
  · rw [if_pos hc, if_pos hc]
  · rw [if_neg hc, if_neg hc]
    rfl

theorem get_pattern_first_read (b : Build) (pp : ParamParser) (hl : pp.loaded_ = true)
    (name : String) (vv : VariableValue) (hf : pp.variables_.find name = some vv)
    (hr : vv.referenced = false) (s : Alerts) (text : String)
    (hp : parseExpanded String pp.preprocessor_ vv.value s = some text) (re : String) :
    pp.get b name re s =
      if (if b.useRegex then !b.regexMatch re text else b.patternMatches re text) = true then
        error (name ++ " = \"" ++ text ++ "\" doesn\'t match regex" ++ "\"" ++ re ++ "\"") s
      else Run.returned (text, { pp with
        variables_ := pp.variables_.set name
          { vv with referenced := true, lastType := "string" } }) s := by
  rw [get_present_run b pp hl name vv hf s text hp re, recordReference_first b name _ vv hr s]
  simp only [dataValidate_pattern_run]
  by_cases hc : (if b.useRegex then !b.regexMatch re text else b.patternMatches re text) = true
  · rw [if_pos hc, if_pos hc]
    rfl
  · rw [if_neg hc, if_neg hc]
    rfl

/-! ## The pattern validator -/

/-- C17, what the code does, with the two matchers as parameters: for a first
read of a present name whose expanded text is `text`, `get<string>(name, re)`
in the `std::regex` build raises the Error exactly when `text` does not match
`re`; in the testlib build (no `PARMPARS_USE_REGEX`) the test has no
negation, and the Error "... doesn't match regex ..." is raised exactly when
`text` DOES match `re`, a text that does not match being returned. -/
theorem pattern_validator_outcome (b : Build) (pp : ParamParser) (hl : pp.loaded_ = true)
    (name : String) (vv : VariableValue) (hf : pp.variables_.find name = some vv)
    (hr : vv.referenced = false) (s : Alerts) (text : String)
    (hp : parseExpanded String pp.preprocessor_ vv.value s = some text) (re : String) :
    (b.useRegex = true →
      ((pp.get (T := String) b name re s).IsError ↔ b.regexMatch re text = false)) ∧
    (b.useRegex = false →
      ((pp.get (T := String) b name re s).IsError ↔ b.patternMatches re text = true) ∧
      (b.patternMatches re text = true →
        pp.get (T := String) b name re s =
          error (name ++ " = \"" ++ text ++ "\" doesn\'t match regex" ++ "\"" ++ re ++ "\"") s) ∧
      (b.patternMatches re text = false →
        ∃ pp1, pp.get b name re s = Run.returned (text, pp1) s)) := by
  have hrun := get_pattern_first_read b pp hl name vv hf hr s text hp re
  refine ⟨?_, ?_⟩
  · intro hu
    rw [hrun]
    cases hm : b.regexMatch re text with
    | true =>
      simp only [hu, hm, if_true, Bool.not_true, Bool.false_eq_true, if_false,
        Bool.true_eq_false, iff_false]
      exact not_isError_returned _ _
    | false =>
      simp only [hu, hm, if_true, Bool.not_false, iff_true]
      exact error_isError _ _
  · intro hu
    rw [hrun]
    cases hm : b.patternMatches re text with
    | true =>
      simp only [hu, hm, Bool.false_eq_true, if_false, if_true]
      exact ⟨⟨fun _ => trivial, fun _ => error_isError _ _⟩, fun _ => trivial,
        fun h => absurd h (by decide)⟩
    | false =>
      simp only [hu, hm, Bool.false_eq_true, if_false]
      exact ⟨⟨fun h => absurd h (not_isError_returned _ _), fun h => absurd h (by decide)⟩,
        fun h => absurd h (by decide), fun _ => ⟨_, rfl⟩⟩

theorem dataValidate_range_run {T : Type} [Integral T] [StreamOut T] (b : Build)
    (name : String) (v : T) (r : Range T) (s : Alerts) :
    dataValidate b name v r s =
      if inRange r v = true then Run.returned () s
      else error (name ++ " = " ++ StreamOut.format v ++ " is not in the range "
        ++ "[" ++ StreamOut.format r.left ++ "; " ++ StreamOut.format r.right ++ "]") s := by
  simp only [dataValidate, DataValidate.doIt]
  by_cases hc : inRange r v = true
  · simp [hc, pure_run]
  · simp [hc]

/-! ## Lemmas: typed reads in sequence -/

theorem typedRead_effect (b : Build) (pp : ParamParser) (s : Alerts) (event : String × String)
    (pp1 : ParamParser) (s1 : Alerts) (h : TypedRead b pp s event pp1 s1) :
    s1.hadError = s.hadError ∧ pp.loaded_ = true ∧
    ((pp.variables_.find event.1 = none ∧ pp1 = pp) ∨
      ∃ vv, pp.variables_.find event.1 = some vv ∧
        pp1 = { pp with
          variables_ := pp.variables_.set event.1
            { vv with referenced := true, lastType := event.2 } }) := by
  cases h with
  | get hp _ _ name means v _ _ h =>
    simp only [ParamParser.get, ParamParser.getRef, bind_run] at h
    by_cases hl : pp.loaded_ = true
    case neg =>
      have hl2 : pp.loaded_ = false := by simpa using hl
      simp only [ParamParser.checkLoaded, hl2, Bool.not_false, if_true] at h
      exact absurd h.symm (returned_ne_error _ _ _ _)
    case pos =>
      rw [checkLoaded_loaded pp hl] at h
      simp only [] at h
      cases hf : pp.variables_.find name with
      | none =>
        simp only [hf, if_true] at h
        exact absurd h.symm (returned_ne_error _ _ _ _)
      | some vv =>
        simp only [hf, reduceCtorEq, if_false, pure_run] at h
        obtain ⟨h1, h2⟩ := internalGet_returned hp b pp name _ means s v pp1 s1 vv hf h
        exact ⟨h2, hl, Or.inr ⟨vv, rfl, h1⟩⟩
  | getDefault hp _ _ name d means v _ _ h =>
    simp only [ParamParser.getDefault, ParamParser.getDefaultRef, bind_run] at h
    by_cases hl : pp.loaded_ = true
    case neg =>
      have hl2 : pp.loaded_ = false := by simpa using hl
      simp only [ParamParser.checkLoaded, hl2, Bool.not_false, if_true] at h
      exact absurd h.symm (returned_ne_error _ _ _ _)
    case pos =>
      rw [checkLoaded_loaded pp hl] at h
      simp only [] at h
      cases hf : pp.variables_.find name with
      | none =>
        simp only [ParamParser.internalGet, hf, bind_run] at h
        cases hd : dataValidate b name d means s with
        | exited s3 => rw [hd] at h; cases h
        | returned u s3 =>
          rw [hd] at h
          simp only [pure_run] at h
          have := dataValidate_returned hp b name d means s u s3 hd
          injection h with h1 h2
          injection h1 with h3 h4
          subst h2 this
          exact ⟨rfl, hl, Or.inl ⟨rfl, h4.symm⟩⟩
      | some vv =>
        obtain ⟨h1, h2⟩ := internalGet_returned hp b pp name _ means s v pp1 s1 vv hf h
        exact ⟨h2, hl, Or.inr ⟨vv, rfl, h1⟩⟩

/-- Along reads that returned, the entry of a name keeps its raw value and its
index; it is `referenced` once the name was read, and its `lastType` is the
type name of the most recent read. -/
theorem typedReads_entry (b : Build) (pp : ParamParser) (s : Alerts)
    (events : List (String × String)) (pp2 : ParamParser) (s2 : Alerts)
    (h : TypedReads b pp s events pp2 s2) :
    pp2.preprocessor_ = pp.preprocessor_ ∧ pp2.loaded_ = pp.loaded_ ∧
    ∀ (name : String) (vv : VariableValue), pp.variables_.find name = some vv →
      pp2.variables_.find name = some
        { vv with
          referenced := vv.referenced || (lastTypeOf events name).isSome,
          lastType := (lastTypeOf events name).getD vv.lastType } := by
  induction h with
  | nil pp s =>
    refine ⟨rfl, rfl, ?_⟩
    intro name vv hf
    simp [lastTypeOf, hf]
  | @cons pp pp1 pp2 s s1 s2 event events hstep _ ih =>
    obtain ⟨_, _, h3⟩ := typedRead_effect b pp s event pp1 s1 hstep
    obtain ⟨i1, i2, i3⟩ := ih
    rcases h3 with ⟨hnone, hpp⟩ | ⟨w, hsome, hpp⟩
    · subst hpp
      refine ⟨i1, i2, ?_⟩
      intro name vv hf
      have hne : ¬ event.1 = name := by
        intro e
        rw [e, hf] at hnone
        cases hnone
      rw [i3 name vv hf]
      simp only [lastTypeOf, hne, if_false]
      cases lastTypeOf events name <;> rfl
    · refine ⟨by rw [i1, hpp], by rw [i2, hpp], ?_⟩
      intro name vv hf
      by_cases hne : event.1 = name
      · have hw : w = vv := by
          rw [hne, hf] at hsome
          injection hsome with h
          exact h.symm
        subst hw
        have hf1 : pp1.variables_.find name
            = some { w with referenced := true, lastType := event.2 } := by
          rw [hpp, ← hne]
          exact StdMap.find_set_self _ _ _
        rw [i3 name _ hf1]
        simp only [lastTypeOf, hne, if_true]
        cases lastTypeOf events name <;> simp
      · have hf1 : pp1.variables_.find name = some vv := by
          rw [hpp]
          simp only []
          rw [StdMap.find_set_ne _ _ _ _ hne]
          exact hf
        rw [i3 name vv hf1]
        simp only [lastTypeOf, hne, if_false]
        cases lastTypeOf events name <;> rfl

theorem StdMap.mem_of_find {V : Type} (m : StdMap V) (k : String) (v : V)
    (h : m.find k = some v) : (k, v) ∈ m := by
  induction m with
  | nil => simp [StdMap.find] at h
  | cons e rest ih =>
    obtain ⟨k0, w⟩ := e
    by_cases hk : k0 = k
    · simp only [StdMap.find, hk, if_true, Option.some.injEq] at h
      simp [hk, h]
    · simp only [StdMap.find, hk, if_false] at h
      exact List.mem_cons_of_mem _ (ih h)

theorem get_accepted_run {T M : Type} [Inhabited T] [TypeInfo T] [ReadFromString T]
    [DataValidate T M] (b : Build) (hb : b.exitOnWarning = false) (pp : ParamParser)
    (hl : pp.loaded_ = true) (name : String) (vv : VariableValue)
    (hf : pp.variables_.find name = some vv) (s : Alerts) (v : T)
    (hp : parseExpanded T pp.preprocessor_ vv.value s = some v) (means : M)
    (hacc : ∀ s2, dataValidate b name v means s2 = Run.returned () s2) :
    pp.get b name means s =
      Run.returned (v, { pp with
        variables_ := pp.variables_.set name
          { vv with referenced := true, lastType := TypeInfo.getTypeName T } })
        { s with cerr := s.cerr ++
          if vv.referenced = true ∧ vv.lastType ≠ TypeInfo.getTypeName T then
            ["Warning: " ++ ("Variable " ++ name ++ " referenced as two different "
              ++ "types: " ++ vv.lastType ++ " and " ++ TypeInfo.getTypeName T)]
          else [] } := by
  rw [get_present_run b pp hl name vv hf s v hp means, recordReference_run b hb]
  simp only [hacc]

theorem getDefault_present_run {T M : Type} [Inhabited T] [TypeInfo T] [ReadFromString T]
    [DataValidate T M] (b : Build) (pp : ParamParser) (name : String) (vv : VariableValue)
    (hf : pp.variables_.find name = some vv) (d : T) (means : M) (s : Alerts) :
    pp.getDefault b name d means s = pp.get b name means s := by
  simp only [ParamParser.getDefault, ParamParser.get, ParamParser.getDefaultRef,
    ParamParser.getRef, bind_run]
  cases pp.checkLoaded s with
  | exited s1 => rfl
  | returned u s1 =>
    simp [ParamParser.internalGet, hf, bind_run, pure_run]

/-! ## Type drift -/

theorem readX_parse_int (tn : String) (s : Alerts) :
    parseExpanded Int (ParamParser.readX tn).preprocessor_ "5" s = some 5 := by
  rw [parseExpanded_eq, expandRef_no_at _ _ (by decide)]
  rfl

theorem readX_parse_string (tn : String) (s : Alerts) :
    parseExpanded String (ParamParser.readX tn).preprocessor_ "5" s = some "5" := by
  rw [parseExpanded_eq, expandRef_no_at _ _ (by decide)]
  rfl

theorem load_x_run :
    ParamParser.new.load ["prog", "x=5"] Alerts.init
      = Run.returned ParamParser.loadedX Alerts.init := by
  decide

theorem loadedX_get_int :
    ParamParser.loadedX.get (T := Int) Build.plain "x" () Alerts.init
      = Run.returned (5, ParamParser.readX "int") Alerts.init := by
  rw [get_accepted_run Build.plain rfl ParamParser.loadedX rfl "x"
    ⟨"5", "undefined", 1, false⟩ (by decide) Alerts.init 5 (readX_parse_int "undefined" _) ()
    (fun _ => rfl)]
  decide

theorem readX_int_get_string :
    (ParamParser.readX "int").get (T := String) Build.plain "x" () Alerts.init
      = Run.returned ("5", ParamParser.readX "string")
          ⟨false, ["Warning: Variable x referenced as two different types: int and string"]⟩ := by
  rw [get_accepted_run Build.plain rfl (ParamParser.readX "int") rfl "x"
    ⟨"5", "int", 1, true⟩ (by decide) Alerts.init "5" (readX_parse_string "int" _) ()
    (fun _ => rfl)]
  decide

theorem readX_string_get_string (s : Alerts) :
    (ParamParser.readX "string").get (T := String) Build.plain "x" () s
      = Run.returned ("5", ParamParser.readX "string") s := by
  rw [get_accepted_run Build.plain rfl (ParamParser.readX "string") rfl "x"
    ⟨"5", "string", 1, true⟩ (by decide) s "5" (readX_parse_string "string" _) ()
    (fun _ => rfl)]
  simp [ParamParser.readX, StdMap.set, TypeInfo.getTypeName, strLess]

/-- C18, the claim as stated fails ("a different type than an earlier read"): after
`x=5` is loaded, `get<int>("x")` returns 5 silently, then `get<string>("x")` emits the
Warning "Variable x referenced as two different types: int and string", and a third read `get<string>("x")` emits nothing although an earlier read
of `x` used `int`: the code compares with the type of the most recent read only. Also,
`getDefault<int>("missing", 1)` followed by `getDefault<string>("missing", "a")` reads an
absent name with two types and emits nothing, the table being left as it was. -/
theorem drift_warning_counterexample :
    ParamParser.new.load ["prog", "x=5"] Alerts.init
      = Run.returned ParamParser.loadedX Alerts.init ∧
    ParamParser.loadedX.get (T := Int) Build.plain "x" () Alerts.init
      = Run.returned (5, ParamParser.readX "int") Alerts.init ∧
    (ParamParser.readX "int").get (T := String) Build.plain "x" () Alerts.init
      = Run.returned ("5", ParamParser.readX "string")
          ⟨false, ["Warning: Variable x referenced as two different types: int and string"]⟩ ∧
    (ParamParser.readX "string").get (T := String) Build.plain "x" ()
        ⟨false, ["Warning: Variable x referenced as two different types: int and string"]⟩
      = Run.returned ("5", ParamParser.readX "string")
          ⟨false, ["Warning: Variable x referenced as two different types: int and string"]⟩ ∧
    ParamParser.loadedX.getDefault Build.plain "missing" (1 : Int) () Alerts.init
      = Run.returned (1, ParamParser.loadedX) Alerts.init ∧
    ParamParser.loadedX.getDefault Build.plain "missing" "a" () Alerts.init
      = Run.returned ("a", ParamParser.loadedX) Alerts.init :=
  ⟨load_x_run, loadedX_get_int, readX_int_get_string, readX_string_get_string _,
    by decide, by decide⟩

/-! ## Lemmas: the frame of a read -/

theorem refRead_effect {T M : Type} [TypeInfo T] [ReadFromString T]
    {inst : DataValidate T M} (hp : Pack T M inst) (b : Build) (pp : ParamParser)
    (name : String) (res d : T) (means : M) (s : Alerts) (v : T) (pp1 : ParamParser)
    (s1 : Alerts)
    (h : pp.getRef b name res means s = Run.returned (v, pp1) s1 ∨
      pp.getDefaultRef b name res d means s = Run.returned (v, pp1) s1) :
    pp.loaded_ = true ∧
    ((pp.variables_.find name = none ∧ pp1 = pp ∧ s1 = s ∧ v = d) ∨
      ∃ vv, pp.variables_.find name = some vv ∧
        pp1 = { pp with
          variables_ := pp.variables_.set name
            { vv with referenced := true, lastType := TypeInfo.getTypeName T } }) := by
  rcases h with h | h
  · simp only [ParamParser.getRef, bind_run] at h
    by_cases hl : pp.loaded_ = true
    case neg =>
      have hl2 : pp.loaded_ = false := by simpa using hl
      simp only [ParamParser.checkLoaded, hl2, Bool.not_false, if_true] at h
      exact absurd h.symm (returned_ne_error _ _ _ _)
    case pos =>
      rw [checkLoaded_loaded pp hl] at h
      simp only [] at h
      cases hf : pp.variables_.find name with
      | none =>
        simp only [hf, if_true] at h
        exact absurd h.symm (returned_ne_error _ _ _ _)
      | some vv =>
        simp only [hf, reduceCtorEq, if_false, pure_run] at h
        obtain ⟨h1, _⟩ := internalGet_returned hp b pp name _ means s v pp1 s1 vv hf h
        exact ⟨hl, Or.inr ⟨vv, rfl, h1⟩⟩
  · simp only [ParamParser.getDefaultRef, bind_run] at h
    by_cases hl : pp.loaded_ = true
    case neg =>
      have hl2 : pp.loaded_ = false := by simpa using hl
      simp only [ParamParser.checkLoaded, hl2, Bool.not_false, if_true] at h
      exact absurd h.symm (returned_ne_error _ _ _ _)
    case pos =>
      rw [checkLoaded_loaded pp hl] at h
      simp only [] at h
      cases hf : pp.variables_.find name with
      | none =>
        simp only [ParamParser.internalGet, hf, bind_run] at h
        cases hd : dataValidate b name d means s with
        | exited s3 => rw [hd] at h; cases h
        | returned u s3 =>
          rw [hd] at h
          simp only [pure_run] at h
          have := dataValidate_returned hp b name d means s u s3 hd
          injection h with h1 h2
          injection h1 with h3 h4
          subst h2 this
          exact ⟨hl, Or.inl ⟨rfl, h4.symm, rfl, h3.symm⟩⟩
      | some vv =>
        obtain ⟨h1, _⟩ := internalGet_returned hp b pp name _ means s v pp1 s1 vv hf h
        exact ⟨hl, Or.inr ⟨vv, rfl, h1⟩⟩

theorem StdMap.keys_set_present {V : Type} (m : StdMap V) (k : String) (v w : V)
    (h : m.Ordered) (hf : m.find k = some w) : (m.set k v).keys = m.keys := by
  rw [StdMap.set_present m k v w h hf]
  simp only [StdMap.keys, List.map_map]
  apply List.map_congr_left
  intro e _
  by_cases he : e.1 = k
  · simp [he]
  · simp [he]

theorem destroy_skips_absent (b : Build) (hb : b.exitOnWarning = false) (pp : ParamParser)
    (name : String) (hn : name ∉ pp.variables_.keys) (s : Alerts) :
    ∃ lines : List String,
      pp.destroy b s = Run.returned () { s with cerr := s.cerr ++ lines } ∧
      unusedLine name ∉ lines := by
  obtain ⟨e, c⟩ := s
  unfold ParamParser.destroy
  cases hl : pp.loaded_ with
  | false => exact ⟨[], by simp, by simp⟩
  | true =>
    cases e with
    | true => exact ⟨[], by simp, by simp⟩
    | false =>
      refine ⟨((flags pp.variables_).filter fun e => !e.2).map fun e => unusedLine e.1, ?_, ?_⟩
      · simp only [Bool.not_true, Bool.false_eq_true, if_false]
        exact auditLoop_run b hb _ _
      · intro hmem
        obtain ⟨e, he1, he3⟩ := List.mem_map.1 hmem
        have hk := unusedLine_injective he3
        have hin : e.1 ∈ pp.variables_.keys := by
          rw [← keys_flags]
          exact List.mem_map_of_mem _ (List.mem_filter.1 he1).1
        rw [hk] at hin
        exact hn hin

/-! ## The frame of a read -/

/-- C21: a call of `get` or of `getDefault` that returns, in either overload (the one
that returns the value is the one with the reference `res`, called with a local `res`),
with any of the validator packs, leaves the `loaded_` flag, the macro table
`preprocessor_` and the keys of the table as they were; every entry keeps its `value`
and its `paramNumber`, and every entry other than the one named in the call is left as
it was, so at most `referenced` and `lastType` of the entry named change.  When the name
is absent, which only `getDefault` survives, the parser and the diagnostics are as
before, the default is what is returned, the name is still not a key, and the destructor
(in a build where Warnings are not fatal) prints no "unused" line for it.  The table is a
`std::map`: its keys are strictly increasing before the call, and still are after it. -/
theorem readers_mutate_only_bookkeeping {T M : Type} [TypeInfo T] [ReadFromString T]
    {inst : DataValidate T M} (hp : Pack T M inst) (b : Build) (pp : ParamParser)
    (hord : pp.variables_.Ordered) (name : String) (res d : T) (means : M) (s : Alerts)
    (v : T) (pp1 : ParamParser) (s1 : Alerts)
    (h : pp.getRef b name res means s = Run.returned (v, pp1) s1 ∨
      pp.getDefaultRef b name res d means s = Run.returned (v, pp1) s1) :
    pp1.loaded_ = pp.loaded_ ∧ pp1.preprocessor_ = pp.preprocessor_ ∧
    pp1.variables_.keys = pp.variables_.keys ∧ pp1.variables_.Ordered ∧
    (∀ key vv, pp.variables_.find key = some vv →
      ∃ vv1, pp1.variables_.find key = some vv1 ∧ vv1.value = vv.value ∧
        vv1.paramNumber = vv.paramNumber ∧ (key ≠ name → vv1 = vv)) ∧
    (pp.variables_.find name = none →
      pp1 = pp ∧ s1 = s ∧ v = d ∧ name ∉ pp1.variables_.keys ∧
      (b.exitOnWarning = false → ∀ s2 : Alerts, ∃ lines : List String,
        pp1.destroy b s2 = Run.returned () { s2 with cerr := s2.cerr ++ lines } ∧
        unusedLine name ∉ lines)) := by
  obtain ⟨_, heff⟩ := refRead_effect hp b pp name res d means s v pp1 s1 h
  rcases heff with ⟨hnone, hpp, hs, hv⟩ | ⟨vv, hsome, hpp⟩
  · subst hpp
    have hn : name ∉ pp1.variables_.keys := (StdMap.find_eq_none_iff _ _).1 hnone
    refine ⟨rfl, rfl, rfl, hord, fun key vv hf => ⟨vv, hf, rfl, rfl, fun _ => rfl⟩, ?_⟩
    intro _
    exact ⟨rfl, hs, hv, hn, fun hb s2 => destroy_skips_absent b hb pp1 name hn s2⟩
  · subst hpp
    refine ⟨rfl, rfl, StdMap.keys_set_present _ _ _ vv hord hsome,
      StdMap.ordered_set _ _ _ hord, ?_, ?_⟩
    · intro key vv0 hf
      by_cases hk : key = name
      · subst hk
        rw [hsome] at hf
        injection hf with hf
        subst hf
        exact ⟨_, StdMap.find_set_self _ _ _, rfl, rfl, fun hne => absurd rfl hne⟩
      · refine ⟨vv0, ?_, rfl, rfl, fun _ => rfl⟩
        simp only []
        rw [StdMap.find_set_ne _ _ _ _ (fun e => hk e.symm)]
        exact hf
    · intro hnone
      rw [hsome] at hnone
      cases hnone

/-- C21, at `get<int>("i")` after `load` of `i=1 l=2000111222 unused=45`: the keys are
the three loaded names and the entry of `l` is as loaded. -/
theorem readers_mutate_only_bookkeeping_witness :
    ParamParser.loaded3.variables_.Ordered ∧
    ∃ pp1 : ParamParser,
      ParamParser.loaded3.get (T := Int) Build.plain "i" () Alerts.init
        = Run.returned (1, pp1) Alerts.init ∧
      pp1.loaded_ = true ∧ pp1.preprocessor_ = Preprocessor.new ∧
      pp1.variables_.keys = ["i", "l", "unused"] ∧
      pp1.variables_.find "l" = some ⟨"2000111222", "undefined", 2, false⟩ := by
  have hord : ParamParser.loaded3.variables_.Ordered := by
    simp [StdMap.Ordered, ParamParser.loaded3, strLess]
  have g1 := get_first_read (T := Int) Build.plain ParamParser.loaded3 "i" Alerts.init
    ⟨"1", "undefined", 1, false⟩ 1 rfl (by decide) (by decide) (by decide) rfl
  obtain ⟨h1, h2, h3, _, h5, _⟩ := readers_mutate_only_bookkeeping (Pack.empty Int)
    Build.plain ParamParser.loaded3 hord "i" default 0 () Alerts.init 1 _ Alerts.init
    (Or.inl g1)
  obtain ⟨vv1, hf, _, _, hsame⟩ := h5 "l" ⟨"2000111222", "undefined", 2, false⟩ (by decide)
  rw [hsame (by decide)] at hf
  exact ⟨hord, _, g1, h1, h2, h3, hf⟩

/-! ## Lemmas: identifiers -/

theorem isValidStartChar_eq (c : Char) :
    isValidStartChar c = (c.isAlpha || c == '_') := by
  simp only [isValidStartChar, Char.isAlpha, Char.isUpper, Char.isLower]
  have h1 : decide ('a' ≤ c) = decide (c.val ≥ 97) := by
    apply decide_eq_decide.2
    exact Iff.rfl
  have h2 : decide (c ≤ 'z') = decide (c.val ≤ 122) := by
    apply decide_eq_decide.2
    exact Iff.rfl
  have h3 : decide ('A' ≤ c) = decide (c.val ≥ 65) := by
    apply decide_eq_decide.2
    exact Iff.rfl
  have h4 : decide (c ≤ 'Z') = decide (c.val ≤ 90) := by
    apply decide_eq_decide.2
    exact Iff.rfl
  rw [h1, h2, h3, h4]
  cases decide (c.val ≥ 97) <;> cases decide (c.val ≤ 122) <;> cases decide (c.val ≥ 65) <;>
    cases decide (c.val ≤ 90) <;> rfl

theorem isValidMiddleChar_eq (c : Char) :
    isValidMiddleChar c = (c.isAlpha || c.isDigit || c == '_') := by
  rw [isValidMiddleChar, isValidStartChar_eq]
  have h1 : decide ('0' ≤ c) = decide (c.val ≥ 48) := by
    apply decide_eq_decide.2
    exact Iff.rfl
  have h2 : decide (c ≤ '9') = decide (c.val ≤ 57) := by
    apply decide_eq_decide.2
    exact Iff.rfl
  simp only [Char.isDigit]
  rw [h1, h2]
  cases c.isAlpha <;> cases (c == '_') <;> cases decide (c.val ≥ 48) <;>
    cases decide (c.val ≤ 57) <;> rfl

theorem isValidName_eq_isValidIdentifier (s : String) :
    isValidName s = isValidIdentifier s := by
  unfold isValidName isValidIdentifier
  cases s.data with
  | nil => rfl
  | cons c rest =>
    simp only [List.isEmpty_cons, Bool.not_false, List.head?_cons, Option.all_some,
      List.tail_cons, Bool.true_and]
    rw [isValidStartChar_eq]
    have hall : rest.all isValidMiddleChar
        = rest.all (fun c => c.isAlpha || c.isDigit || c == '_') := by
      congr 1
      funext d
      exact isValidMiddleChar_eq d
    rw [hall]
    cases (c.isAlpha || c == '_') <;> simp

theorem inRanges_start (c : Char) :
    inRanges [('A', 'Z'), ('a', 'z'), ('_', '_')] c = isValidStartChar c := by
  simp only [inRanges, List.any_cons, List.any_nil, Bool.or_false, isValidStartChar]
  have h : (decide ('_' ≤ c) && decide (c ≤ '_')) = (c == '_') := by
    by_cases hc : c = '_'
    · subst hc; decide
    · have hne : (c == '_') = false := by simpa using hc
      rw [hne]
      simp only [Bool.and_eq_false_iff, decide_eq_false_iff_not]
      by_contra hcon
      push_neg at hcon
      exact hc (le_antisymm hcon.2 hcon.1)
  rw [h]
  cases (decide ('A' ≤ c) && decide (c ≤ 'Z')) <;>
    cases (decide ('a' ≤ c) && decide (c ≤ 'z')) <;> cases (c == '_') <;> rfl

theorem inRanges_middle (c : Char) :
    inRanges [('A', 'Z'), ('a', 'z'), ('0', '9'), ('_', '_')] c = isValidMiddleChar c := by
  have hs := inRanges_start c
  simp only [inRanges, List.any_cons, List.any_nil, Bool.or_false] at hs ⊢
  rw [isValidMiddleChar, ← hs]
  cases (decide ('A' ≤ c) && decide (c ≤ 'Z')) <;>
    cases (decide ('a' ≤ c) && decide (c ≤ 'z')) <;>
    cases (decide ('_' ≤ c) && decide (c ≤ '_')) <;>
    cases (decide ('0' ≤ c) && decide (c ≤ '9')) <;> rfl

theorem matches_star_cls (ranges : List (Char × Char)) (v : List Char) :
    Regex.Matches (Regex.star (Regex.cls ranges)) v ↔ ∀ d ∈ v, inRanges ranges d = true := by
  constructor
  · intro h
    generalize hr : Regex.star (Regex.cls ranges) = r at h
    induction h with
    | cls _ _ _ => cases hr
    | seq _ _ _ _ => cases hr
    | starNil a =>
      intro d hd
      cases hd
    | @starCons a u w ha _ _ ih =>
      injection hr with hr1
      subst hr1
      intro d hd
      rcases List.mem_append.1 hd with hd | hd
      · cases ha with
        | cls _ c hc =>
          rw [List.mem_singleton] at hd
          rw [hd]
          exact hc
      · exact ih rfl d hd
  · intro h
    induction v with
    | nil => exact Regex.Matches.starNil _
    | cons d v ih =>
      exact Regex.Matches.starCons (u := [d]) (Regex.Matches.cls ranges d (h d (by simp)))
        (ih fun e he => h e (List.mem_cons_of_mem _ he))

theorem matches_identifierPattern (l : List Char) :
    Regex.Matches identifierPattern l ↔
      ∃ c rest, l = c :: rest ∧ isValidStartChar c = true ∧
        ∀ d ∈ rest, isValidMiddleChar d = true := by
  unfold identifierPattern
  constructor
  · intro h
    cases h with
    | @seq _ _ u v ha hb =>
      cases ha with
      | cls _ c hc =>
        rw [inRanges_start] at hc
        rw [matches_star_cls] at hb
        exact ⟨c, v, rfl, hc, fun d hd => (inRanges_middle d).symm.trans (hb d hd)⟩
  · rintro ⟨c, rest, rfl, hc, hrest⟩
    refine Regex.Matches.seq (u := [c])
      (Regex.Matches.cls _ c ((inRanges_start c).trans hc)) ?_
    rw [matches_star_cls]
    intro d hd
    exact (inRanges_middle d).trans (hrest d hd)

theorem isValidName_iff_parts (s : String) :
    isValidName s = true ↔
      ∃ c rest, s.data = c :: rest ∧ isValidStartChar c = true ∧
        ∀ d ∈ rest, isValidMiddleChar d = true := by
  unfold isValidName
  cases s.data with
  | nil => simp
  | cons c rest =>
    by_cases hc : isValidStartChar c = true
    · simp only [hc, Bool.not_true, Bool.false_eq_true, if_false, List.all_eq_true]
      constructor
      · intro h
        exact ⟨c, rest, rfl, hc, h⟩
      · rintro ⟨c1, rest1, heq, _, h⟩
        injection heq with h1 h2
        subst h2
        exact h
    · simp only [hc, Bool.not_false, if_true, Bool.false_eq_true, false_iff]
      rintro ⟨c1, rest1, heq, h1, _⟩
      injection heq with h2 h3
      subst h2
      exact hc h1

theorem isValidName_iff_matches (s : String) :
    isValidName s = true ↔ Regex.Matches identifierPattern s.data := by
  rw [matches_identifierPattern, isValidName_iff_parts]

theorem loadFrom_invalid (argc idx : Nat) (d : String × String) (rest : List String)
    (pp : ParamParser) (hne : '=' ∉ d.1.data) (hv : isValidName d.1 = false) :
    ParamParser.loadFrom argc idx (declArg d :: rest) pp =
      error ("Error while parsing parameter #" ++ toString idx ++ " : "
        ++ "\"" ++ d.1 ++ "\" is invalid variable name!") := by
  rw [ParamParser.loadFrom]
  have h1 : (declArg d).data.isEmpty = false := by
    rw [declArg_data]; simp
  have h2 : strFind (declArg d).data '=' = some d.1.data.length := by
    rw [declArg_data]; exact strFind_append _ _ _ hne
  have h3 : (⟨(declArg d).data.take d.1.data.length⟩ : String) = d.1 := by
    rw [declArg_data]; simp
  simp only [h1, isRandomSeed_declArg, h2, h3, hv]
  simp

theorem load_invalid_name (prog : String) (good : List (String × String))
    (bad : String × String) (rest : List String) (s : Alerts)
    (hgood : ∀ d ∈ good, isValidName d.1 = true) (hnd : (good.map Prod.fst).Nodup)
    (hne : '=' ∉ bad.1.data) (hbad : isValidName bad.1 = false) :
    ParamParser.new.load (prog :: (good.map declArg ++ declArg bad :: rest)) s =
      error ("Error while parsing parameter #" ++ toString (good.length + 1) ++ " : "
        ++ "\"" ++ bad.1 ++ "\" is invalid variable name!") s := by
  rw [load_run]
  have hnames : declNames (good.map some) = good.map Prod.fst := declNames_map_some good
  have hmap : (good.map some).map renderArg = good.map declArg := (map_declArg good).symm
  rw [← hmap, loadFrom_accepted _ (good.map some) 1 _ ParamParser.new]
  · rw [loadFrom_invalid _ _ bad rest _ hne hbad]
    simp only [List.length_map]
    have harith : 1 + good.length = good.length + 1 := by omega
    rw [harith]
    rfl
  · intro n hn
    rw [hnames] at hn
    obtain ⟨d, hd, rfl⟩ := List.mem_map.1 hn
    exact hgood d hd
  · rw [hnames]; exact hnd
  · intro n _
    rfl

theorem load_valid_names (prog : String) (decls : List (String × String)) (s : Alerts)
    (hv : ∀ d ∈ decls, isValidName d.1 = true) (hnd : (decls.map Prod.fst).Nodup) :
    ∃ pp1 : ParamParser, ParamParser.new.load (prog :: decls.map declArg) s
      = Run.returned pp1 s := by
  rw [load_run]
  have hnames : declNames (decls.map some) = decls.map Prod.fst := declNames_map_some decls
  have hmap : (decls.map some).map renderArg = decls.map declArg := (map_declArg decls).symm
  have h := loadFrom_accepted ((decls.map declArg).length + 1) (decls.map some) 1 []
    ParamParser.new
    (by
      intro n hn
      rw [hnames] at hn
      obtain ⟨d, hd, rfl⟩ := List.mem_map.1 hn
      exact hv d hd)
    (by rw [hnames]; exact hnd)
    (fun n _ => rfl)
  rw [hmap, List.append_nil] at h
  rw [h]
  exact ⟨_, rfl⟩

/-! ## Identifiers -/

/-- C22: for every string, `isValidName` is true exactly when the string is non-empty,
begins with an ASCII letter or an underscore and goes on with ASCII letters, digits and
underscores only (`isValidIdentifier`, written from the words of the spec), which is to
say when the whole string matches `[A-Za-z_][A-Za-z0-9_]*`.  The same predicate gates the
macro names and the parameter names: `define` raises the Error "Macro ... has invalid
name" when the name is not valid and returns when it is; `load` raises the Error "...
is invalid variable name!" at the first argument `name=value` whose name is not valid,
and returns when all the names are valid and distinct. -/
theorem isValidName_iff_identifier :
    (∀ s : String, isValidName s = isValidIdentifier s) ∧
    (∀ s : String, isValidName s = true ↔ Regex.Matches identifierPattern s.data) ∧
    (∀ (T : Type) [StreamOut T] (pp : ParamParser) (name : String) (value : T) (s : Alerts),
      (isValidName name = false →
        pp.define name value s = error ("Macro \"" ++ name ++ "\" has invalid name") s) ∧
      (isValidName name = true → ∃ pp1 : ParamParser,
        pp.define name value s = Run.returned pp1 s)) ∧
    (∀ (prog : String) (good : List (String × String)) (bad : String × String)
      (rest : List String) (s : Alerts),
      (∀ d ∈ good, isValidName d.1 = true) → (good.map Prod.fst).Nodup →
      '=' ∉ bad.1.data → isValidName bad.1 = false →
      ParamParser.new.load (prog :: (good.map declArg ++ declArg bad :: rest)) s =
        error ("Error while parsing parameter #" ++ toString (good.length + 1) ++ " : "
          ++ "\"" ++ bad.1 ++ "\" is invalid variable name!") s) ∧
    (∀ (prog : String) (decls : List (String × String)) (s : Alerts),
      (∀ d ∈ decls, isValidName d.1 = true) → (decls.map Prod.fst).Nodup →
      ∃ pp1 : ParamParser,
        ParamParser.new.load (prog :: decls.map declArg) s = Run.returned pp1 s) := by
  refine ⟨isValidName_eq_isValidIdentifier, isValidName_iff_matches, ?_, ?_, ?_⟩
  · intro T _ pp name value s
    constructor
    · intro hv
      rw [define_run, if_neg (by simp [hv])]
    · intro hv
      rw [define_run, if_pos hv]
      exact ⟨_, rfl⟩
  · intro prog good bad rest s hgood hnd hne hbad
    exact load_invalid_name prog good bad rest s hgood hnd hne hbad
  · intro prog decls s hv hnd
    exact load_valid_names prog decls s hv hnd

/-- C22, at the names `var_1` and `2x`: the first is an identifier and matches the
pattern; the second is none, `define("2x", 1)` raises the Error, and so does `load` of
`i=1 2x=5` at its second argument. -/
theorem isValidName_iff_identifier_witness :
    isValidName "var_1" = true ∧ isValidIdentifier "var_1" = true ∧
    Regex.Matches identifierPattern "var_1".data ∧
    isValidName "2x" = false ∧ isValidIdentifier "2x" = false ∧
    ParamParser.new.define "2x" (1 : Int) Alerts.init
      = error "Macro \"2x\" has invalid name" Alerts.init ∧
    ParamParser.new.load ["prog", "i=1", "2x=5"] Alerts.init
      = error "Error while parsing parameter #2 : \"2x\" is invalid variable name!"
          Alerts.init := by
  obtain ⟨h1, h2, h3, h4, _⟩ := isValidName_iff_identifier
  have hv : isValidName "var_1" = true := by decide
  have hx : isValidName "2x" = false := by decide
  refine ⟨hv, (h1 "var_1").symm.trans hv, (h2 "var_1").1 hv, hx, (h1 "2x").symm.trans hx,
    (h3 Int ParamParser.new "2x" 1 Alerts.init).1 hx, ?_⟩
  exact h4 "prog" [("i", "1")] ("2x", "5") [] Alerts.init (by decide) (by decide) (by decide) hx

/-! ## Lemmas: a read of a present name in either build -/

theorem recordReference_cases (b : Build) (name tn : String) (vv : VariableValue)
    (s : Alerts) :
    ParamParser.recordReference b name tn vv s =
      if vv.referenced = true ∧ vv.lastType ≠ tn then
        if b.exitOnWarning = true then
          Run.exited { hadError := true, cerr := s.cerr ++
            ["Warning: " ++ ("Variable " ++ name ++ " referenced as two different "
              ++ "types: " ++ vv.lastType ++ " and " ++ tn)] }
        else
          Run.returned { vv with referenced := true } { s with cerr := s.cerr ++
            ["Warning: " ++ ("Variable " ++ name ++ " referenced as two different "
              ++ "types: " ++ vv.lastType ++ " and " ++ tn)] }
      else Run.returned { vv with referenced := true } s := by
  unfold ParamParser.recordReference
  cases hr : vv.referenced with
  | false => simp [pure_run]
  | true =>
    by_cases ht : vv.lastType = tn
    · simp [ht, pure_run, bind_run]
      cases vv
      simp_all
    · cases hb : b.exitOnWarning with
      | false =>
        simp [ht, pure_run, bind_run, warning_cases, hb]
        cases vv
        simp_all
      | true =>
        simp [ht, pure_run, bind_run, warning_cases, hb]

/-- The whole outcome of `get` for a present name whose expanded value
converts to `v`: the type-drift Warning first (fatal in the strict build),
then the validators, then the value. -/
theorem get_present_outcome {T M : Type} [Inhabited T] [TypeInfo T] [ReadFromString T]
    [DataValidate T M] (b : Build) (pp : ParamParser) (hl : pp.loaded_ = true)
    (name : String) (vv : VariableValue) (hf : pp.variables_.find name = some vv)
    (s : Alerts) (v : T) (hp : parseExpanded T pp.preprocessor_ vv.value s = some v)
    (means : M) :
    pp.get b name means s =
      if vv.referenced = true ∧ vv.lastType ≠ TypeInfo.getTypeName T then
        if b.exitOnWarning = true then
          Run.exited { hadError := true, cerr := s.cerr ++
            ["Warning: " ++ ("Variable " ++ name ++ " referenced as two different "
              ++ "types: " ++ vv.lastType ++ " and " ++ TypeInfo.getTypeName T)] }
        else
          (dataValidate b name v means { s with cerr := s.cerr ++
            ["Warning: " ++ ("Variable " ++ name ++ " referenced as two different "
              ++ "types: " ++ vv.lastType ++ " and " ++ TypeInfo.getTypeName T)] }).map
            fun _ => (v, { pp with
              variables_ := pp.variables_.set name
                { vv with referenced := true, lastType := TypeInfo.getTypeName T } })
      else
        (dataValidate b name v means s).map
          fun _ => (v, { pp with
            variables_ := pp.variables_.set name
              { vv with referenced := true, lastType := TypeInfo.getTypeName T } }) := by
  rw [get_present_run b pp hl name vv hf s v hp means, recordReference_cases]
  by_cases hd : vv.referenced = true ∧ vv.lastType ≠ TypeInfo.getTypeName T
  · rw [if_pos hd, if_pos hd]
    cases hb : b.exitOnWarning with
    | true => simp
    | false =>
      simp only [Bool.false_eq_true, if_false]
      cases dataValidate b name v means _ <;> rfl
  · rw [if_neg hd, if_neg hd]
    simp only []
    cases dataValidate b name v means s <;> rfl

/-- A read of a present name whose expansion or conversion fails is that
Error, whatever the build and the validators; nothing else is printed. -/
theorem get_present_failed {T M : Type} [Inhabited T] [TypeInfo T] [ReadFromString T]
    [DataValidate T M] (b : Build) (pp : ParamParser) (hl : pp.loaded_ = true)
    (name : String) (vv : VariableValue) (hf : pp.variables_.find name = some vv)
    (s : Alerts) (hp : parseExpanded T pp.preprocessor_ vv.value s = none) (means : M) :
    ∃ text : String, pp.get (T := T) b name means s = error text s := by
  rw [get_of_loaded b pp hl name means s vv hf]
  rw [parseExpanded_eq] at hp
  simp only [ParamParser.internalGet, hf, bind_run, Preprocessor.preprocess_run]
  cases hx : expandRef pp.preprocessor_.variables_ vv.value.data with
  | error n => exact ⟨_, rfl⟩
  | ok out =>
    rw [hx] at hp
    simp only [] at hp
    simp only [hp]
    exact ⟨_, rfl⟩

theorem get_absent_run {T M : Type} [Inhabited T] [TypeInfo T] [ReadFromString T]
    [DataValidate T M] (b : Build) (pp : ParamParser) (hl : pp.loaded_ = true)
    (name : String) (hf : pp.variables_.find name = none) (means : M) (s : Alerts) :
    pp.get (T := T) b name means s = error ("Variable " ++ name ++ " not found") s := by
  simp only [ParamParser.get, ParamParser.getRef, bind_run, checkLoaded_loaded pp hl, hf]
  rfl

theorem inRange_iff {T : Type} [Integral T] [IntegralValue T] (r : Range T) (v : T) :
    inRange r v = true ↔
      IntegralValue.toInt r.left ≤ IntegralValue.toInt v ∧
      IntegralValue.toInt v ≤ IntegralValue.toInt r.right := by
  simp only [inRange, Bool.and_eq_true, IntegralValue.le_iff]

theorem isError_map {α β : Type} (f : α → β) (r : Run α) :
    (r.map f).IsError ↔ r.IsError := by
  cases r with
  | returned a s =>
    constructor
    · rintro ⟨text, s0, h⟩
      exact absurd h (returned_ne_error _ _ _ _)
    · rintro ⟨text, s0, h⟩
      exact absurd h (returned_ne_error _ _ _ _)
  | exited s =>
    constructor
    · rintro ⟨text, s0, h⟩
      refine ⟨text, s0, ?_⟩
      simp only [Run.map, error] at h ⊢
      injection h with h
      rw [h]
    · rintro ⟨text, s0, h⟩
      refine ⟨text, s0, ?_⟩
      simp only [Run.map, error] at h ⊢
      injection h with h
      rw [h]

theorem get_present_validated {T M : Type} [Inhabited T] [TypeInfo T] [ReadFromString T]
    [DataValidate T M] (b : Build) (pp : ParamParser) (hl : pp.loaded_ = true)
    (name : String) (vv : VariableValue) (hf : pp.variables_.find name = some vv)
    (s : Alerts) (v : T) (hp : parseExpanded T pp.preprocessor_ vv.value s = some v)
    (hnd : ¬ (b.exitOnWarning = true ∧ vv.referenced = true ∧
      vv.lastType ≠ TypeInfo.getTypeName T)) (means : M) :
    ∃ s1 : Alerts, pp.get b name means s =
      (dataValidate b name v means s1).map fun _ => (v, { pp with
        variables_ := pp.variables_.set name
          { vv with referenced := true, lastType := TypeInfo.getTypeName T } }) := by
  rw [get_present_outcome b pp hl name vv hf s v hp means]
  by_cases hd : vv.referenced = true ∧ vv.lastType ≠ TypeInfo.getTypeName T
  · rw [if_pos hd]
    have hb : ¬ b.exitOnWarning = true := fun h => hnd ⟨h, hd⟩
    rw [if_neg hb]
    exact ⟨_, rfl⟩
  · rw [if_neg hd]
    exact ⟨_, rfl⟩

theorem sample_parse :
    parseExpanded String ParamParser.sample.preprocessor_ "@var1, world!" Alerts.init
      = some "hello, world!" := by
  rw [parseExpanded_eq]
  have h : ParamParser.sample.preprocessor_.variables_
      = [("", "@"), ("var1", "hello"), ("var2", "42")] := by decide
  rw [h]
  simp [expandRef, StdMap.find, isValidMiddleChar, isValidStartChar, dropBang,
    ReadFromString.doIt, readString]
  decide

theorem present50_parse (s : Alerts) :
    parseExpanded Int ParamParser.present50.preprocessor_ "50" s = some 50 := by
  rw [parseExpanded_eq, expandRef_no_at _ _ (by decide)]
  rfl

/-! ## What a typed read gives -/

/-- C1, the claim as stated fails.  In the strict build (`PARMPARS_EXIT_ON_WARNING`),
after `x=5` was loaded and read with `get<int>("x")`, the read `get<string>("x")`
finds the name, expands and converts its value, has no validator, and yet does not
return the value: it exits on the type-drift Warning.  And there is a `std::regex`
build, one whose matcher finds that `5` does not match `[a-z]+`, in which
`get<string>("x", "[a-z]+")` is an Error, which is none of the Errors the claim
lists. -/
theorem get_strict_drift_counterexample :
    Build.strict.exitOnWarning = true ∧
    ParamParser.new.load ["prog", "x=5"] Alerts.init
      = Run.returned ParamParser.loadedX Alerts.init ∧
    ParamParser.loadedX.get (T := Int) Build.strict "x" () Alerts.init
      = Run.returned (5, ParamParser.readX "int") Alerts.init ∧
    parseExpanded String (ParamParser.readX "int").preprocessor_ "5" Alerts.init
      = some "5" ∧
    (ParamParser.readX "int").get (T := String) Build.strict "x" () Alerts.init
      = Run.exited ⟨true,
          ["Warning: Variable x referenced as two different types: int and string"]⟩ ∧
    ∃ b : Build, b.useRegex = true ∧ b.exitOnWarning = false ∧
      b.regexMatch "[a-z]+" "5" = false ∧
      ParamParser.loadedX.get (T := String) b "x" "[a-z]+" Alerts.init
        = error "x = \"5\" doesn\'t match regex\"[a-z]+\"" Alerts.init := by
  refine ⟨rfl, load_x_run, ?_, readX_parse_string "int" _, ?_,
    ⟨false, true, fun _ _ => false, fun _ _ => false⟩, rfl, rfl, rfl, ?_⟩
  · rw [get_present_outcome Build.strict ParamParser.loadedX rfl "x"
      ⟨"5", "undefined", 1, false⟩ (by decide) Alerts.init 5 (readX_parse_int "undefined" _) ()]
    decide
  · rw [get_present_outcome Build.strict (ParamParser.readX "int") rfl "x"
      ⟨"5", "int", 1, true⟩ (by decide) Alerts.init "5" (readX_parse_string "int" _) ()]
    decide
  · rw [get_pattern_first_read _ ParamParser.loadedX rfl "x" ⟨"5", "undefined", 1, false⟩
      (by decide) rfl Alerts.init "5" (readX_parse_string "undefined" _) "[a-z]+"]
    rfl

/-- C1, as the code has it, for every build.  On a loaded parser `get<T>(name,
validators)` is the Error "Variable ... not found" when `name` is absent, and an Error
when the expansion or the conversion of the stored raw value fails, whatever the
validators.  When the conversion gives `v`: in the strict build a read of a name whose
most recent read was for another type exits on the type-drift Warning, before any
validator is looked at; in every other case the read returns exactly `v` without a
validator; with an integral `range(a,b)` it is an Error exactly when `a <= v <= b` does
not hold (as integers) and returns `v` when it holds; with a pattern in the `std::regex`
build it is an Error exactly when `v` does not match and returns `v` when it does.
`define` leaves the stored raw values alone and only changes the macro table, and the
read expands with the table of the state it is called in: the macros in force at the
time of the read are used. -/
theorem get_returns_parsed_expansion {T : Type} [Inhabited T] [TypeInfo T] [ReadFromString T]
    (b : Build) (pp : ParamParser) (hl : pp.loaded_ = true) (name : String) (s : Alerts) :
    (pp.variables_.find name = none →
      ∀ (M : Type) [DataValidate T M] (means : M),
        pp.get (T := T) b name means s = error ("Variable " ++ name ++ " not found") s) ∧
    (∀ vv, pp.variables_.find name = some vv →
      (parseExpanded T pp.preprocessor_ vv.value s = none →
        ∀ (M : Type) [DataValidate T M] (means : M), (pp.get (T := T) b name means s).IsError) ∧
      (∀ v : T, parseExpanded T pp.preprocessor_ vv.value s = some v →
        (b.exitOnWarning = true → vv.referenced = true →
          vv.lastType ≠ TypeInfo.getTypeName T →
          ∀ (M : Type) [DataValidate T M] (means : M),
            pp.get (T := T) b name means s =
              Run.exited { hadError := true, cerr := s.cerr ++
                ["Warning: " ++ ("Variable " ++ name ++ " referenced as two different "
                  ++ "types: " ++ vv.lastType ++ " and " ++ TypeInfo.getTypeName T)] }) ∧
        (¬ (b.exitOnWarning = true ∧ vv.referenced = true ∧
            vv.lastType ≠ TypeInfo.getTypeName T) →
          (∃ pp1 s1, pp.get b name () s = Run.returned (v, pp1) s1) ∧
          (∀ [Integral T] [IntegralValue T] [StreamOut T] (r : Range T),
            ((pp.get (T := T) b name r s).IsError ↔
              ¬ (IntegralValue.toInt r.left ≤ IntegralValue.toInt v ∧
                IntegralValue.toInt v ≤ IntegralValue.toInt r.right)) ∧
            (IntegralValue.toInt r.left ≤ IntegralValue.toInt v ∧
                IntegralValue.toInt v ≤ IntegralValue.toInt r.right →
              ∃ pp1 s1, pp.get b name r s = Run.returned (v, pp1) s1))))) ∧
    (∀ (vv : VariableValue) (text : String), pp.variables_.find name = some vv →
      parseExpanded String pp.preprocessor_ vv.value s = some text →
      ¬ (b.exitOnWarning = true ∧ vv.referenced = true ∧ vv.lastType ≠ "string") →
      b.useRegex = true → ∀ re : String,
        ((pp.get (T := String) b name re s).IsError ↔ b.regexMatch re text = false) ∧
        (b.regexMatch re text = true →
          ∃ pp1 s1, pp.get b name re s = Run.returned (text, pp1) s1)) ∧
    (∀ (V : Type) [StreamOut V] (m : String) (value : V) (pp1 : ParamParser) (s1 : Alerts),
      pp.define m value s = Run.returned pp1 s1 →
        pp1.variables_ = pp.variables_ ∧ pp1.loaded_ = true ∧ s1 = s ∧
        pp1.preprocessor_.variables_
          = pp.preprocessor_.variables_.set m (StreamOut.format value)) := by
  refine ⟨?_, ?_, ?_, ?_⟩
  · intro hf M _ means
    exact get_absent_run b pp hl name hf means s
  · intro vv hf
    refine ⟨?_, ?_⟩
    · intro hnone M _ means
      obtain ⟨text, h⟩ := get_present_failed (T := T) b pp hl name vv hf s hnone means
      rw [h]
      exact error_isError _ _
    · intro v hv
      refine ⟨?_, ?_⟩
      · intro hb hr ht M _ means
        rw [get_present_outcome b pp hl name vv hf s v hv means, if_pos ⟨hr, ht⟩, if_pos hb]
      · intro hnd
        refine ⟨?_, ?_⟩
        · obtain ⟨s1, h⟩ := get_present_validated b pp hl name vv hf s v hv hnd ()
          exact ⟨_, s1, h⟩
        · intro _ _ _ r
          obtain ⟨s1, h⟩ := get_present_validated b pp hl name vv hf s v hv hnd r
          rw [h, isError_map, dataValidate_range_run, ← inRange_iff]
          cases hin : inRange r v with
          | true =>
            rw [if_pos rfl]
            exact ⟨⟨fun he => absurd he (not_isError_returned _ _), fun hn => absurd rfl hn⟩,
              fun _ => ⟨_, _, rfl⟩⟩
          | false =>
            rw [if_neg (by decide)]
            exact ⟨⟨fun _ hn => Bool.noConfusion hn, fun _ => error_isError _ _⟩,
              fun hn => Bool.noConfusion hn⟩
  · intro vv text hf hv hnd hu re
    obtain ⟨s1, h⟩ := get_present_validated b pp hl name vv hf s text hv hnd re
    rw [h, isError_map, dataValidate_pattern_run]
    cases hm : b.regexMatch re text with
    | true =>
      simp only [hu, if_true, Bool.not_true, Bool.false_eq_true, if_false]
      exact ⟨⟨fun he => absurd he (not_isError_returned _ _), fun hn => Bool.noConfusion hn⟩,
        fun _ => ⟨_, _, rfl⟩⟩
    | false =>
      simp only [hu, if_true, Bool.not_false]
      exact ⟨⟨fun _ => trivial, fun _ => error_isError _ _⟩, fun hn => Bool.noConfusion hn⟩
  · intro V _ m value pp1 s1 hd
    rw [define_run] at hd
    by_cases hv : isValidName m = true
    · rw [if_pos hv] at hd
      injection hd with h1 h2
      subst h1
      exact ⟨rfl, hl, h2.symm, rfl⟩
    · rw [if_neg hv] at hd
      exact absurd hd.symm (returned_ne_error _ _ _ _)

/-- C1, at two parsers.  At the parser of `test_macros.cpp` (`s1` loaded as `@var1,
world!`, `var1` and `var2` defined after the load) the read without validator returns
`hello, world!`.  At `present=50`, `get<int>("present", range(1,100))` returns 50 and
`get<int>("present", range(60,100))` is an Error, 50 being below 60. -/
theorem get_returns_parsed_expansion_witness :
    (do
      let p0 ← ParamParser.new.load ["prog", "s1=@var1, world!"]
      let p1 ← p0.define "var1" "hello"
      p1.define "var2" (42 : Int)) Alerts.init
      = Run.returned ParamParser.sample Alerts.init ∧
    ParamParser.sample.loaded_ = true ∧
    (∃ pp1 s1, ParamParser.sample.get Build.plain "s1" () Alerts.init
      = Run.returned ("hello, world!", pp1) s1) ∧
    ParamParser.present50.loaded_ = true ∧
    (∃ pp1 s1, ParamParser.present50.get Build.plain "present" (⟨1, 100⟩ : Range Int)
      Alerts.init = Run.returned ((50 : Int), pp1) s1) ∧
    (ParamParser.present50.get (T := Int) Build.plain "present" (⟨60, 100⟩ : Range Int)
      Alerts.init).IsError :=
  ⟨by decide, rfl,
    ((((get_returns_parsed_expansion (T := String) Build.plain ParamParser.sample rfl "s1"
      Alerts.init).2.1 ⟨"@var1, world!", "undefined", 1, false⟩ (by decide)).2
        "hello, world!" sample_parse).2 (by decide)).1,
    rfl,
    (((((get_returns_parsed_expansion (T := Int) Build.plain ParamParser.present50 rfl
      "present" Alerts.init).2.1 ⟨"50", "undefined", 1, false⟩ (by decide)).2
        50 (present50_parse _)).2 (by decide)).2 ⟨1, 100⟩).2 (by decide),
    (((((get_returns_parsed_expansion (T := Int) Build.plain ParamParser.present50 rfl
      "present" Alerts.init).2.1 ⟨"50", "undefined", 1, false⟩ (by decide)).2
        50 (present50_parse _)).2 (by decide)).2 ⟨60, 100⟩).1.2 (by decide)⟩

/-! ## Lemmas: the audit in the strict build -/

theorem auditLoop_strict (b : Build) (hb : b.exitOnWarning = true)
    (vars : StdMap VariableValue) :
    ∀ s : Alerts, ParamParser.auditLoop b vars s =
      match (flags vars).filter fun e => !e.2 with
      | [] => Run.returned () s
      | e :: _ => Run.exited { hadError := true, cerr := s.cerr ++ [unusedLine e.1] } := by
  induction vars with
  | nil =>
    intro s
    simp [ParamParser.auditLoop, pure_run, flags]
  | cons e rest ih =>
    intro s
    obtain ⟨name, value⟩ := e
    rw [ParamParser.auditLoop]
    cases hr : value.referenced with
    | true =>
      simp [bind_run, pure_run, ih, flags, hr]
    | false =>
      simp [bind_run, warning_cases, hb, flags, hr, unusedLine]

theorem destroy_run (b : Build) (pp : ParamParser) (s : Alerts) (hl : pp.loaded_ = true)
    (he : s.hadError = false) : pp.destroy b s = ParamParser.auditLoop b pp.variables_ s := by
  unfold ParamParser.destroy
  simp [hl, he]

/-! ## The audit at teardown -/

/-- C7, the claim as stated fails: in the strict build (`PARMPARS_EXIT_ON_WARNING`),
after `load` of `x=1 y=2` and no read, the audit prints the Warning for `x` and exits;
`y` was never read either and gets no Warning. -/
theorem destroy_strict_counterexample :
    Build.strict.exitOnWarning = true ∧ Alerts.init.hadError = false ∧
    ParamParser.new.load ["prog", "x=1", "y=2"] Alerts.init
      = Run.returned
          ⟨true, [("x", ⟨"1", "undefined", 1, false⟩), ("y", ⟨"2", "undefined", 2, false⟩)],
            Preprocessor.new⟩ Alerts.init ∧
    ParamParser.destroy Build.strict
        ⟨true, [("x", ⟨"1", "undefined", 1, false⟩), ("y", ⟨"2", "undefined", 2, false⟩)],
          Preprocessor.new⟩ Alerts.init
      = Run.exited ⟨true, ["Warning: Variable x is unused!"]⟩ := by
  decide

/-- C7, as the code has it: with `hadError` unset at the start, after a `load` that
returned and any sequence of typed reads that returned, the loaded names that are not
among the names read are audited in key order.  In a build where Warnings are not fatal
the destructor prints exactly the lines `Warning: Variable n is unused!` for these
names: one line for each such name and none for a name that was read.  In the strict
build it prints the line of the first such name and exits, and prints nothing when every
name was read. -/
theorem destroy_reports_unused (b : Build) (argv : List String) (s0 : Alerts)
    (hs : s0.hadError = false) (pp0 : ParamParser) (s1 : Alerts)
    (hload : ParamParser.new.load argv s0 = Run.returned pp0 s1)
    (names : List String) (pp2 : ParamParser) (s2 : Alerts)
    (hreads : Reads b pp0 s1 names pp2 s2) :
    pp0.variables_.keys.Nodup ∧ s2.hadError = false ∧
    (b.exitOnWarning = false →
      pp2.destroy b s2 = Run.returned () { s2 with cerr := s2.cerr ++
        (pp0.variables_.keys.filter fun n => decide (n ∉ names)).map unusedLine }) ∧
    (b.exitOnWarning = true →
      pp2.destroy b s2 =
        match pp0.variables_.keys.filter fun n => decide (n ∉ names) with
        | [] => Run.returned () s2
        | n :: _ => Run.exited { hadError := true, cerr := s2.cerr ++ [unusedLine n] }) ∧
    ∀ n, ((pp0.variables_.keys.filter fun n => decide (n ∉ names)).map unusedLine).count
        (unusedLine n) = if n ∈ pp0.variables_.keys ∧ n ∉ names then 1 else 0 := by
  obtain ⟨h1, h2, h3, h4⟩ := load_returned argv s0 pp0 s1 hload
  subst h1
  obtain ⟨r1, r2, r3⟩ := reads_effect b pp0 s1 names pp2 s2 hreads h3 h2
  have hnd := StdMap.nodup_keys_of_ordered _ h3
  have herr : s2.hadError = false := r1.trans hs
  have hunused : ((flags pp2.variables_).filter fun e => !e.2)
      = (pp0.variables_.keys.filter fun n => decide (n ∉ names)).map fun k => (k, false) := by
    rw [r3, flags_unreferenced _ h4]
    simp only [List.map_map, List.filter_map, Function.comp_def, Bool.false_or,
      decide_not]
    apply List.map_congr_left
    intro x hx
    have hx2 := (List.mem_filter.1 hx).2
    simp only [Bool.not_eq_true', decide_eq_false_iff_not] at hx2
    simp [hx2]
  refine ⟨hnd, herr, ?_, ?_, ?_⟩
  · intro hb
    rw [destroy_run b pp2 s2 r2 herr, auditLoop_run b hb, hunused]
    simp only [List.map_map, Function.comp_def]
  · intro hb
    rw [destroy_run b pp2 s2 r2 herr, auditLoop_strict b hb, hunused]
    cases pp0.variables_.keys.filter fun n => decide (n ∉ names) with
    | nil => rfl
    | cons n rest => rfl
  · intro n
    rw [List.count_map_of_injective _ _ unusedLine_injective]
    have hnd2 : (pp0.variables_.keys.filter fun n => decide (n ∉ names)).Nodup :=
      hnd.filter _
    by_cases hn : n ∈ pp0.variables_.keys ∧ n ∉ names
    · rw [if_pos hn]
      apply List.count_eq_one_of_mem hnd2
      simp [List.mem_filter, hn.1, hn.2]
    · rw [if_neg hn]
      apply List.count_eq_zero_of_not_mem
      intro hmem
      simp only [List.mem_filter, decide_eq_true_eq] at hmem
      exact hn hmem

/-- C7, at the scenario of the spec: after loading `i=1 l=2000111222 unused=45` and
reading `i` and `l` as `int`, the destructor of the build of `test.cpp` prints the one
line that names `unused`; the strict build prints the same line and exits. -/
theorem destroy_reports_unused_witness :
    Alerts.init.hadError = false ∧
    ParamParser.new.load ["prog", "i=1", "l=2000111222", "unused=45"] Alerts.init
      = Run.returned ParamParser.loaded3 Alerts.init ∧
    (∃ pp2 s2, Reads Build.plain ParamParser.loaded3 Alerts.init ["i", "l"] pp2 s2 ∧
      pp2.destroy Build.plain s2
        = Run.returned () ⟨false, ["Warning: Variable unused is unused!"]⟩) ∧
    ∃ pp2 s2, Reads Build.strict ParamParser.loaded3 Alerts.init ["i", "l"] pp2 s2 ∧
      pp2.destroy Build.strict s2
        = Run.exited ⟨true, ["Warning: Variable unused is unused!"]⟩ := by
  have hload : ParamParser.new.load ["prog", "i=1", "l=2000111222", "unused=45"] Alerts.init
      = Run.returned ParamParser.loaded3 Alerts.init := by decide
  have g1 := fun b => get_first_read (T := Int) b ParamParser.loaded3 "i" Alerts.init
    ⟨"1", "undefined", 1, false⟩ 1 rfl (by decide) (by decide) (by decide) rfl
  have g2 := fun b => get_first_read (T := Int) b
    { ParamParser.loaded3 with
      variables_ := ParamParser.loaded3.variables_.set "i" ⟨"1", "int", 1, true⟩ }
    "l" Alerts.init ⟨"2000111222", "undefined", 2, false⟩ 2000111222 rfl (by decide)
    (by decide) (by decide) rfl
  have hreads := fun b => Reads.cons (ReadStep.get (Pack.empty Int) _ _ _ _ _ _ _ (g1 b))
    (Reads.cons (ReadStep.get (Pack.empty Int) _ _ _ _ _ _ _ (g2 b)) (Reads.nil _ _))
  refine ⟨rfl, hload, ⟨_, _, hreads Build.plain, ?_⟩, ⟨_, _, hreads Build.strict, ?_⟩⟩
  · exact (destroy_reports_unused Build.plain _ Alerts.init rfl ParamParser.loaded3
      Alerts.init hload ["i", "l"] _ _ (hreads Build.plain)).2.2.1 rfl
  · exact (destroy_reports_unused Build.strict _ Alerts.init rfl ParamParser.loaded3
      Alerts.init hload ["i", "l"] _ _ (hreads Build.strict)).2.2.2.1 rfl

/-! ## The pattern validator in the testlib build -/

/-- C17, at the failing input `schk=gepardo.debian`: there is a testlib build whose
matcher finds that `gepardo.debian` matches `gepardo.[a-zA-Z]{1,10}` (as it does,
whether the dot of the pattern stands for itself or for any character), and in it the
read `get<string>("schk", "gepardo.[a-zA-Z]{1,10}")` is the Error that says the value
does not match. -/
theorem pattern_validator_outcome_witness :
    ParamParser.new.load ["prog", "schk=gepardo.debian"] Alerts.init
      = Run.returned ParamParser.loadedSchk Alerts.init ∧
    ∃ b : Build, b.useRegex = false ∧
      b.patternMatches "gepardo.[a-zA-Z]{1,10}" "gepardo.debian" = true ∧
      ParamParser.loadedSchk.get (T := String) b "schk" "gepardo.[a-zA-Z]{1,10}" Alerts.init
        = error "schk = \"gepardo.debian\" doesn\'t match regex\"gepardo.[a-zA-Z]{1,10}\""
            Alerts.init := by
  have hp : parseExpanded String ParamParser.loadedSchk.preprocessor_ "gepardo.debian"
      Alerts.init = some "gepardo.debian" := by
    rw [parseExpanded_eq, expandRef_no_at _ _ (by decide)]
    rfl
  exact ⟨by decide, Build.tests fun _ _ => true, rfl, rfl,
    ((pattern_validator_outcome (Build.tests fun _ _ => true) ParamParser.loadedSchk rfl
      "schk" ⟨"gepardo.debian", "undefined", 1, false⟩ (by decide) rfl Alerts.init
      "gepardo.debian" hp "gepardo.[a-zA-Z]{1,10}").2 rfl).2.1 rfl⟩

/-! ## An argument without the equals sign -/

theorem typedReads_absent (b : Build) (pp : ParamParser) (s : Alerts)
    (events : List (String × String)) (pp2 : ParamParser) (s2 : Alerts)
    (h : TypedReads b pp s events pp2 s2) (name : String)
    (hf : pp.variables_.find name = none) : pp2.variables_.find name = none := by
  induction h with
  | nil pp s => exact hf
  | @cons pp pp1 pp2 s s1 s2 event events hstep _ ih =>
    apply ih
    obtain ⟨_, _, heff⟩ := typedRead_effect b pp s event pp1 s1 hstep
    rcases heff with ⟨_, hpp⟩ | ⟨vv, hsome, hpp⟩
    · rw [hpp]; exact hf
    · rw [hpp]
      simp only []
      have hne : event.1 ≠ name := by
        intro e
        rw [e, hf] at hsome
        cases hsome
      rw [StdMap.find_set_ne _ _ _ _ hne]
      exact hf

theorem alerts_append_nil (s : Alerts) : ({ s with cerr := s.cerr ++ [] } : Alerts) = s := by
  cases s
  simp

/-! ## Type drift, read by read -/

/-- C18, as the code has it: in a build where Warnings are not fatal, after a `load`
that returned and any sequence of typed reads that returned (`get` or `getDefault`, with
any of the validator packs), take a typed read of `name` with target type `T`.  If
`name` is in the table, `getDefault` does what `get` does, and: when the expansion or
the conversion of the value fails the read is that one Error, and no Warning is printed;
when the conversion gives `v` the read first prints the lines `driftLines`, which are
nothing when `name` was not read before or when its most recent read used the type name
of `T`, and the single line "Warning: Variable <name> referenced as two different types:
<last> and <T>" when its most recent read used another type name; then it runs the
validators, and unless a validator ends the program it returns `v`, the entry of `name`
now recording the type name of `T`.  If `name` is not in the table, `get` is the Error
"Variable ... not found", and `getDefault` validates and returns the default, prints no
Warning and leaves the parser as it was. -/
theorem drift_warning_by_last_read {T M : Type} [Inhabited T] [TypeInfo T]
    [ReadFromString T] [DataValidate T M] (b : Build) (hb : b.exitOnWarning = false)
    (argv : List String) (s0 : Alerts) (pp0 : ParamParser) (s1 : Alerts)
    (hload : ParamParser.new.load argv s0 = Run.returned pp0 s1)
    (events : List (String × String)) (pp : ParamParser) (s : Alerts)
    (hreads : TypedReads b pp0 s1 events pp s) (name : String) (means : M) (d : T) :
    (∀ vv0, pp0.variables_.find name = some vv0 →
      pp.getDefault b name d means s = pp.get b name means s ∧
      (parseExpanded T pp.preprocessor_ vv0.value s = none →
        ∃ text : String, pp.get (T := T) b name means s = error text s) ∧
      (∀ v : T, parseExpanded T pp.preprocessor_ vv0.value s = some v →
        pp.get b name means s =
          (dataValidate b name v means
            { s with
              cerr := s.cerr ++
                driftLines name (TypeInfo.getTypeName T) (lastTypeOf events name) }).map
            fun _ => (v, { pp with
              variables_ := pp.variables_.set name
                ⟨vv0.value, TypeInfo.getTypeName T, vv0.paramNumber, true⟩ }))) ∧
    (pp0.variables_.find name = none →
      pp.get (T := T) b name means s = error ("Variable " ++ name ++ " not found") s ∧
      pp.getDefault b name d means s
        = (dataValidate b name d means s).map fun _ => (d, pp)) := by
  obtain ⟨_, hl0, _, hunref⟩ := load_returned argv s0 pp0 s1 hload
  obtain ⟨_, hl, hentry⟩ := typedReads_entry b pp0 s1 events pp s hreads
  have hlp : pp.loaded_ = true := hl.trans hl0
  refine ⟨?_, ?_⟩
  · intro vv0 hpres
    have hr0 : vv0.referenced = false := hunref _ (StdMap.mem_of_find _ _ _ hpres)
    have hf := hentry name vv0 hpres
    refine ⟨getDefault_present_run b pp name _ hf d means s, ?_, ?_⟩
    · intro hnone
      exact get_present_failed (T := T) b pp hlp name _ hf s hnone means
    · intro v hv
      rw [get_present_outcome b pp hlp name _ hf s v hv means]
      simp only [hr0, Bool.false_or, hb, Bool.false_eq_true, if_false]
      cases hlast : lastTypeOf events name with
      | none =>
        simp only [Option.isSome_none, Bool.false_eq_true, false_and, if_false, driftLines,
          alerts_append_nil]
      | some t =>
        by_cases ht : t = TypeInfo.getTypeName T
        · simp [driftLines, ht, alerts_append_nil]
        · simp [driftLines, ht]
  · intro hnone
    have hf := typedReads_absent b pp0 s1 events pp s hreads name hnone
    exact ⟨get_absent_run b pp hlp name hf means s,
      getDefault_absent_run b pp hlp name hf d means s⟩

/-- C18, at the trace `load ["prog", "x=5"]`, `get<int>("x")`, then `get<string>("x")`,
which prints the type-drift Warning and returns `5`; after it `getDefault<int>("y", 7)`
of the absent `y` returns 7 and prints nothing. -/
theorem drift_warning_by_last_read_witness :
    Build.plain.exitOnWarning = false ∧
    ParamParser.new.load ["prog", "x=5"] Alerts.init
      = Run.returned ParamParser.loadedX Alerts.init ∧
    TypedReads Build.plain ParamParser.loadedX Alerts.init [("x", "int")]
      (ParamParser.readX "int") Alerts.init ∧
    (ParamParser.readX "int").get (T := String) Build.plain "x" () Alerts.init
      = Run.returned ("5", ParamParser.readX "string")
          ⟨false, ["Warning: Variable x referenced as two different types: int and string"]⟩ ∧
    (ParamParser.readX "int").getDefault Build.plain "y" (7 : Int) () Alerts.init
      = Run.returned (7, ParamParser.readX "int") Alerts.init := by
  have hload : ParamParser.new.load ["prog", "x=5"] Alerts.init
      = Run.returned ParamParser.loadedX Alerts.init := load_x_run
  have hreads : TypedReads Build.plain ParamParser.loadedX Alerts.init [("x", "int")]
      (ParamParser.readX "int") Alerts.init :=
    TypedReads.cons
      (TypedRead.get (T := Int) (Pack.empty Int) ParamParser.loadedX Alerts.init "x" () 5
        (ParamParser.readX "int") Alerts.init loadedX_get_int)
      (TypedReads.nil _ _)
  have hx := ((drift_warning_by_last_read (T := String) Build.plain rfl
    ["prog", "x=5"] Alerts.init ParamParser.loadedX Alerts.init hload [("x", "int")]
    (ParamParser.readX "int") Alerts.init hreads "x" () "").1
      ⟨"5", "undefined", 1, false⟩ (by decide)).2.2 "5" (readX_parse_string "int" _)
  have hy := ((drift_warning_by_last_read (T := Int) Build.plain rfl
    ["prog", "x=5"] Alerts.init ParamParser.loadedX Alerts.init hload [("x", "int")]
    (ParamParser.readX "int") Alerts.init hreads "y" () 7).2 (by decide)).2
  exact ⟨rfl, hload, hreads, hx.trans (by decide), hy.trans (by decide)⟩

end ParmPars
